import Mathlib

/-!
# ljson: loose, schema-directed JSON decoding

A shallow embedding of `decode.go` (package `ljson`).

* Go types seen through `reflect` are the inductive `GoType`; typed storage is `Value`;
  a Go `interface{}` argument is `Any` (`none` is the untyped nil).
* A pointer owns its pointee (`Value.ptrTo v`), so a call that mutates through a pointer
  is a function returning the pointer with its new pointee.
* The three libraries the package calls (`jsoniter`, `jsonrepair`, `cast`) and the
  conversions of `reflect.Value.Convert` between different types are the fields of `Env`.
* Every function returns a `Result`: `ok` (a nil error), `error` (a returned error),
  `panic` (a run-time panic) or `exhausted` (the fuel of the model ran out, which stands
  for a recursion that has not returned yet).
-/

namespace Ljson

/-! ## Data model -/

/-- A Go `float64`, kept as an exact decimal `mant * 10 ^ exp` in normal form (`exp ≤ 0`,
and `mant` is not a multiple of ten when `exp < 0`); the rounding to 53 bits is not
modelled. -/
structure Float64 where
  mant : Int
  exp : Int
  deriving DecidableEq, Repr

/-- The width of an integer kind: `int`/`uint` (64 bits), and the sized kinds. -/
inductive Width where
  | native
  | w8
  | w16
  | w32
  | w64
  deriving DecidableEq, Repr

/-- Number of bits of an integer kind. -/
def Width.bits : Width → Nat
  | .native => 64
  | .w8 => 8
  | .w16 => 16
  | .w32 => 32
  | .w64 => 64

/-- The suffix of the kind name: `int`, `int8`, ... -/
def Width.suffix : Width → String
  | .native => ""
  | .w8 => "8"
  | .w16 => "16"
  | .w32 => "32"
  | .w64 => "64"

/-- A struct field as `reflect` shows it: its Go name, the value of `Tag.Get("json")`,
whether it is exported (so that `CanSet` holds on an addressable struct), its type. -/
structure Field (α : Type) where
  name : String
  tag : String
  exported : Bool
  type : α

/-- Go types, classified by `reflect.Kind`. Maps have `string` keys. `other` is any kind
the `switch` of `unmarshal` has no case for (array, chan, func, complex64, ...). -/
inductive GoType where
  | slice (elem : GoType)
  | map (elem : GoType)
  | struct (fields : List (Field GoType))
  | ptr (elem : GoType)
  | iface
  | string
  | int (width : Width)
  | uint (width : Width)
  | float32
  | float64
  | bool
  | other (kind : String)

/-- Typed Go values (the storage a pointer refers to). -/
inductive Value where
  | str (s : String)
  | int (n : Int)
  | uint (n : Nat)
  | float (x : Float64)
  | bool (b : Bool)
  | nilSlice
  | slice (xs : List Value)
  | nilMap
  | map (kvs : List (String × Value))
  | struct (fs : List Value)
  | nilPtr
  | ptrTo (v : Value)
  | nilIface
  | iface (t : GoType) (v : Value)
  | other

/-- A Go `interface{}`: `none` is nil, otherwise a dynamic type and a value of it. -/
abbrev Any := Option (GoType × Value)

/-- The generic value `json.Unmarshal` stores into an empty `interface{}`: nil, `bool`,
`float64`, `string`, `[]interface{}` or `map[string]interface{}`. The list of an `obj`
is in the order in which `range` visits the map (Go leaves that order unspecified). -/
inductive Raw where
  | null
  | bool (b : Bool)
  | num (x : Float64)
  | str (s : String)
  | arr (xs : List Raw)
  | obj (kvs : List (String × Raw))

/-- How a call ends. -/
inductive Result where
  | ok
  | error (msg : String)
  | panic (msg : String)
  | exhausted
  deriving DecidableEq, Repr

mutual
/-- `reflect.Zero(t)`: the zero value of a type. -/
def zero : GoType → Value
  | .slice _ => .nilSlice
  | .map _ => .nilMap
  | .struct fields => .struct (zeroFields fields)
  | .ptr _ => .nilPtr
  | .iface => .nilIface
  | .string => .str ""
  | .int _ => .int 0
  | .uint _ => .uint 0
  | .float32 => .float ⟨0, 0⟩
  | .float64 => .float ⟨0, 0⟩
  | .bool => .bool false
  | .other _ => .other
/-- Zero values of the fields of a struct, in declaration order. -/
def zeroFields : List (Field GoType) → List Value
  | [] => []
  | f :: fs => zero f.type :: zeroFields fs
end

mutual
/-- Identity of types (`reflect.Type` equality). -/
def GoType.beq : GoType → GoType → Bool
  | .slice a, .slice b => GoType.beq a b
  | .map a, .map b => GoType.beq a b
  | .struct fs, .struct gs => beqFields fs gs
  | .ptr a, .ptr b => GoType.beq a b
  | .iface, .iface => true
  | .string, .string => true
  | .int a, .int b => decide (a = b)
  | .uint a, .uint b => decide (a = b)
  | .float32, .float32 => true
  | .float64, .float64 => true
  | .bool, .bool => true
  | .other a, .other b => decide (a = b)
  | _, _ => false
/-- Identity of field lists. -/
def beqFields : List (Field GoType) → List (Field GoType) → Bool
  | [], [] => true
  | f :: fs, g :: gs =>
    decide (f.name = g.name) && decide (f.tag = g.tag) && decide (f.exported = g.exported)
      && GoType.beq f.type g.type && beqFields fs gs
  | _, _ => false
end

mutual
/-- A generic value as the content of an `interface{}` slot. -/
def Raw.toValue : Raw → Value
  | .null => .nilIface
  | .bool b => .iface .bool (.bool b)
  | .num x => .iface .float64 (.float x)
  | .str s => .iface .string (.str s)
  | .arr xs => .iface (.slice .iface) (.slice (Raw.toValues xs))
  | .obj kvs => .iface (.map .iface) (.map (Raw.toEntries kvs))
/-- Elements of a generic array. -/
def Raw.toValues : List Raw → List Value
  | [] => []
  | x :: xs => Raw.toValue x :: Raw.toValues xs
/-- Entries of a generic object. -/
def Raw.toEntries : List (String × Raw) → List (String × Value)
  | [] => []
  | (k, x) :: kvs => (k, Raw.toValue x) :: Raw.toEntries kvs
end

/-- `v.Interface()` of a value held in a slot of type `t`: the dynamic content when `t` is
an interface type, the value with its type otherwise. -/
def Value.Interface (t : GoType) (v : Value) : Any :=
  match t with
  | .iface =>
    match v with
    | .iface t1 x => some (t1, x)
    | _ => none
  | _ => some (t, v)

/-- A generic value passed as an `interface{}` argument. -/
def Raw.toAny (r : Raw) : Any := Value.Interface .iface (Raw.toValue r)

/-- The name of the dynamic type of a generic value, as a failed type assertion prints it. -/
def Raw.typeName : Raw → String
  | .null => "nil"
  | .bool _ => "bool"
  | .num _ => "float64"
  | .str _ => "string"
  | .arr _ => "[]interface {}"
  | .obj _ => "map[string]interface {}"

/-- `reflect.ValueOf(p).Elem()` for a pointer `p`: the storage it points at. -/
def Any.elem : Any → Value
  | some (_, .ptrTo v) => v
  | _ => .other

/-- The type assertion `value.(string)`. -/
def Any.asString : Any → Option String
  | some (.string, .str s) => some s
  | _ => none

/-- `reflect.New(t).Interface()`: a pointer to fresh zero storage of type `t`. -/
def newPtr (t : GoType) : Any := some (.ptr t, .ptrTo (zero t))

/-- A non-nil pointer to the storage `v` of type `t`. -/
def ptrAt (t : GoType) (v : Value) : Any := some (.ptr t, .ptrTo v)

/-- Two's complement truncation of `SetInt` to the width of the destination. -/
def wrapInt (width : Width) (n : Int) : Int :=
  (n + 2 ^ (width.bits - 1)) % 2 ^ width.bits - 2 ^ (width.bits - 1)

/-- Truncation of `SetUint` to the width of the destination. -/
def wrapUint (width : Width) (n : Nat) : Nat := n % 2 ^ width.bits

/-- `Kind.String()` of a type, as printed by the `%s` of the last line of `unmarshal`. -/
def GoType.kindName : GoType → String
  | .slice _ => "slice"
  | .map _ => "map"
  | .struct _ => "struct"
  | .ptr _ => "ptr"
  | .iface => "interface"
  | .string => "string"
  | .int width => "int" ++ width.suffix
  | .uint width => "uint" ++ width.suffix
  | .float32 => "float32"
  | .float64 => "float64"
  | .bool => "bool"
  | .other k => k

/-- The first test of `processValue`: kinds Slice, Map, Struct, Ptr and Interface. -/
def GoType.isStructural : GoType → Bool
  | .slice _ => true
  | .map _ => true
  | .struct _ => true
  | .ptr _ => true
  | .iface => true
  | _ => false

/-! ## The external collaborators -/

/-- The libraries `decode.go` imports, as parameters of the model.

* `JSONRepair` is `jsonrepair.JSONRepair`: the repaired text, or `none` for an error.
* `Unmarshal data t v` is `json.Unmarshal(data, p)` for a non-nil `p` pointing at storage
  `v` of type `t`: the error (if any) and the storage afterwards.
* `UnmarshalRaw data` is `json.Unmarshal(data, &raw)` for a nil `raw interface{}`.
* `Marshal` is `json.Marshal`.
* `ToString`, `ToInt`, ... are the functions of `cast`; `ToInt .w8` is `cast.ToInt8`, etc.
* `Float32` is the conversion `float32(x)` done by `SetFloat` on a `float32`.
* `Convert x t` is `reflect.ValueOf(x).Convert(t)` for a value whose type is not `t`
  (`none` when it panics). -/
structure Env where
  JSONRepair : String → Option String
  Unmarshal : String → GoType → Value → Option String × Value
  UnmarshalRaw : String → Except String Raw
  Marshal : Any → Except String String
  ToString : Any → String
  ToInt : Width → Any → Int
  ToUint : Width → Any → Nat
  ToFloat32 : Any → Float64
  ToFloat64 : Any → Float64
  ToBool : Any → Bool
  Float32 : Float64 → Float64
  Convert : GoType × Value → GoType → Option Value

/-! ## decode.go -/

/-- Source `isJSONString`: at least two bytes, the first one an opening brace or bracket,
and the text parses into a throwaway generic value. -/
def isJSONString (env : Env) (str : String) : Bool :=
  if str.utf8ByteSize < 2 ∨ (str.data.head? ≠ some '\x7b' ∧ str.data.head? ≠ some '[') then
    false
  else
    match env.UnmarshalRaw str with
    | .ok _ => true
    | .error _ => false

/-- Source `findFieldByJSONTag`: the first field, in declaration order, whose json tag is
the key or the key followed by `,omitempty`; `none` is the invalid `reflect.Value`. The
result is the index of the field and its descriptor. -/
def findFieldByJSONTag : List (Field GoType) → String → Option (Nat × Field GoType)
  | [], _ => none
  | f :: fs, jsonTag =>
    if f.tag = jsonTag ∨ f.tag = jsonTag ++ ",omitempty" then some (0, f)
    else
      match findFieldByJSONTag fs jsonTag with
      | some (i, g) => some (i + 1, g)
      | none => none

/-- The text an item is decoded from (lines 69-79, 101-111 and 195-201): its own content
when it is a string that `isJSONString` accepts, its `json.Marshal` otherwise. -/
def chooseText (env : Env) (value : Any) : Except String String :=
  match value.asString with
  | some jsonString => if isJSONString env jsonString then .ok jsonString else env.Marshal value
  | none => env.Marshal value

/-- The test `raw.(string)` and `isJSONString` that opens the Slice, Map and Struct cases. -/
def embedded (env : Env) (raw : Raw) : Option String :=
  match raw with
  | .str jsonString => if isJSONString env jsonString then some jsonString else none
  | _ => none

/-- `reflect.ValueOf(x).Convert(t)`: panics (`none`) on the zero `reflect.Value` of a nil
interface, wraps the value when `t` is an interface type, is the identity on a value of
type `t`, and is left to `Env.Convert` otherwise. -/
def convert (env : Env) (x : Any) (t : GoType) : Option Value :=
  match x with
  | none => none
  | some (t1, v) =>
    match t with
    | .iface => some (.iface t1 v)
    | _ => if GoType.beq t1 t then some v else env.Convert (t1, v) t

/-- The panic of `reflect.ValueOf(x).Convert(t)`. On the zero `reflect.Value` of a nil
interface `Convert` dereferences the missing type; between two types it names both (the
model prints their kinds). -/
def convertPanic (x : Any) (t : GoType) : String :=
  match x with
  | none => "runtime error: invalid memory address or nil pointer dereference"
  | some (t1, _) =>
    "reflect.Value.Convert: value of type " ++ t1.kindName ++ " cannot be converted to type "
      ++ t.kindName

/-- `SetMapIndex` on a map with string keys. -/
def setMapIndex : List (String × Value) → String → Value → List (String × Value)
  | [], k, v => [(k, v)]
  | (k1, v1) :: m, k, v => if k1 = k then (k, v) :: m else (k1, v1) :: setMapIndex m k v

/-- Lines 66-80 (and 98-112): the body of the loops over the items of a generic array or
object. A fresh element is allocated and the chosen text is decoded into it by `dec`, the
recursive call of `unmarshal`; the result is the error (if any) and the element. -/
def decodeItem (env : Env) (dec : String → Any → Result × Any) (elemT : GoType) (item : Raw) :
    Result × Value :=
  match chooseText env item.toAny with
  | .error e => (.error e, zero elemT)
  | .ok text => ((dec text (newPtr elemT)).1, (dec text (newPtr elemT)).2.elem)

/-- Lines 65-83: the loop over the items of a generic array; `acc` is `sliceValue`. -/
def sliceLoop (env : Env) (dec : String → Any → Result × Any) (elemT : GoType) :
    List Raw → List Value → Result × List Value
  | [], acc => (.ok, acc)
  | item :: rest, acc =>
    match decodeItem env dec elemT item with
    | (.ok, newElem) => sliceLoop env dec elemT rest (acc ++ [newElem])
    | (r, _) => (r, acc)

/-- Lines 96-115: the loop over the entries of a generic object for a map target; `acc`
is `mapValue`. -/
def mapLoop (env : Env) (dec : String → Any → Result × Any) (elemT : GoType) :
    List (String × Raw) → List (String × Value) → Result × List (String × Value)
  | [], acc => (.ok, acc)
  | (key, item) :: rest, acc =>
    match decodeItem env dec elemT item with
    | (.ok, newElem) => mapLoop env dec elemT rest (setMapIndex acc key newElem)
    | (r, _) => (r, acc)

/-- Lines 124-132: the body of the loop over the entries of a generic object for a struct
target. `pv` is the call of `processValue`; `fs` is the storage of the fields. -/
def structStep (env : Env) (pv : Any → GoType → Result × Any) (fields : List (Field GoType))
    (key : String) (value : Raw) (fs : List Value) : Result × List Value :=
  match findFieldByJSONTag fields key with
  | some (i, field) =>
    if field.exported then
      match pv value.toAny field.type with
      | (.ok, processedValue) =>
        match convert env processedValue field.type with
        | some x => (.ok, fs.set i x)
        | none => (.panic (convertPanic processedValue field.type), fs)
      | (r, _) => (r, fs)
    else (.ok, fs)
  | none => (.ok, fs)

/-- Lines 123-133: the loop over the entries of a generic object for a struct target. -/
def structLoop (env : Env) (pv : Any → GoType → Result × Any) (fields : List (Field GoType)) :
    List (String × Raw) → List Value → Result × List Value
  | [], fs => (.ok, fs)
  | (key, value) :: rest, fs =>
    match structStep env pv fields key value fs with
    | (.ok, fs1) => structLoop env pv fields rest fs1
    | (r, fs1) => (r, fs1)

/-- The body of the three loops of `processSchema` (lines 279-283, 291-295, 303-307):
`processValue` on the current value of a slot of type `t`, then `Convert`; the result is
the error (if any) and the new value of the slot. -/
def schemaStep (env : Env) (pv : Any → GoType → Result × Any) (t : GoType) (val : Value) :
    Result × Value :=
  match pv (Value.Interface t val) t with
  | (.ok, processedValue) =>
    match convert env processedValue t with
    | some x => (.ok, x)
    | none => (.panic (convertPanic processedValue t), val)
  | (r, _) => (r, val)

/-- Lines 276-285: the loop of `processSchema` over the entries of a map. -/
def schemaEntries (env : Env) (pv : Any → GoType → Result × Any) (elemT : GoType) :
    List (String × Value) → List (String × Value) → Result × List (String × Value)
  | [], done => (.ok, done)
  | (key, val) :: rest, done =>
    match schemaStep env pv elemT val with
    | (.ok, x) => schemaEntries env pv elemT rest (done ++ [(key, x)])
    | (r, _) => (r, done ++ (key, val) :: rest)

/-- Lines 288-297: the loop of `processSchema` over the elements of a slice. -/
def schemaElems (env : Env) (pv : Any → GoType → Result × Any) (elemT : GoType) :
    List Value → List Value → Result × List Value
  | [], done => (.ok, done)
  | elem :: rest, done =>
    match schemaStep env pv elemT elem with
    | (.ok, x) => schemaElems env pv elemT rest (done ++ [x])
    | (r, _) => (r, done ++ elem :: rest)

/-- Lines 300-309: the loop of `processSchema` over the fields of a struct; a field that
is not exported fails `CanSet` and is skipped. -/
def schemaFields (env : Env) (pv : Any → GoType → Result × Any) :
    List (Field GoType) → List Value → List Value → Result × List Value
  | field :: fields, val :: rest, done =>
    if field.exported then
      match schemaStep env pv field.type val with
      | (.ok, x) => schemaFields env pv fields rest (done ++ [x])
      | (r, _) => (r, done ++ val :: rest)
    else schemaFields env pv fields rest (done ++ [val])
  | _, rest, done => (.ok, done ++ rest)

/-- Lines 31 and 40: `json.Unmarshal(data, schema)` for a `schema` of pointer kind, given
as the type pointed at and the pointer. The strict decoder refuses a nil pointer. -/
def jsonUnmarshal (env : Env) (data : String) (t : GoType) (p : Value) : Option String × Value :=
  match p with
  | .ptrTo v => ((env.Unmarshal data t v).1, .ptrTo (env.Unmarshal data t v).2)
  | _ => (some "json: Unmarshal(nil)", p)

/-- Lines 49-168 of `unmarshal`: the `switch schemaType.Kind()` on the dereferenced
pointer, for the generic value `raw` and the storage `v2` the pointer refers to. `dec` is
the recursive call of `unmarshal`, `pv` the call of `processValue`. -/
def unmarshalSwitch (env : Env) (dec : String → Any → Result × Any)
    (pv : Any → GoType → Result × Any) (data : String) (schemaType : GoType) (raw : Raw)
    (v2 : Value) : Result × Any :=
  match schemaType with
  | .slice elemT =>
    match embedded env raw with
    | some jsonString => dec jsonString (ptrAt schemaType v2)
    | none =>
      match raw with
      | .arr rawArray =>
        match sliceLoop env dec elemT rawArray [] with
        | (.ok, sliceValue) => (.ok, ptrAt schemaType (.slice sliceValue))
        | (r, _) => (r, ptrAt schemaType v2)
      | _ => (.error "expected an array in the input data", ptrAt schemaType v2)
  | .map elemT =>
    match embedded env raw with
    | some jsonString => dec jsonString (ptrAt schemaType v2)
    | none =>
      match raw with
      | .obj rawMap =>
        match mapLoop env dec elemT rawMap [] with
        | (.ok, mapValue) => (.ok, ptrAt schemaType (.map mapValue))
        | (r, _) => (r, ptrAt schemaType v2)
      | _ => (.error "expected an map in the input data", ptrAt schemaType v2)
  | .struct fields =>
    match embedded env raw with
    | some jsonString => dec jsonString (ptrAt schemaType v2)
    | none =>
      match raw with
      | .obj rawMap =>
        match v2 with
        | .struct fs =>
          ((structLoop env pv fields rawMap fs).1,
            ptrAt schemaType (.struct (structLoop env pv fields rawMap fs).2))
        | _ =>
          -- storage that is not a struct: not reachable for a well-typed target
          (.panic "reflect: call of reflect.Value.NumField on non-struct Value",
            ptrAt schemaType v2)
      | _ =>
        -- the unchecked type assertion raw.(map[string]interface{}) of line 123
        (.panic ("interface conversion: interface {} is " ++ raw.typeName
            ++ ", not map[string]interface {}"), ptrAt schemaType v2)
  | .ptr elemT =>
    let p : Value :=
      match v2 with
      | .ptrTo x => .ptrTo x
      | _ => .ptrTo (zero elemT)
    match dec data (some (.ptr elemT, p)) with
    | (r, some (_, p1)) => (r, ptrAt schemaType p1)
    | (r, none) => (r, ptrAt schemaType p)
  | .iface =>
    match raw with
    | .null => (.ok, ptrAt schemaType .nilIface)
    | _ =>
      match dec data (Value.Interface .iface v2) with
      | (r, some (t1, x1)) => (r, ptrAt schemaType (.iface t1 x1))
      | (r, none) => (r, ptrAt schemaType v2)
  | .string => (.ok, ptrAt schemaType (.str (env.ToString raw.toAny)))
  | .int width => (.ok, ptrAt schemaType (.int (wrapInt width (env.ToInt .w64 raw.toAny))))
  | .uint width =>
    (.error ("unsupported schema type: " ++ schemaType.kindName),
      ptrAt schemaType (.uint (wrapUint width (env.ToUint .w64 raw.toAny))))
  | .float32 =>
    (.error ("unsupported schema type: " ++ schemaType.kindName),
      ptrAt schemaType (.float (env.Float32 (env.ToFloat64 raw.toAny))))
  | .float64 =>
    (.error ("unsupported schema type: " ++ schemaType.kindName),
      ptrAt schemaType (.float (env.ToFloat64 raw.toAny)))
  | .bool =>
    (.error ("unsupported schema type: " ++ schemaType.kindName),
      ptrAt schemaType (.bool (env.ToBool raw.toAny)))
  | .other _ =>
    (.error ("unsupported schema type: " ++ schemaType.kindName), ptrAt schemaType v2)

mutual
/-- Source `unmarshal(data, schema)`. The second component is `schema` after the call
(the same pointer, with the storage it points at as the call left it). -/
def unmarshal (env : Env) : Nat → String → Any → Result × Any
  | 0, _, schema => (.exhausted, schema)
  | fuel + 1, data, schema =>
    match schema with
    | none => (.panic "reflect: call of reflect.Value.Type on zero Value", schema)
    | some (.ptr schemaType, p) =>
      match jsonUnmarshal env data schemaType p with
      | (none, p1) => (.ok, some (.ptr schemaType, p1))
      | (some _, .ptrTo v1) =>
        match env.Unmarshal data schemaType v1 with
        | (none, v2) => (.ok, ptrAt schemaType v2)
        | (some _, v2) =>
          match env.UnmarshalRaw data with
          | .error e => (.error ("error unmarshalling JSON: " ++ e), ptrAt schemaType v2)
          | .ok raw =>
            unmarshalSwitch env (fun d s => unmarshal env fuel d s)
              (fun x t => processValue env fuel x t) data schemaType raw v2
      | (some _, p1) =>
        -- line 37: Set on reflect.ValueOf(schema), which is not addressable
        (.panic "reflect: reflect.Value.Set using unaddressable value",
          some (.ptr schemaType, p1))
    | some _ => (.error "schema must be a pointer", schema)
/-- Source `processValue(value, expectedType)`: the returned `interface{}` and the error.
The cases `reflect.Ptr` and `reflect.Interface` of its `switch` are never reached, the
first `if` returns for both kinds. -/
def processValue (env : Env) : Nat → Any → GoType → Result × Any
  | 0, _, _ => (.exhausted, none)
  | fuel + 1, value, expectedType =>
    if expectedType.isStructural then
      match chooseText env value with
      | .error e => (.error e, none)
      | .ok bs =>
        match unmarshal env fuel bs (newPtr expectedType) with
        | (.ok, newValue) =>
          match processSchema env fuel newValue with
          | (.ok, newValue1) => (.ok, Value.Interface expectedType newValue1.elem)
          | (r, _) => (r, none)
        | (r, _) => (r, none)
    else
      match expectedType with
      | .string => (.ok, some (.string, .str (env.ToString value)))
      | .int width => (.ok, some (.int width, .int (env.ToInt width value)))
      | .uint width => (.ok, some (.uint width, .uint (env.ToUint width value)))
      | .float32 => (.ok, some (.float32, .float (env.ToFloat32 value)))
      | .float64 => (.ok, some (.float64, .float (env.ToFloat64 value)))
      | .bool => (.ok, some (.bool, .bool (env.ToBool value)))
      | _ => (.ok, value)
/-- Source `processSchema(v)`: the error, and `v` after the call. -/
def processSchema (env : Env) : Nat → Any → Result × Any
  | 0, v => (.exhausted, v)
  | fuel + 1, v =>
    match v with
    | some (.ptr t, .ptrTo x) =>
      match t, x with
      | .map elemT, .map kvs =>
        match schemaEntries env (fun y u => processValue env fuel y u) elemT kvs [] with
        | (r, kvs1) => (r, ptrAt t (.map kvs1))
      | .slice elemT, .slice xs =>
        match schemaElems env (fun y u => processValue env fuel y u) elemT xs [] with
        | (r, xs1) => (r, ptrAt t (.slice xs1))
      | .struct fields, .struct fs =>
        match schemaFields env (fun y u => processValue env fuel y u) fields fs [] with
        | (r, fs1) => (r, ptrAt t (.struct fs1))
      | _, _ => (.ok, v)
    | _ => (.ok, v)
end

/-- Lines 16-18 of `Unmarshal`: the text handed to `unmarshal`, the repaired one when the
repairer succeeds and the original otherwise. -/
def repairedText (env : Env) (data : String) : String :=
  match env.JSONRepair data with
  | some repaired => repaired
  | none => data

/-- Source `Unmarshal(data, schema)`: repair the text when the repairer succeeds, then
`unmarshal`. -/
def Unmarshal (env : Env) (fuel : Nat) (data : String) (schema : Any) : Result × Any :=
  unmarshal env fuel (repairedText env data) schema

/-- Whether the two strict attempts of lines 31 and 40 both fail on storage `v0`. -/
def strictFails (env : Env) (data : String) (t : GoType) (v0 : Value) : Bool :=
  (env.Unmarshal data t v0).1.isSome && (env.Unmarshal data t (env.Unmarshal data t v0).2).1.isSome

/-- The storage the two strict attempts leave behind. -/
def afterStrict (env : Env) (data : String) (t : GoType) (v0 : Value) : Value :=
  (env.Unmarshal data t (env.Unmarshal data t v0).2).2

/-! ## Vocabulary of the specification -/

/-- The primitive kinds of the switch: string, the signed and unsigned integers, the
floats and bool. -/
def GoType.isPrimitive : GoType → Bool
  | .string => true
  | .int _ => true
  | .uint _ => true
  | .float32 => true
  | .float64 => true
  | .bool => true
  | _ => false

/-- The `cast<kind>(value)` of the specification: the value of primitive type `t` that the
Flexible Scalar Caster makes of a dynamic value. -/
def castTo (env : Env) (t : GoType) (x : Any) : Value :=
  match t with
  | .string => .str (env.ToString x)
  | .int width => .int (env.ToInt width x)
  | .uint width => .uint (env.ToUint width x)
  | .float32 => .float (env.ToFloat32 x)
  | .float64 => .float (env.ToFloat64 x)
  | .bool => .bool (env.ToBool x)
  | _ => .other

/-! ## Reference collaborators

A computable instance of `Env` on which the examples are evaluated. -/

namespace Lib

/-- Normal form of `m * 10 ^ (-k)`: trailing zeros of the fraction are dropped. -/
def stripZeros : Nat → Int → Float64
  | 0, m => ⟨m, 0⟩
  | k + 1, m => if m % 10 = 0 then stripZeros k (m / 10) else ⟨m, -((k : Int) + 1)⟩

/-- The decimal `m * 10 ^ e`. -/
def decimal (m e : Int) : Float64 :=
  if 0 ≤ e then ⟨m * 10 ^ e.toNat, 0⟩ else stripZeros (-e).toNat m

/-- The conversion `int64(f)`: truncation toward zero. -/
def trunc (x : Float64) : Int := Int.tdiv x.mant (10 ^ (-x.exp).toNat)

/-- JSON white space. -/
def isWs (c : Char) : Bool := c = ' ' || c = '\n' || c = '\t' || c = '\r'

/-- Skip JSON white space. -/
def skipWs : List Char → List Char
  | [] => []
  | c :: cs => if isWs c then skipWs cs else c :: cs

/-- Value of a hexadecimal digit. -/
def hexVal (c : Char) : Option Nat :=
  if '0' ≤ c ∧ c ≤ '9' then some (c.toNat - 48)
  else if 'a' ≤ c ∧ c ≤ 'f' then some (c.toNat - 87)
  else if 'A' ≤ c ∧ c ≤ 'F' then some (c.toNat - 55)
  else none

/-- The rest of a JSON string after its opening quote: the content and what follows the
closing quote. -/
def parseString : List Char → List Char → Option (String × List Char)
  | [], _ => none
  | '"' :: cs, acc => some (String.mk acc.reverse, cs)
  | '\\' :: 'u' :: a :: b :: c :: d :: cs, acc =>
    match hexVal a, hexVal b, hexVal c, hexVal d with
    | some x, some y, some z, some u =>
      parseString cs (Char.ofNat (((x * 16 + y) * 16 + z) * 16 + u) :: acc)
    | _, _, _, _ => none
  | '\\' :: e :: cs, acc =>
    if e = '"' then parseString cs ('"' :: acc)
    else if e = '\\' then parseString cs ('\\' :: acc)
    else if e = '/' then parseString cs ('/' :: acc)
    else if e = 'n' then parseString cs ('\n' :: acc)
    else if e = 't' then parseString cs ('\t' :: acc)
    else if e = 'r' then parseString cs ('\r' :: acc)
    else if e = 'b' then parseString cs (Char.ofNat 8 :: acc)
    else if e = 'f' then parseString cs (Char.ofNat 12 :: acc)
    else none
  | c :: cs, acc => if c.toNat < 32 ∨ c = '\\' then none else parseString cs (c :: acc)

/-- Leading decimal digits and the rest. -/
def takeDigits : List Char → List Char × List Char
  | [] => ([], [])
  | c :: cs =>
    if c.isDigit then ((takeDigits cs).1.cons c, (takeDigits cs).2) else ([], c :: cs)

/-- Value of a list of decimal digits. -/
def digitsVal (ds : List Char) : Nat := ds.foldl (fun n c => n * 10 + (c.toNat - 48)) 0

/-- Exponent part of a number (`e`, an optional sign, digits). -/
def parseExp (cs : List Char) : Option (Int × List Char) :=
  match cs with
  | e :: rest =>
    if e = 'e' ∨ e = 'E' then
      match rest with
      | '-' :: r =>
        match takeDigits r with
        | ([], _) => none
        | (ds, r1) => some (-(digitsVal ds : Int), r1)
      | '+' :: r =>
        match takeDigits r with
        | ([], _) => none
        | (ds, r1) => some ((digitsVal ds : Int), r1)
      | r =>
        match takeDigits r with
        | ([], _) => none
        | (ds, r1) => some ((digitsVal ds : Int), r1)
    else some (0, cs)
  | [] => some (0, [])

/-- Fraction part of a number (a point and digits). -/
def parseFrac (cs : List Char) : Option (List Char × List Char) :=
  match cs with
  | '.' :: r =>
    match takeDigits r with
    | ([], _) => none
    | (ds, r1) => some (ds, r1)
  | _ => some ([], cs)

/-- An unsigned JSON number: digits without a leading zero, a fraction, an exponent. -/
def parseUnsigned (cs : List Char) : Option (Float64 × List Char) :=
  match takeDigits cs with
  | ([], _) => none
  | (ds, r) =>
    if ds.head? = some '0' ∧ ds.length ≠ 1 then none
    else
      match parseFrac r with
      | none => none
      | some (fs, r1) =>
        match parseExp r1 with
        | none => none
        | some (e, r2) => some (decimal (digitsVal (ds ++ fs) : Int) (e - fs.length), r2)

/-- A JSON number. -/
def parseNumber (cs : List Char) : Option (Float64 × List Char) :=
  match cs with
  | '-' :: r =>
    match parseUnsigned r with
    | some (x, r1) => some (⟨-x.mant, x.exp⟩, r1)
    | none => none
  | _ => parseUnsigned cs

/-- Store under a key of a generic object (a later duplicate replaces the earlier one). -/
def setKey : List (String × Raw) → String → Raw → List (String × Raw)
  | [], k, v => [(k, v)]
  | (k1, v1) :: m, k, v => if k1 = k then (k, v) :: m else (k1, v1) :: setKey m k v

mutual
/-- A JSON value and the text after it. -/
def parseValue : Nat → List Char → Option (Raw × List Char)
  | 0, _ => none
  | fuel + 1, cs =>
    match skipWs cs with
    | 'n' :: 'u' :: 'l' :: 'l' :: r => some (.null, r)
    | 't' :: 'r' :: 'u' :: 'e' :: r => some (.bool true, r)
    | 'f' :: 'a' :: 'l' :: 's' :: 'e' :: r => some (.bool false, r)
    | '"' :: r =>
      match parseString r [] with
      | some (s, r1) => some (.str s, r1)
      | none => none
    | '[' :: r =>
      match skipWs r with
      | ']' :: r1 => some (.arr [], r1)
      | r1 => parseElems fuel r1 []
    | '\x7b' :: r =>
      match skipWs r with
      | '\x7d' :: r1 => some (.obj [], r1)
      | r1 => parseMembers fuel r1 []
    | r =>
      match parseNumber r with
      | some (x, r1) => some (.num x, r1)
      | none => none
/-- The elements of an array after its opening bracket. -/
def parseElems : Nat → List Char → List Raw → Option (Raw × List Char)
  | 0, _, _ => none
  | fuel + 1, cs, acc =>
    match parseValue fuel cs with
    | some (v, r) =>
      match skipWs r with
      | ',' :: r1 => parseElems fuel r1 (acc ++ [v])
      | ']' :: r1 => some (.arr (acc ++ [v]), r1)
      | _ => none
    | none => none
/-- The members of an object after its opening brace. -/
def parseMembers : Nat → List Char → List (String × Raw) → Option (Raw × List Char)
  | 0, _, _ => none
  | fuel + 1, cs, acc =>
    match skipWs cs with
    | '"' :: r =>
      match parseString r [] with
      | some (k, r1) =>
        match skipWs r1 with
        | ':' :: r2 =>
          match parseValue fuel r2 with
          | some (v, r3) =>
            match skipWs r3 with
            | ',' :: r4 => parseMembers fuel r4 (setKey acc k v)
            | '\x7d' :: r4 => some (.obj (setKey acc k v), r4)
            | _ => none
          | none => none
        | _ => none
      | none => none
    | _ => none
end

/-- A whole JSON text. -/
def parse (data : String) : Option Raw :=
  match parseValue (2 * data.data.length + 2) data.data with
  | some (v, r) => if skipWs r = [] then some v else none
  | none => none

/-- Decimal digits of an integer. -/
def intRepr (n : Int) : List Char :=
  if n < 0 then '-' :: (Nat.repr n.natAbs).data else (Nat.repr n.natAbs).data

/-- A float as Go prints it in format f with the least number of digits. -/
def formatFloat (x : Float64) : List Char :=
  if x.exp = 0 then intRepr x.mant
  else
    let ds := (Nat.repr x.mant.natAbs).data
    let k := (-x.exp).toNat
    let body :=
      if k < ds.length then ds.take (ds.length - k) ++ '.' :: ds.drop (ds.length - k)
      else '0' :: '.' :: List.replicate (k - ds.length) '0' ++ ds
    if x.mant < 0 then '-' :: body else body

/-- One character of a string inside a JSON string literal, as `json.Marshal` writes it
(with the escaping of HTML characters that the standard library does). -/
def escapeChar (c : Char) : List Char :=
  if c = '"' then ['\\', '"']
  else if c = '\\' then ['\\', '\\']
  else if c = '\n' then ['\\', 'n']
  else if c = '\r' then ['\\', 'r']
  else if c = '\t' then ['\\', 't']
  else if c.toNat < 32 ∨ c = '<' ∨ c = '>' ∨ c = '&' ∨ c.toNat = 8232 ∨ c.toNat = 8233 then
    ['\\', 'u', Nat.digitChar (c.toNat / 4096 % 16), Nat.digitChar (c.toNat / 256 % 16),
      Nat.digitChar (c.toNat / 16 % 16), Nat.digitChar (c.toNat % 16)]
  else [c]

/-- The JSON string literal of a string. -/
def quote (s : String) : List Char := '"' :: (s.data.flatMap escapeChar ++ ['"'])

/-- Split a json tag at its commas. -/
def splitTag : List Char → List Char → List String
  | [], cur => [String.mk cur.reverse]
  | c :: cs, cur => if c = ',' then String.mk cur.reverse :: splitTag cs [] else splitTag cs (c :: cur)

/-- The key under which the strict codec reads and writes a field: the name given in the
tag, or the Go name of the field. -/
def jsonName (f : Field GoType) : String :=
  match splitTag f.tag.data [] with
  | n :: _ => if n = "" then f.name else n
  | [] => f.name

/-- Whether the strict codec sees the field: exported, and its tag is not a dash. -/
def visible (f : Field GoType) : Bool := f.exported && decide (f.tag ≠ "-")

/-- Whether the tag has the option omitempty. -/
def omitEmpty (f : Field GoType) : Bool := (splitTag f.tag.data []).tail.contains "omitempty"

/-- The values that omitempty leaves out. -/
def isEmptyValue : Value → Bool
  | .str s => s = ""
  | .int n => n = 0
  | .uint n => n = 0
  | .float x => x.mant = 0
  | .bool b => !b
  | .nilSlice => true
  | .slice xs => xs.isEmpty
  | .nilMap => true
  | .map kvs => kvs.isEmpty
  | .nilPtr => true
  | .nilIface => true
  | _ => false

/-- Lexicographic order of keys by code point (the byte order of UTF-8). -/
def ltChars : List Char → List Char → Bool
  | [], [] => false
  | [], _ :: _ => true
  | _ :: _, [] => false
  | a :: as, b :: bs => if a.toNat < b.toNat then true else if b.toNat < a.toNat then false else ltChars as bs

/-- Insert an entry into a list sorted by key. -/
def insertSorted (k : String) (v : List Char) : List (String × List Char) → List (String × List Char)
  | [] => [(k, v)]
  | (k1, v1) :: m =>
    if ltChars k.data k1.data then (k, v) :: (k1, v1) :: m else (k1, v1) :: insertSorted k v m

/-- Join the members of an object or the elements of an array with commas. -/
def joinComma : List (List Char) → List Char
  | [] => []
  | [x] => x
  | x :: y :: rest => x ++ ',' :: joinComma (y :: rest)

mutual
/-- Compact JSON of a typed value (`json.Marshal`, object keys of a map sorted). -/
def marshalValue : Nat → GoType → Value → Option (List Char)
  | 0, _, _ => none
  | fuel + 1, t, v =>
    match t, v with
    | .string, .str s => some (quote s)
    | .int _, .int n => some (intRepr n)
    | .uint _, .uint n => some (Nat.repr n).data
    | .float32, .float x => some (formatFloat x)
    | .float64, .float x => some (formatFloat x)
    | .bool, .bool b => some (if b then "true".data else "false".data)
    | .slice _, .nilSlice => some "null".data
    | .slice e, .slice xs =>
      match marshalElems fuel e xs with
      | some parts => some ('[' :: (joinComma parts ++ [']']))
      | none => none
    | .map _, .nilMap => some "null".data
    | .map e, .map kvs =>
      match marshalEntries fuel e kvs with
      | some parts =>
        some ('\x7b' :: (joinComma (parts.map (fun kv => quote kv.1 ++ ':' :: kv.2)) ++ ['\x7d']))
      | none => none
    | .struct fields, .struct fs =>
      match marshalFields fuel fields fs with
      | some parts => some ('\x7b' :: (joinComma parts ++ ['\x7d']))
      | none => none
    | .ptr _, .nilPtr => some "null".data
    | .ptr e, .ptrTo x => marshalValue fuel e x
    | .iface, .nilIface => some "null".data
    | .iface, .iface t1 x => marshalValue fuel t1 x
    | _, _ => none
/-- JSON of the elements of a slice. -/
def marshalElems : Nat → GoType → List Value → Option (List (List Char))
  | 0, _, _ => none
  | _ + 1, _, [] => some []
  | fuel + 1, e, x :: xs =>
    match marshalValue fuel e x, marshalElems fuel e xs with
    | some a, some rest => some (a :: rest)
    | _, _ => none
/-- JSON of the entries of a map, sorted by key. -/
def marshalEntries : Nat → GoType → List (String × Value) → Option (List (String × List Char))
  | 0, _, _ => none
  | _ + 1, _, [] => some []
  | fuel + 1, e, (k, x) :: kvs =>
    match marshalValue fuel e x, marshalEntries fuel e kvs with
    | some a, some rest => some (insertSorted k a rest)
    | _, _ => none
/-- JSON of the members of a struct, in declaration order. -/
def marshalFields : Nat → List (Field GoType) → List Value → Option (List (List Char))
  | 0, _, _ => none
  | fuel + 1, f :: fields, x :: fs =>
    if visible f && !(omitEmpty f && isEmptyValue x) then
      match marshalValue fuel f.type x, marshalFields fuel fields fs with
      | some a, some rest => some ((quote (jsonName f) ++ ':' :: a) :: rest)
      | _, _ => none
    else marshalFields fuel fields fs
  | _ + 1, _, _ => some []
end

mutual
/-- A bound on the depth of a value. -/
def depth : Value → Nat
  | .slice xs => depthList xs + 1
  | .map kvs => depthEntries kvs + 1
  | .struct fs => depthList fs + 1
  | .ptrTo v => depth v + 1
  | .iface _ v => depth v + 1
  | _ => 1
/-- A bound on the depth of the values of a list. -/
def depthList : List Value → Nat
  | [] => 0
  | x :: xs => depth x + depthList xs + 1
/-- A bound on the depth of the values of an association list. -/
def depthEntries : List (String × Value) → Nat
  | [] => 0
  | (_, x) :: kvs => depth x + depthEntries kvs + 1
end

/-- Modelled from the spec: `json.Marshal` of the library `jsoniter`, which is not part of
the repository; the strict codec of section 6, compact output. -/
def Marshal (x : Any) : Except String String :=
  match x with
  | none => .ok "null"
  | some (t, v) =>
    match marshalValue (depth v + 1) t v with
    | some cs => .ok (String.mk cs)
    | none => .error "json: unsupported type"

/-- Whether an integer fits the signed kind of a width. -/
def fitsInt (width : Width) (n : Int) : Bool :=
  decide (-(2 ^ (width.bits - 1) : Int) ≤ n) && decide (n < 2 ^ (width.bits - 1))

/-- Whether an integer fits the unsigned kind of a width. -/
def fitsUint (width : Width) (n : Int) : Bool := decide (0 ≤ n) && decide (n < 2 ^ width.bits)

/-- Fold a key to lower case, for the case-insensitive match of the strict decoder. -/
def lower (s : String) : String := String.mk (s.data.map Char.toLower)

/-- Index and descriptor of the first visible field satisfying a test. -/
def findField (p : Field GoType → Bool) : List (Field GoType) → Option (Nat × Field GoType)
  | [] => none
  | f :: fs =>
    if visible f && p f then some (0, f)
    else
      match findField p fs with
      | some (i, g) => some (i + 1, g)
      | none => none

/-- The field the strict decoder binds a key to: an exact match of the name, or else a
match that ignores case. -/
def strictField (fields : List (Field GoType)) (key : String) : Option (Nat × Field GoType) :=
  match findField (fun f => decide (jsonName f = key)) fields with
  | some r => some r
  | none => findField (fun f => decide (lower (jsonName f) = lower key)) fields

/-- The bytes of `null` after white space: `ReadNil`, or the case `n` of a reader. The
result is the text after the literal; `none` when the literal is cut short. -/
def readNull (cs : List Char) : Option (List Char) :=
  match cs with
  | 'n' :: 'u' :: 'l' :: 'l' :: r => some r
  | _ => none

/-- The function `readUint64` of the strict decoder, from the first byte of the number: a
single zero, or digits without a sign. The result is the value, the text after the digits
and whether an error was reported: no digit at all, or a point after the digits (`can not
decode float as int`, the digits read so far are still returned). -/
def readUint (cs : List Char) : Nat × List Char × Bool :=
  match cs with
  | [] => (0, [], true)
  | c :: r =>
    if c = '0' then (0, r, decide (r.head? = some '.'))
    else if c.isDigit then
      (digitsVal (c :: (takeDigits r).1), (takeDigits r).2,
        decide ((takeDigits r).2.head? = some '.'))
    else (0, r, true)

/-- The functions `ReadInt`, `ReadInt8`, ... of the strict decoder: an optional minus sign
and `readUint`; a value out of the range of the kind is an error and reads as zero. -/
def readInt (width : Width) (cs : List Char) : Int × List Char × Bool :=
  match cs with
  | '-' :: r =>
    if 2 ^ (width.bits - 1) < (readUint r).1 then (0, (readUint r).2.1, true)
    else (-((readUint r).1 : Int), (readUint r).2.1, (readUint r).2.2)
  | r =>
    if 2 ^ (width.bits - 1) ≤ (readUint r).1 then (0, (readUint r).2.1, true)
    else (((readUint r).1 : Int), (readUint r).2.1, (readUint r).2.2)

/-- The functions `ReadUint`, `ReadUint8`, ... of the strict decoder. -/
def readUintN (width : Width) (cs : List Char) : Nat × List Char × Bool :=
  if 2 ^ width.bits ≤ (readUint cs).1 then (0, (readUint cs).2.1, true) else readUint cs

/-- The decoder of a float: `null` leaves the storage, a number is stored, and any other
token reports an error and stores zero without being read. -/
def decodeFloat (cs : List Char) (v : Value) : Value × List Char × Bool :=
  match skipWs cs with
  | 'n' :: r =>
    match readNull ('n' :: r) with
    | some r1 => (v, r1, false)
    | none => (v, [], true)
  | r =>
    match parseNumber r with
    | some (x, r1) => (.float x, r1, false)
    | none =>
      match r with
      | c :: _ =>
        if c.isDigit ∨ c = '-' then (.float ⟨0, 0⟩, [], true) else (.float ⟨0, 0⟩, r, true)
      | [] => (.float ⟨0, 0⟩, [], true)

/-- The entries of a map value; a nil map has none. -/
def entriesOf : Value → List (String × Value)
  | .map m => m
  | _ => []

/-- The elements of a slice value; a nil slice has none. -/
def elemsOf : Value → List Value
  | .slice xs => xs
  | _ => []

mutual
/-- A bound on the nesting of a type. -/
def typeDepth : GoType → Nat
  | .slice e => typeDepth e + 1
  | .map e => typeDepth e + 1
  | .struct fields => fieldsDepth fields + 1
  | .ptr e => typeDepth e + 1
  | _ => 1
/-- A bound on the nesting of the types of a list of fields. -/
def fieldsDepth : List (Field GoType) → Nat
  | [] => 0
  | f :: fs => typeDepth f.type + fieldsDepth fs + 1
end

mutual
/-- The strict decoder of a type, reading the text from the left and writing into the
storage as it reads (the `ValDecoder` of the type). The result is the storage afterwards,
the text not read yet, and whether an error was reported. An error does not undo what was
written, and the decoders of an array or an object that encloses the failing value read on
while the next token is a comma. -/
def decodeValue : Nat → GoType → List Char → Value → Value × List Char × Bool
  | 0, _, _, v => (v, [], true)
  | fuel + 1, t, cs, v =>
    match t with
    | .string =>
      -- `ReadString`: also for null, and what it returns on an error is stored
      match skipWs cs with
      | '"' :: r =>
        match parseString r [] with
        | some (s, r1) => (.str s, r1, false)
        | none => (.str "", [], true)
      | 'n' :: r =>
        match readNull ('n' :: r) with
        | some r1 => (.str "", r1, false)
        | none => (.str "", [], true)
      | _ :: r => (.str "", r, true)
      | [] => (.str "", [], true)
    | .int width =>
      match skipWs cs with
      | 'n' :: r =>
        match readNull ('n' :: r) with
        | some r1 => (v, r1, false)
        | none => (v, [], true)
      | r => (.int (readInt width r).1, (readInt width r).2.1, (readInt width r).2.2)
    | .uint width =>
      match skipWs cs with
      | 'n' :: r =>
        match readNull ('n' :: r) with
        | some r1 => (v, r1, false)
        | none => (v, [], true)
      | r => (.uint (readUintN width r).1, (readUintN width r).2.1, (readUintN width r).2.2)
    | .float32 => decodeFloat cs v
    | .float64 => decodeFloat cs v
    | .bool =>
      match skipWs cs with
      | 'n' :: r =>
        match readNull ('n' :: r) with
        | some r1 => (v, r1, false)
        | none => (v, [], true)
      | 't' :: 'r' :: 'u' :: 'e' :: r => (.bool true, r, false)
      | 't' :: _ => (.bool true, [], true)
      | 'f' :: 'a' :: 'l' :: 's' :: 'e' :: r => (.bool false, r, false)
      | 'f' :: _ => (.bool false, [], true)
      | _ :: r => (.bool false, r, true)
      | [] => (.bool false, [], true)
    | .slice e =>
      match skipWs cs with
      | 'n' :: r =>
        match readNull ('n' :: r) with
        | some r1 => (.nilSlice, r1, false)
        | none => (.nilSlice, [], true)
      | '[' :: r =>
        match skipWs r with
        | ']' :: r1 => (.slice [], r1, false)
        | r1 =>
          match decodeElems fuel e r1 (elemsOf v) [] with
          | (xs, r2, err) => (.slice xs, r2, err)
      | _ :: r => (v, r, true)
      | [] => (v, [], true)
    | .map e =>
      -- a nil map is allocated before the opening brace is tested
      match skipWs cs with
      | 'n' :: r =>
        match readNull ('n' :: r) with
        | some r1 => (.nilMap, r1, false)
        | none => (.nilMap, [], true)
      | '\x7b' :: r =>
        match skipWs r with
        | '\x7d' :: r1 => (.map (entriesOf v), r1, false)
        | r1 =>
          match decodeEntries fuel e r1 (entriesOf v) with
          | (m, r2, err) => (.map m, r2, err)
      | _ :: r => (.map (entriesOf v), r, true)
      | [] => (.map (entriesOf v), [], true)
    | .struct fields =>
      match skipWs cs with
      | 'n' :: r =>
        match readNull ('n' :: r) with
        | some r1 => (v, r1, false)
        | none => (v, [], true)
      | '\x7b' :: r =>
        match skipWs r with
        | '\x7d' :: r1 => (v, r1, false)
        | r1 =>
          match v with
          | .struct fs =>
            match decodeFields fuel fields r1 fs with
            | (fs1, r2, err) => (.struct fs1, r2, err)
          | _ => (v, [], true)
      | _ :: r => (v, r, true)
      | [] => (v, [], true)
    | .ptr e =>
      -- `OptionalDecoder`: the pointer is set to the pointee also after an error
      match skipWs cs with
      | 'n' :: r =>
        match readNull ('n' :: r) with
        | some r1 => (.nilPtr, r1, false)
        | none => (.nilPtr, [], true)
      | r =>
        match decodeValue fuel e r (match v with | .ptrTo x => x | _ => zero e) with
        | (x, r1, err) => (.ptrTo x, r1, err)
    | .iface =>
      -- `efaceDecoder`: into the pointee of a pointer held by the interface, and a generic
      -- value otherwise
      match v with
      | .iface (.ptr t1) p =>
        match t1, skipWs cs with
        | .ptr _, r =>
          match decodeValue fuel t1 r (match p with | .ptrTo x => x | _ => zero t1) with
          | (x, r1, err) => (.iface (.ptr t1) (.ptrTo x), r1, err)
        | _, 'n' :: r =>
          match readNull ('n' :: r) with
          | some r1 => (.nilIface, r1, false)
          | none => (.nilIface, [], true)
        | _, r =>
          match decodeValue fuel t1 r (match p with | .ptrTo x => x | _ => zero t1) with
          | (x, r1, err) => (.iface (.ptr t1) (.ptrTo x), r1, err)
      | _ =>
        match parseValue fuel cs with
        | some (raw, r) => (raw.toValue, r, false)
        | none => (.nilIface, [], true)
    | .other _ => (v, [], true)
/-- The loop of the decoder of a slice after the opening bracket: the element of index `k`
is decoded over the element the slice already has at `k` (`old` is what is left of the
former elements), or over a zero value. -/
def decodeElems : Nat → GoType → List Char → List Value → List Value →
    List Value × List Char × Bool
  | 0, _, _, _, acc => (acc, [], true)
  | fuel + 1, e, cs, old, acc =>
    match decodeValue fuel e cs (old.headD (zero e)) with
    | (x, r, err) =>
      match skipWs r with
      | ',' :: r1 =>
        match decodeElems fuel e r1 old.tail (acc ++ [x]) with
        | (xs, r2, err2) => (xs, r2, err || err2)
      | ']' :: r1 => (acc ++ [x], r1, err)
      | _ :: r1 => (acc ++ [x], r1, true)
      | [] => (acc ++ [x], [], true)
/-- The loop of the decoder of a map after the opening brace: every value is decoded into
a fresh element, which is stored under its key also after an error. -/
def decodeEntries : Nat → GoType → List Char → List (String × Value) →
    List (String × Value) × List Char × Bool
  | 0, _, _, m => (m, [], true)
  | fuel + 1, e, cs, m =>
    match skipWs cs with
    | '"' :: r =>
      match parseString r [] with
      | some (k, r1) =>
        match skipWs r1 with
        | ':' :: r2 =>
          match decodeValue fuel e r2 (zero e) with
          | (x, r3, err) =>
            match skipWs r3 with
            | ',' :: r4 =>
              match decodeEntries fuel e r4 (setMapIndex m k x) with
              | (m1, r5, err1) => (m1, r5, err || err1)
            | '\x7d' :: r4 => (setMapIndex m k x, r4, err)
            | _ :: r4 => (setMapIndex m k x, r4, true)
            | [] => (setMapIndex m k x, [], true)
        | _ => (m, [], true)
      | none => (m, [], true)
    | _ => (m, [], true)
/-- The loop of the decoder of a struct after the opening brace: the value of a key that
binds to a field is decoded over that field, the value of any other key is skipped. -/
def decodeFields : Nat → List (Field GoType) → List Char → List Value →
    List Value × List Char × Bool
  | 0, _, _, fs => (fs, [], true)
  | fuel + 1, fields, cs, fs =>
    match skipWs cs with
    | '"' :: r =>
      match parseString r [] with
      | some (k, r1) =>
        match skipWs r1 with
        | ':' :: r2 =>
          match strictField fields k with
          | some (i, f) =>
            match decodeValue fuel f.type r2 (fs.getD i (zero f.type)) with
            | (x, r3, err) =>
              match skipWs r3 with
              | ',' :: r4 =>
                match decodeFields fuel fields r4 (fs.set i x) with
                | (fs1, r5, err1) => (fs1, r5, err || err1)
              | '\x7d' :: r4 => (fs.set i x, r4, err)
              | _ :: r4 => (fs.set i x, r4, true)
              | [] => (fs.set i x, [], true)
          | none =>
            match parseValue fuel r2 with
            | some (_, r3) =>
              match skipWs r3 with
              | ',' :: r4 => decodeFields fuel fields r4 fs
              | '\x7d' :: r4 => (fs, r4, false)
              | _ :: r4 => (fs, r4, true)
              | [] => (fs, [], true)
            | none => (fs, [], true)
        | _ => (fs, [], true)
      | none => (fs, [], true)
    | _ => (fs, [], true)
end

/-- Modelled from the spec: `json.Unmarshal` of the library `jsoniter` into typed storage,
which is not part of the repository; the Strict Decoder of section 6 (exact structural and
type correspondence). The specification does not say what a failed decode leaves in the
storage; the model follows the library, a streaming decoder that writes into the storage
while it reads and undoes nothing when it reports an error. The decode succeeds when no
error was reported and nothing but white space follows the value.

Where the model is coarser than the library: a slice has no capacity beyond its length;
after a malformed string, literal or object key, and for a kind the model has no values
for, nothing more is read; a float is rounded neither to 64 nor to 32 bits; the text of
the error is not the library's. -/
def Unmarshal (data : String) (t : GoType) (v : Value) : Option String × Value :=
  match decodeValue ((data.data.length + 2) * (typeDepth t + depth v + 2)) t data.data v with
  | (v1, r, err) =>
    if err = false ∧ skipWs r = [] then (none, v1)
    else (some "json: cannot unmarshal the text into the Go value", v1)

/-- Modelled from the spec: `json.Unmarshal` of the library `jsoniter` into an empty
`interface{}`, which is not part of the repository; the Strict Decoder of section 6
producing a Generic Value. -/
def UnmarshalRaw (data : String) : Except String Raw :=
  match parse data with
  | some raw => .ok raw
  | none => .error "invalid JSON"

/-- The function `trimZeroDecimal` of `cast`: drop a fraction made of zeros only. -/
def trimZeroDecimal (s : List Char) : List Char :=
  match s.reverse.dropWhile (fun c => c = '0') with
  | '.' :: r => if s.reverse.head? = some '0' then r.reverse else s
  | _ => s

/-- A decimal integer with an optional sign, as `strconv.ParseInt` reads it. -/
def parseInt (s : List Char) : Option Int :=
  match s with
  | '-' :: r => if r ≠ [] ∧ r.all Char.isDigit then some (-(digitsVal r : Int)) else none
  | '+' :: r => if r ≠ [] ∧ r.all Char.isDigit then some (digitsVal r : Int) else none
  | r => if r ≠ [] ∧ r.all Char.isDigit then some (digitsVal r : Int) else none

/-- The integer a dynamic value casts to, before the range of the kind is applied. -/
def castInt (x : Any) : Option Int :=
  match x with
  | some (_, .int n) => some n
  | some (_, .uint n) => some n
  | some (_, .float f) => some (trunc f)
  | some (_, .bool b) => some (if b then 1 else 0)
  | some (_, .str s) => parseInt (trimZeroDecimal s.data)
  | none => some 0
  | _ => none

/-- Modelled from the spec: `cast.ToString`, which is not part of the repository; the
Flexible Scalar Caster of section 6 (total, the zero value for inconvertible input). -/
def ToString (x : Any) : String :=
  match x with
  | some (_, .str s) => s
  | some (_, .int n) => String.mk (intRepr n)
  | some (_, .uint n) => Nat.repr n
  | some (_, .float f) => String.mk (formatFloat f)
  | some (_, .bool b) => if b then "true" else "false"
  | _ => ""

/-- Modelled from the spec: `cast.ToInt`, `cast.ToInt8`, ..., `cast.ToInt64`, which are
not part of the repository; the Flexible Scalar Caster of section 6. -/
def ToInt (width : Width) (x : Any) : Int :=
  match castInt x with
  | some n => if fitsInt width n then n else match x with
    | some (_, .str _) => 0
    | _ => wrapInt width n
  | none => 0

/-- Modelled from the spec: `cast.ToUint`, ..., `cast.ToUint64`, which are not part of
the repository; the Flexible Scalar Caster of section 6. -/
def ToUint (width : Width) (x : Any) : Nat :=
  match castInt x with
  | some n => if n < 0 then 0 else if fitsUint width n then n.toNat else match x with
    | some (_, .str _) => 0
    | _ => wrapUint width n.toNat
  | none => 0

/-- Modelled from the spec: `cast.ToFloat64` (and `cast.ToFloat32`), which are not part of
the repository; the Flexible Scalar Caster of section 6. -/
def ToFloat64 (x : Any) : Float64 :=
  match x with
  | some (_, .float f) => f
  | some (_, .int n) => ⟨n, 0⟩
  | some (_, .uint n) => ⟨n, 0⟩
  | some (_, .bool b) => if b then ⟨1, 0⟩ else ⟨0, 0⟩
  | some (_, .str s) =>
    match parseNumber s.data with
    | some (f, []) => f
    | _ => ⟨0, 0⟩
  | _ => ⟨0, 0⟩

/-- Modelled from the spec: `cast.ToBool`, which is not part of the repository; the
Flexible Scalar Caster of section 6. A string is read as `strconv.ParseBool` does. -/
def ToBool (x : Any) : Bool :=
  match x with
  | some (_, .bool b) => b
  | some (_, .int n) => n ≠ 0
  | some (_, .uint n) => n ≠ 0
  | some (_, .float f) => f.mant ≠ 0
  | some (_, .str s) => ["1", "t", "T", "TRUE", "true", "True"].contains s
  | _ => false

/-- Remove the commas that are followed by a closing bracket or brace, outside strings. -/
def dropTrailingCommas : Bool → List Char → List Char
  | _, [] => []
  | true, '\\' :: c :: cs => '\\' :: c :: dropTrailingCommas true cs
  | true, '"' :: cs => '"' :: dropTrailingCommas false cs
  | true, c :: cs => c :: dropTrailingCommas true cs
  | false, '"' :: cs => '"' :: dropTrailingCommas true cs
  | false, ',' :: cs =>
    match skipWs cs with
    | ']' :: _ => dropTrailingCommas false cs
    | '\x7d' :: _ => dropTrailingCommas false cs
    | _ => ',' :: dropTrailingCommas false cs
  | false, c :: cs => c :: dropTrailingCommas false cs

/-- Modelled from the spec: `jsonrepair.JSONRepair`, which is not part of the repository;
the Syntax Repairer of section 6. This instance repairs trailing commas (scenario 9 of
section 8), returns valid JSON unchanged, and fails on any other text. -/
def JSONRepair (text : String) : Option String :=
  match parse (String.mk (dropTrailingCommas false text.data)) with
  | some _ => some (String.mk (dropTrailingCommas false text.data))
  | none => none

end Lib

/-- The reference collaborators as an `Env`. A float32 is not rounded, and a conversion
between different types panics. -/
def goEnv : Env where
  JSONRepair := Lib.JSONRepair
  Unmarshal := Lib.Unmarshal
  UnmarshalRaw := Lib.UnmarshalRaw
  Marshal := Lib.Marshal
  ToString := Lib.ToString
  ToInt := Lib.ToInt
  ToUint := Lib.ToUint
  ToFloat32 := Lib.ToFloat64
  ToFloat64 := Lib.ToFloat64
  ToBool := Lib.ToBool
  Float32 := fun x => x
  Convert := fun _ _ => none

/-! ## Example targets and texts -/

/-- The record `{name: string, count: int}` of scenario 6. -/
def exRecord : GoType :=
  .struct [⟨"Name", "name", true, .string⟩, ⟨"Count", "count", true, .int .native⟩]

/-- The text of scenario 6, with the count given as a string. -/
def exRecordText : String := "\x7b\"name\":\"x\",\"count\":\"7\"\x7d"

/-- A record whose field `count` is tagged but not exported. -/
def exHidden : GoType :=
  .struct [⟨"Name", "name", true, .string⟩, ⟨"count", "count", false, .int .native⟩]

/-- A text for `exHidden` on which the strict decoder fails (a number for a string). -/
def exHiddenText : String := "\x7b\"name\":1,\"count\":\"7\"\x7d"

/-- The record `Nested` of `TestUnmarshal`, also the `Item` of scenario 7. -/
def exNested : GoType := .struct [⟨"A", "a", true, .int .native⟩]

/-- The record `MySchema` of `TestUnmarshal`. -/
def exMySchema : GoType :=
  .struct [⟨"Field1", "field1", true, .slice (.map .string)⟩,
    ⟨"NestedObj", "nested", true, exNested⟩,
    ⟨"Numbers", "numbers", true, .int .native⟩,
    ⟨"BoolVal", "bool_val", true, .bool⟩]

/-- The text `jsonStr` of `TestUnmarshal`. -/
def exJsonStr : String :=
  "\x7b \"field1\": \"[\x7b\\\"sub1\\\": \\\"xxx\\\"\x7d, \x7b\\\"sub2\\\": \\\"yyy\\\"\x7d]\", \"nested\": \"\x7b\\\"a\\\": \\\"123\\\"\x7d\", \"numbers\": \"456\", \"bool_val\": \"true\" \x7d"

/-- The text of scenario 7: an array of objects, each encoded as a JSON string. -/
def exItemsText : String := "[\"\x7b\\\"a\\\":1\x7d\",\"\x7b\\\"a\\\":2\x7d\"]"

/-- The literal string of scenario 8, a JSON string whose content is a JSON object. -/
def exMapLiteral : String := "\"\x7b\\\"k\\\":\\\"v\\\"\x7d\""

/-- The content of `exMapLiteral`. -/
def exMapContent : String := "\x7b\"k\":\"v\"\x7d"

/-- A record with one field, a nested record. -/
def exOuter : GoType := .struct [⟨"Nested", "nested", true, exNested⟩]

/-- The nested record given as an object. -/
def exWrap0 : String := "\x7b\"nested\":\x7b\"a\":1\x7d\x7d"

/-- The nested record given as a string: one level of JSON string encoding. -/
def exWrap1 : String := "\x7b\"nested\":\"\x7b\\\"a\\\":1\x7d\"\x7d"

/-- The nested record given as a string of a string: two levels of JSON string encoding. -/
def exWrap2 : String := "\x7b\"nested\":\"\\\"\x7b\\\\\\\"a\\\\\\\":1\x7d\\\"\"\x7d"

/-- A record with an int and a slice of ints. -/
def exPair : GoType :=
  .struct [⟨"A", "a", true, .int .native⟩, ⟨"B", "b", true, .slice (.int .native)⟩]

/-- A text for `exPair` whose second value is not an array. -/
def exPairText : String := "\x7b\"a\":\"1\",\"b\":5\x7d"

/-- The text of scenario 6 with two keys the record does not declare. -/
def exExtraText : String :=
  "\x7b\"extra\":[1],\"name\":\"x\",\"NAME\":\"y\",\"count\":\"7\"\x7d"

set_option maxRecDepth 100000

/-- The object inside `mapStr` of `TestUnmarshal`. -/
def exSubText : String := "\x7b\"sub1\": \"xxx\", \"sub2\": 123\x7d"

/-- The text `mapStr` of `TestUnmarshal`: the object as a JSON string literal. -/
def exMapStr : String := "\"\x7b\\\"sub1\\\": \\\"xxx\\\", \\\"sub2\\\": 123\x7d\""

/-- The collaborators with another Syntax Repairer. -/
def Env.withRepair (env : Env) (r : String → Option String) : Env :=
  { env with JSONRepair := r }

/-- A text with a nested string that is malformed JSON, repairable by dropping a comma. -/
def exNestedBroken : String := "[\"[1,]\"]"

/-- A slot on which the post-pass of `processValue` has nothing to do: it is of primitive
kind and the Flexible Scalar Caster returns its value unchanged. -/
def slotStable (env : Env) (t : GoType) (v : Value) : Prop :=
  t.isPrimitive = true ∧ castTo env t (some (t, v)) = v

/-- The fields of a record that the post-pass visits (the exported ones) are stable slots. -/
def fieldsStable (env : Env) : List (Field GoType) → List Value → Prop
  | f :: fields, v :: vs => (f.exported = false ∨ slotStable env f.type v) ∧ fieldsStable env fields vs
  | _, _ => True

/-- A freshly decoded value all of whose slots visited by `processSchema` are stable; a
destination that is not a map, a slice or a struct has no slot to visit. -/
def postPassStable (env : Env) (t : GoType) (x : Value) : Prop :=
  match t, x with
  | .map e, .map kvs => ∀ kv ∈ kvs, slotStable env e kv.2
  | .slice e, .slice xs => ∀ v ∈ xs, slotStable env e v
  | .struct fields, .struct fs => fieldsStable env fields fs
  | _, _ => True

/-- A record with one field of interface type. -/
def exInnerAny : GoType := .struct [⟨"X", "x", true, .iface⟩]

/-- A record with one field, the record `exInnerAny`. -/
def exOuterAny : GoType := .struct [⟨"Inner", "inner", true, exInnerAny⟩]

/-- The inner record given as a string; its field `x` is the string `[1]`. -/
def exAnyText : String := "\x7b\"inner\":\"\x7b\\\"x\\\":\\\"[1]\\\"\x7d\"\x7d"

/-- The inner record given as a string; its field `x` is absent. -/
def exAnyEmptyText : String := "\x7b\"inner\":\"\x7b\x7d\"\x7d"

/-- The indices of the fields that the keys of a generic object resolve to, in the order
of the object. -/
def resolvedIndices (fields : List (Field GoType)) (kvs : List (String × Raw)) : List Nat :=
  kvs.filterMap (fun kv => (findFieldByJSONTag fields kv.1).map Prod.fst)

/-- A record with one field whose tag carries the option omitempty. -/
def exOmit : GoType := .struct [⟨"A", "a,omitempty", true, .int .native⟩]

/-- A record with a slice field and a map field. -/
def exTwo : GoType :=
  .struct [⟨"B", "b", true, .slice (.int .native)⟩, ⟨"C", "c", true, .map .string⟩]

/-- What the strict attempts of a call of `unmarshal` that goes down to the switch leave
in storage of type `t` that held `v`: the two attempts of lines 31 and 40 on the text,
and, when the text parses to a string that the detector accepts, those of the call on its
content (lines 56 and 88), and so on. -/
def strictLeft (env : Env) (t : GoType) : Nat → String → Value → Value
  | 0, _, v => v
  | fuel + 1, data, v =>
    match env.UnmarshalRaw data with
    | .ok raw =>
      match embedded env raw with
      | some jsonString => strictLeft env t fuel jsonString (afterStrict env data t v)
      | none => afterStrict env data t v
    | .error _ => afterStrict env data t v

/-- A record whose field `b`, a slice, is tagged but not exported. -/
def exHiddenSlice : GoType :=
  .struct [⟨"Name", "name", true, .string⟩, ⟨"b", "b", false, .slice (.int .native)⟩]


/-! ## Unfolding `unmarshal` -/

theorem unmarshal_fast (env : Env) (fuel : Nat) (data : String) (t : GoType) (v0 : Value)
    (h : (env.Unmarshal data t v0).1 = none) :
    unmarshal env (fuel + 1) data (ptrAt t v0) = (.ok, ptrAt t (env.Unmarshal data t v0).2) := by
  simp [unmarshal, ptrAt, jsonUnmarshal, h]

theorem unmarshal_slow (env : Env) (fuel : Nat) (data : String) (t : GoType) (v0 : Value)
    (raw : Raw) (hs : strictFails env data t v0 = true) (hraw : env.UnmarshalRaw data = .ok raw) :
    unmarshal env (fuel + 1) data (ptrAt t v0) =
      unmarshalSwitch env (unmarshal env fuel) (processValue env fuel) data t raw
        (afterStrict env data t v0) := by
  simp only [strictFails, Bool.and_eq_true, Option.isSome_iff_exists] at hs
  obtain ⟨⟨e1, h1⟩, ⟨e2, h2⟩⟩ := hs
  have h1' : env.Unmarshal data t v0 = (some e1, (env.Unmarshal data t v0).2) := by
    rw [← h1]
  have h2' : env.Unmarshal data t (env.Unmarshal data t v0).2
      = (some e2, afterStrict env data t v0) := by
    rw [← h2]; rfl
  rw [ptrAt, unmarshal]
  simp only [jsonUnmarshal, h1]
  rw [h2']
  simp only [hraw]


/-! ## The struct loop -/

theorem findFieldByJSONTag_lt (fields : List (Field GoType)) (key : String) (i : Nat)
    (f : Field GoType) (h : findFieldByJSONTag fields key = some (i, f)) : i < fields.length := by
  induction fields generalizing i with
  | nil => simp [findFieldByJSONTag] at h
  | cons g gs ih =>
    unfold findFieldByJSONTag at h
    split at h
    · cases h; simp
    · split at h
      · rename_i j g1 hj
        cases h
        have := ih j hj
        simp; omega
      · cases h

theorem structLoop_cons (env : Env) (pv : Any → GoType → Result × Any)
    (fields : List (Field GoType)) (key : String) (value : Raw) (rest : List (String × Raw))
    (fs : List Value) :
    structLoop env pv fields ((key, value) :: rest) fs =
      if (structStep env pv fields key value fs).1 = .ok then
        structLoop env pv fields rest (structStep env pv fields key value fs).2
      else structStep env pv fields key value fs := by
  rw [structLoop]
  split
  · rename_i h; simp [h]
  · rename_i r fs1 hne h
    have : r ≠ .ok := fun hr => hne hr
    simp [h, this]

theorem structStep_length (env : Env) (pv : Any → GoType → Result × Any)
    (fields : List (Field GoType)) (key : String) (value : Raw) (fs : List Value) :
    (structStep env pv fields key value fs).2.length = fs.length := by
  unfold structStep
  split
  · split
    · split
      · split <;> simp
      · rfl
    · rfl
  · rfl

theorem structStep_frame (env : Env) (pv : Any → GoType → Result × Any)
    (fields : List (Field GoType)) (key : String) (value : Raw) (fs : List Value) (i : Nat)
    (h : ∀ f, findFieldByJSONTag fields key ≠ some (i, f)) :
    (structStep env pv fields key value fs).2[i]? = fs[i]? := by
  unfold structStep
  split
  · rename_i j field hj
    have hji : j ≠ i := fun hji => h field (by simpa [hji] using hj)
    split
    · split
      · split
        · simp [List.getElem?_set_ne hji]
        · rfl
      · rfl
    · rfl
  · rfl

theorem structLoop_length (env : Env) (pv : Any → GoType → Result × Any)
    (fields : List (Field GoType)) (kvs : List (String × Raw)) (fs : List Value) :
    (structLoop env pv fields kvs fs).2.length = fs.length := by
  induction kvs generalizing fs with
  | nil => simp [structLoop]
  | cons kv rest ih =>
    obtain ⟨key, value⟩ := kv
    rw [structLoop_cons]
    split
    · rw [ih, structStep_length]
    · exact structStep_length ..

theorem structLoop_frame (env : Env) (pv : Any → GoType → Result × Any)
    (fields : List (Field GoType)) (i : Nat) (kvs : List (String × Raw)) (fs : List Value)
    (h : ∀ kv ∈ kvs, ∀ f, findFieldByJSONTag fields kv.1 ≠ some (i, f)) :
    (structLoop env pv fields kvs fs).2[i]? = fs[i]? := by
  induction kvs generalizing fs with
  | nil => simp [structLoop]
  | cons kv rest ih =>
    obtain ⟨key, value⟩ := kv
    have hrest : ∀ kv ∈ rest, ∀ f, findFieldByJSONTag fields kv.1 ≠ some (i, f) :=
      fun kv hkv => h kv (List.mem_cons_of_mem _ hkv)
    have hkey := structStep_frame env pv fields key value fs i
      (h (key, value) (List.mem_cons_self _ _))
    rw [structLoop_cons]
    split
    · rw [ih _ hrest, hkey]
    · exact hkey

theorem structLoop_append (env : Env) (pv : Any → GoType → Result × Any)
    (fields : List (Field GoType)) (pre post : List (String × Raw)) (fs : List Value) :
    structLoop env pv fields (pre ++ post) fs =
      if (structLoop env pv fields pre fs).1 = .ok then
        structLoop env pv fields post (structLoop env pv fields pre fs).2
      else structLoop env pv fields pre fs := by
  induction pre generalizing fs with
  | nil => simp [structLoop]
  | cons kv rest ih =>
    obtain ⟨key, value⟩ := kv
    rw [List.cons_append, structLoop_cons, structLoop_cons]
    by_cases hstep : (structStep env pv fields key value fs).1 = .ok
    · simp only [hstep, if_true]; exact ih _
    · simp [hstep]

theorem structStep_shape (env : Env) (pv : Any → GoType → Result × Any)
    (fields : List (Field GoType)) (key : String) (value : Raw) :
    (∃ r, ∀ fs, structStep env pv fields key value fs = (r, fs))
      ∨ (∃ i field x, findFieldByJSONTag fields key = some (i, field) ∧
        ∀ fs, structStep env pv fields key value fs = (.ok, fs.set i x)) := by
  cases hres : findFieldByJSONTag fields key with
  | none => left; exact ⟨.ok, fun fs => by simp [structStep, hres]⟩
  | some r =>
    obtain ⟨i, field⟩ := r
    by_cases hexp : field.exported = true
    · cases hpv : pv value.toAny field.type with
      | mk res x =>
        cases res with
        | ok =>
          cases hc : convert env x field.type with
          | none =>
            left
            exact ⟨.panic (convertPanic x field.type),
              fun fs => by simp [structStep, hres, hexp, hpv, hc]⟩
          | some y =>
            right
            exact ⟨i, field, y, rfl, fun fs => by simp [structStep, hres, hexp, hpv, hc]⟩
        | error m => left; exact ⟨.error m, fun fs => by simp [structStep, hres, hexp, hpv]⟩
        | panic m => left; exact ⟨.panic m, fun fs => by simp [structStep, hres, hexp, hpv]⟩
        | exhausted => left; exact ⟨.exhausted, fun fs => by simp [structStep, hres, hexp, hpv]⟩
    · left; exact ⟨.ok, fun fs => by simp [structStep, hres, hexp]⟩

theorem structStep_result (env : Env) (pv : Any → GoType → Result × Any)
    (fields : List (Field GoType)) (key : String) (value : Raw) (fs : List Value) :
    (structStep env pv fields key value fs).1 = (structStep env pv fields key value []).1 := by
  rcases structStep_shape env pv fields key value with ⟨r, h⟩ | ⟨i, field, x, _, h⟩
  · rw [h fs, h []]
  · rw [h fs, h []]

theorem structLoop_ok_iff (env : Env) (pv : Any → GoType → Result × Any)
    (fields : List (Field GoType)) (kvs : List (String × Raw)) (fs : List Value) :
    (structLoop env pv fields kvs fs).1 = .ok ↔
      ∀ kv ∈ kvs, (structStep env pv fields kv.1 kv.2 []).1 = .ok := by
  induction kvs generalizing fs with
  | nil => simp [structLoop]
  | cons kv rest ih =>
    obtain ⟨key, value⟩ := kv
    rw [structLoop_cons]
    have hr := structStep_result env pv fields key value fs
    by_cases hstep : (structStep env pv fields key value fs).1 = .ok
    · simp only [hstep, if_true, ih, List.mem_cons, forall_eq_or_imp]
      rw [hr] at hstep
      simp [hstep]
    · simp only [hstep, if_false, List.mem_cons, forall_eq_or_imp, false_iff]
      rw [hr] at hstep
      intro h
      exact hstep h.1

theorem exists_first_failure {α : Type} (p : α → Prop) (l : List α) (h : ∃ x ∈ l, ¬ p x) :
    ∃ pre x post, l = pre ++ x :: post ∧ (∀ y ∈ pre, p y) ∧ ¬ p x := by
  induction l with
  | nil =>
    obtain ⟨x, hx, _⟩ := h
    cases hx
  | cons a rest ih =>
    by_cases ha : p a
    · obtain ⟨x, hx, hpx⟩ := h
      rcases List.mem_cons.1 hx with rfl | hmem
      · exact absurd ha hpx
      · obtain ⟨pre, y, post, hl, hpre, hy⟩ := ih ⟨x, hmem, hpx⟩
        refine ⟨a :: pre, y, post, by rw [hl]; rfl, ?_, hy⟩
        intro z hz
        rcases List.mem_cons.1 hz with rfl | hz1
        · exact ha
        · exact hpre z hz1
    · exact ⟨[], a, rest, rfl, fun y hy => absurd hy (List.not_mem_nil y), ha⟩

theorem structStep_failed (env : Env) (pv : Any → GoType → Result × Any)
    (fields : List (Field GoType)) (key : String) (value : Raw) (fs : List Value)
    (h : (structStep env pv fields key value fs).1 ≠ .ok) :
    (structStep env pv fields key value fs).2 = fs := by
  rcases structStep_shape env pv fields key value with ⟨r, hr⟩ | ⟨i, field, x, _, hx⟩
  · rw [hr fs]
  · rw [hx fs] at h
    exact absurd rfl h

/-- A record loop that does not return nil stops at the first key whose step fails: the
keys before it have been processed, and the storage is the one they left. -/
theorem structLoop_failed (env : Env) (pv : Any → GoType → Result × Any)
    (fields : List (Field GoType)) (kvs : List (String × Raw)) (fs : List Value)
    (h : (structLoop env pv fields kvs fs).1 ≠ .ok) :
    ∃ pre key value post, kvs = pre ++ (key, value) :: post ∧
      (structLoop env pv fields pre fs).1 = .ok ∧
      (structStep env pv fields key value (structLoop env pv fields pre fs).2).1 ≠ .ok ∧
      structLoop env pv fields kvs fs
        = ((structStep env pv fields key value (structLoop env pv fields pre fs).2).1,
            (structLoop env pv fields pre fs).2) := by
  have hbad : ∃ x ∈ kvs, ¬ (structStep env pv fields x.1 x.2 []).1 = .ok := by
    by_contra hall
    exact h ((structLoop_ok_iff env pv fields kvs fs).2 (fun kv hkv => by
      by_contra hkv1
      exact hall ⟨kv, hkv, hkv1⟩))
  obtain ⟨pre, x, post, hl, hpre, hx⟩ :=
    exists_first_failure (fun x => (structStep env pv fields x.1 x.2 []).1 = .ok) kvs hbad
  obtain ⟨key, value⟩ := x
  have hpreok : (structLoop env pv fields pre fs).1 = .ok :=
    (structLoop_ok_iff env pv fields pre fs).2 hpre
  have hstep : (structStep env pv fields key value (structLoop env pv fields pre fs).2).1
      ≠ .ok := by
    rw [structStep_result]
    exact hx
  refine ⟨pre, key, value, post, hl, hpreok, hstep, ?_⟩
  rw [hl, structLoop_append]
  simp only [hpreok, if_true]
  rw [structLoop_cons]
  simp only [hstep, if_false]
  exact Prod.ext rfl (structStep_failed env pv fields key value _ hstep)



/-! ## Primitive fields -/

theorem processValue_primitive (env : Env) (fuel : Nat) (x : Any) (t : GoType)
    (ht : t.isPrimitive = true) :
    processValue env (fuel + 1) x t = (.ok, some (t, castTo env t x)) := by
  cases t <;> simp [GoType.isPrimitive] at ht <;>
    simp [processValue, GoType.isStructural, castTo]

theorem convert_primitive (env : Env) (t : GoType) (v : Value) (ht : t.isPrimitive = true) :
    convert env (some (t, v)) t = some v := by
  cases t <;> simp [GoType.isPrimitive] at ht <;> simp [convert, GoType.beq]

theorem structStep_primitive (env : Env) (fuel : Nat) (fields : List (Field GoType))
    (key : String) (value : Raw) (fs : List Value) (i : Nat) (field : Field GoType)
    (hres : findFieldByJSONTag fields key = some (i, field)) (hexp : field.exported = true)
    (hprim : field.type.isPrimitive = true) :
    structStep env (processValue env (fuel + 1)) fields key value fs =
      (.ok, fs.set i (castTo env field.type value.toAny)) := by
  simp [structStep, hres, hexp, processValue_primitive env fuel _ _ hprim,
    convert_primitive env _ _ hprim]

theorem structStep_zero (env : Env) (fields : List (Field GoType))
    (key : String) (value : Raw) (fs : List Value) (i : Nat) (field : Field GoType)
    (hres : findFieldByJSONTag fields key = some (i, field)) (hexp : field.exported = true) :
    structStep env (processValue env 0) fields key value fs = (.exhausted, fs) := by
  simp [structStep, hres, hexp, processValue]

theorem embedded_obj (env : Env) (kvs : List (String × Raw)) : embedded env (.obj kvs) = none := rfl

theorem embedded_arr (env : Env) (xs : List Raw) : embedded env (.arr xs) = none := rfl

theorem unmarshalSwitch_struct_obj (env : Env) (dec : String → Any → Result × Any)
    (pv : Any → GoType → Result × Any) (data : String) (fields : List (Field GoType))
    (kvs : List (String × Raw)) (fs : List Value) :
    unmarshalSwitch env dec pv data (.struct fields) (.obj kvs) (.struct fs) =
      ((structLoop env pv fields kvs fs).1,
        ptrAt (.struct fields) (.struct (structLoop env pv fields kvs fs).2)) := by
  simp [unmarshalSwitch, embedded]

theorem structStep_hidden (env : Env) (pv : Any → GoType → Result × Any)
    (fields : List (Field GoType)) (key : String) (value : Raw) (fs : List Value) (i : Nat)
    (field : Field GoType) (hres : findFieldByJSONTag fields key = some (i, field))
    (hexp : field.exported = false) :
    structStep env pv fields key value fs = (.ok, fs) := by
  simp [structStep, hres, hexp]

/-- C1 (amended): for a record target, a text on which the strict fast path fails and that
parses to a generic mapping, and a key that is the only one to resolve to the field of
index `i` (`fs` is the storage of the fields when the reconciliation begins). When the
field is exported (settable) and of primitive kind `k` and `Unmarshal` succeeds, the field
holds `cast<k>` of the value of the key. When the field is not exported, the key is
skipped: whatever the outcome, the field holds what it held when the reconciliation
began. -/
theorem record_scalar_coercion (env : Env) (fuel : Nat) (data : String)
    (fields : List (Field GoType)) (v0 : Value) (fs : List Value)
    (pre post : List (String × Raw)) (key : String) (value : Raw) (i : Nat)
    (field : Field GoType)
    (hfast : strictFails env (repairedText env data) (.struct fields) v0 = true)
    (hraw : env.UnmarshalRaw (repairedText env data) = .ok (.obj (pre ++ (key, value) :: post)))
    (hshape : afterStrict env (repairedText env data) (.struct fields) v0 = .struct fs)
    (hlen : fs.length = fields.length)
    (hres : findFieldByJSONTag fields key = some (i, field))
    (hone : ∀ kv ∈ pre ++ post, ∀ f, findFieldByJSONTag fields kv.1 ≠ some (i, f)) :
    ∃ fs1, (Unmarshal env (fuel + 1) data (ptrAt (.struct fields) v0)).2
        = ptrAt (.struct fields) (.struct fs1)
      ∧ (field.exported = true → field.type.isPrimitive = true →
          (Unmarshal env (fuel + 1) data (ptrAt (.struct fields) v0)).1 = .ok →
          fs1[i]? = some (castTo env field.type value.toAny))
      ∧ (field.exported = false → fs1[i]? = fs[i]?) := by
  have hrun : Unmarshal env (fuel + 1) data (ptrAt (.struct fields) v0) =
      ((structLoop env (processValue env fuel) fields (pre ++ (key, value) :: post) fs).1,
        ptrAt (.struct fields)
          (.struct (structLoop env (processValue env fuel) fields
            (pre ++ (key, value) :: post) fs).2)) := by
    rw [Unmarshal, unmarshal_slow env fuel _ _ _ _ hfast hraw, hshape,
      unmarshalSwitch_struct_obj]
  rw [hrun]
  refine ⟨_, rfl, ?_, ?_⟩
  · intro hexp hprim hok
    simp only at hok
    have hpost : ∀ kv ∈ post, ∀ f, findFieldByJSONTag fields kv.1 ≠ some (i, f) :=
      fun kv hkv => hone kv (List.mem_append_right _ hkv)
    have hi : i < fields.length := findFieldByJSONTag_lt fields key i field hres
    rw [structLoop_append] at hok ⊢
    by_cases hp : (structLoop env (processValue env fuel) fields pre fs).1 = .ok
    · simp only [hp, if_true] at hok ⊢
      cases fuel with
      | zero =>
        rw [structLoop_cons, structStep_zero env fields key value _ i field hres hexp] at hok
        simp at hok
      | succ n =>
        rw [structLoop_cons,
          structStep_primitive env n fields key value _ i field hres hexp hprim]
        simp only [if_true]
        rw [structLoop_frame env _ fields i post _ hpost]
        have hl : i < (structLoop env (processValue env (n + 1)) fields pre fs).2.length := by
          rw [structLoop_length]; omega
        simp [List.getElem?_set_self, hl]
    · simp only [hp, if_false] at hok
  · intro hexp
    have hpre : ∀ kv ∈ pre, ∀ f, findFieldByJSONTag fields kv.1 ≠ some (i, f) :=
      fun kv hkv => hone kv (List.mem_append_left _ hkv)
    have hpost : ∀ kv ∈ post, ∀ f, findFieldByJSONTag fields kv.1 ≠ some (i, f) :=
      fun kv hkv => hone kv (List.mem_append_right _ hkv)
    rw [structLoop_append]
    by_cases hp : (structLoop env (processValue env fuel) fields pre fs).1 = .ok
    · simp only [hp, if_true]
      rw [structLoop_cons, structStep_hidden env _ fields key value _ i field hres hexp]
      simp only [if_true]
      rw [structLoop_frame env _ fields i post _ hpost,
        structLoop_frame env _ fields i pre _ hpre]
    · simp only [hp, if_false]
      exact structLoop_frame env _ fields i pre _ hpre

/-- Witness of `record_scalar_coercion`. On scenario 6 of the specification the text
`{"name":"x","count":"7"}` decodes into `{name: string, count: int}` as `x` and `7`, and
`TestUnmarshal` gives `numbers = 456` and `bool_val = true`. In `exHidden`, whose field
`count` is not exported, a target that holds `old` and `5` ends with `1` and `5`: the key
`count` is skipped and the field keeps `5`, it is not reset. -/
theorem record_scalar_coercion_witness :
    Unmarshal goEnv 2 exRecordText (newPtr exRecord)
        = (.ok, ptrAt exRecord (.struct [.str "x", .int 7]))
      ∧ castTo goEnv (.int .native) (Raw.toAny (.str "7")) = .int 7
      ∧ Unmarshal goEnv 8 exJsonStr (newPtr exMySchema)
        = (.ok, ptrAt exMySchema (.struct [.slice [.map [("sub1", .str "xxx")],
            .map [("sub2", .str "yyy")]], .struct [.int 123], .int 456, .bool true]))
      ∧ Unmarshal goEnv 2 exHiddenText (ptrAt exHidden (.struct [.str "old", .int 5]))
        = (.ok, ptrAt exHidden (.struct [.str "1", .int 5]))
      ∧ (∃ fs1, (Unmarshal goEnv 2 exRecordText (ptrAt exRecord (.struct [.str "", .int 0]))).2
          = ptrAt exRecord (.struct fs1)
        ∧ fs1[1]? = some (castTo goEnv (.int .native) (Raw.toAny (.str "7"))))
      ∧ (∃ fs1, (Unmarshal goEnv 2 exHiddenText
            (ptrAt exHidden (.struct [.str "old", .int 5]))).2 = ptrAt exHidden (.struct fs1)
        ∧ fs1[1]? = some (.int 5)) :=
  ⟨rfl, rfl, rfl, rfl,
    (record_scalar_coercion goEnv 1 exRecordText
      [⟨"Name", "name", true, .string⟩, ⟨"Count", "count", true, .int .native⟩]
      (.struct [.str "", .int 0]) [.str "x", .int 0] [("name", .str "x")] [] "count" (.str "7") 1
      ⟨"Count", "count", true, .int .native⟩ rfl rfl rfl rfl rfl
      (by
        intro kv hkv f hf
        simp only [List.append_nil, List.mem_singleton] at hkv
        subst hkv
        have h0 : findFieldByJSONTag
            [⟨"Name", "name", true, .string⟩, ⟨"Count", "count", true, .int .native⟩] "name"
            = some (0, ⟨"Name", "name", true, .string⟩) := rfl
        rw [h0] at hf
        cases hf)).elim (fun fs1 h => ⟨fs1, h.1, h.2.1 rfl rfl rfl⟩),
    (record_scalar_coercion goEnv 1 exHiddenText
      [⟨"Name", "name", true, .string⟩, ⟨"count", "count", false, .int .native⟩]
      (.struct [.str "old", .int 5]) [.str "", .int 5] [("name", .num ⟨1, 0⟩)] [] "count"
      (.str "7") 1 ⟨"count", "count", false, .int .native⟩ rfl rfl rfl rfl rfl
      (by
        intro kv hkv f hf
        simp only [List.append_nil, List.mem_singleton] at hkv
        subst hkv
        have h0 : findFieldByJSONTag
            [⟨"Name", "name", true, .string⟩, ⟨"count", "count", false, .int .native⟩] "name"
            = some (0, ⟨"Name", "name", true, .string⟩) := rfl
        rw [h0] at hf
        cases hf)).elim (fun fs1 h => ⟨fs1, h.1, h.2.2 rfl⟩)⟩

/-- Counterexample to C1 as stated: in `exHidden` the key `count` is the only key that
resolves to the field `count`, of kind int, and `Unmarshal` succeeds on a text for which
the fast path fails, yet the field keeps `0` instead of `cast<int>("7") = 7`, because
the field is not exported and `CanSet` is false. -/
theorem record_scalar_coercion_counterexample :
    strictFails goEnv (repairedText goEnv exHiddenText) exHidden (zero exHidden) = true
      ∧ goEnv.UnmarshalRaw (repairedText goEnv exHiddenText)
        = .ok (.obj [("name", .num ⟨1, 0⟩), ("count", .str "7")])
      ∧ findFieldByJSONTag
          [⟨"Name", "name", true, .string⟩, ⟨"count", "count", false, .int .native⟩] "count"
        = some (1, ⟨"count", "count", false, .int .native⟩)
      ∧ findFieldByJSONTag
          [⟨"Name", "name", true, .string⟩, ⟨"count", "count", false, .int .native⟩] "name"
        = some (0, ⟨"Name", "name", true, .string⟩)
      ∧ Unmarshal goEnv 2 exHiddenText (newPtr exHidden)
        = (.ok, ptrAt exHidden (.struct [.str "1", .int 0]))
      ∧ castTo goEnv (.int .native) (Raw.toAny (.str "7")) = .int 7
      ∧ Value.int 0 ≠ Value.int 7 :=
  ⟨rfl, rfl, rfl, rfl, rfl, rfl, by simp⟩


/-! ## The slice loop -/

theorem asString_toAny (item : Raw) (s : String) :
    item.toAny.asString = some s ↔ item = .str s := by
  cases item <;> simp [Raw.toAny, Raw.toValue, Value.Interface, Any.asString]

theorem asString_toAny_none (item : Raw) (h : ∀ s, item ≠ .str s) :
    item.toAny.asString = none := by
  cases item <;> simp [Raw.toAny, Raw.toValue, Value.Interface, Any.asString] at h ⊢

/-- The text `chooseText` picks: the content of a detected string, the serialization of
anything else. -/
theorem chooseText_ok (env : Env) (item : Raw) (text : String)
    (h : chooseText env item.toAny = .ok text) :
    (∃ s, item = .str s ∧ isJSONString env s = true ∧ text = s) ∨
      ((∀ s, item = .str s → isJSONString env s = false) ∧ env.Marshal item.toAny = .ok text) := by
  unfold chooseText at h
  split at h
  · rename_i s hs
    have hitem := (asString_toAny item s).1 hs
    split at h
    · rename_i hj
      left
      refine ⟨s, hitem, hj, ?_⟩
      cases h; rfl
    · rename_i hj
      right
      refine ⟨?_, h⟩
      intro s1 hs1
      rw [hitem] at hs1
      cases hs1
      simpa using hj
  · rename_i hs
    right
    refine ⟨?_, h⟩
    intro s1 hs1
    rw [(asString_toAny item s1).2 hs1] at hs
    cases hs

theorem decodeItem_ok (env : Env) (dec : String → Any → Result × Any) (elemT : GoType)
    (item : Raw) (v : Value) (h : decodeItem env dec elemT item = (.ok, v)) :
    ∃ text, chooseText env item.toAny = .ok text ∧ (dec text (newPtr elemT)).1 = .ok ∧
      v = (dec text (newPtr elemT)).2.elem := by
  unfold decodeItem at h
  split at h
  · cases h
  · rename_i text ht
    refine ⟨text, ht, ?_, ?_⟩
    · exact congrArg Prod.fst h
    · exact (congrArg Prod.snd h).symm

theorem sliceLoop_cons (env : Env) (dec : String → Any → Result × Any) (elemT : GoType)
    (item : Raw) (rest : List Raw) (acc : List Value) :
    sliceLoop env dec elemT (item :: rest) acc =
      if (decodeItem env dec elemT item).1 = .ok then
        sliceLoop env dec elemT rest (acc ++ [(decodeItem env dec elemT item).2])
      else ((decodeItem env dec elemT item).1, acc) := by
  rw [sliceLoop]
  split
  · rename_i h; simp [h]
  · rename_i r x hne h
    have : r ≠ .ok := fun hr => hne hr
    simp [h, this]

theorem sliceLoop_ok (env : Env) (dec : String → Any → Result × Any) (elemT : GoType)
    (items : List Raw) (acc out : List Value)
    (h : sliceLoop env dec elemT items acc = (.ok, out)) :
    ∃ vs, out = acc ++ vs ∧
      List.Forall₂ (fun item v => decodeItem env dec elemT item = (.ok, v)) items vs := by
  induction items generalizing acc with
  | nil =>
    simp only [sliceLoop, Prod.mk.injEq, true_and] at h
    exact ⟨[], by simp [h], List.Forall₂.nil⟩
  | cons item rest ih =>
    rw [sliceLoop_cons] at h
    split at h
    · rename_i hitem
      obtain ⟨vs, hout, hall⟩ := ih _ h
      refine ⟨(decodeItem env dec elemT item).2 :: vs, by simp [hout], ?_⟩
      exact List.Forall₂.cons (Prod.ext hitem rfl) hall
    · rename_i hitem
      exact absurd (congrArg Prod.fst h) hitem

theorem sliceLoop_not_ok (env : Env) (dec : String → Any → Result × Any) (elemT : GoType)
    (items : List Raw) (acc : List Value)
    (h : (sliceLoop env dec elemT items acc).1 ≠ .ok) :
    ∃ item ∈ items, (decodeItem env dec elemT item).1 = (sliceLoop env dec elemT items acc).1 := by
  induction items generalizing acc with
  | nil => simp [sliceLoop] at h
  | cons item rest ih =>
    rw [sliceLoop_cons] at h ⊢
    split
    · rename_i hitem
      simp only [hitem, if_true] at h
      obtain ⟨x, hx, hr⟩ := ih _ h
      exact ⟨x, List.mem_cons_of_mem _ hx, hr⟩
    · exact ⟨item, List.mem_cons_self _ _, rfl⟩

theorem forall₂_getElem? {α β : Type} {R : α → β → Prop} {l1 : List α} {l2 : List β}
    (h : List.Forall₂ R l1 l2) (i : Nat) (a : α) (ha : l1[i]? = some a) :
    ∃ b, l2[i]? = some b ∧ R a b := by
  induction h generalizing i with
  | nil => simp at ha
  | cons hab _ ih =>
    cases i with
    | zero =>
      simp only [List.getElem?_cons_zero, Option.some.injEq] at ha
      subst ha
      exact ⟨_, by simp, hab⟩
    | succ j =>
      simp only [List.getElem?_cons_succ] at ha ⊢
      exact ih j ha

theorem unmarshalSwitch_slice_arr (env : Env) (dec : String → Any → Result × Any)
    (pv : Any → GoType → Result × Any) (data : String) (elemT : GoType)
    (items : List Raw) (v2 : Value) :
    unmarshalSwitch env dec pv data (.slice elemT) (.arr items) v2 =
      if (sliceLoop env dec elemT items []).1 = .ok then
        (.ok, ptrAt (.slice elemT) (.slice (sliceLoop env dec elemT items []).2))
      else ((sliceLoop env dec elemT items []).1, ptrAt (.slice elemT) v2) := by
  simp only [unmarshalSwitch, embedded]
  split
  · rename_i h; simp [h]
  · rename_i r x hne h
    have : r ≠ .ok := fun hr => hne hr
    simp [h, this]

/-- C2: decoding into a sequence is element-wise and order-preserving. For a slice target
and a text on which the fast path fails and that parses to a generic array of `n` items,
a successful decode stores a slice of exactly `n` elements, and the element at index `i`
is what `unmarshal` of the text `t_i` into a fresh element leaves there, where `t_i` is
the content of the item when the item is a string that the detector accepts, and the
`json.Marshal` of the item otherwise. -/
theorem sequence_elementwise (env : Env) (fuel : Nat) (data : String) (elemT : GoType)
    (v0 : Value) (items : List Raw) (out : Any)
    (hfast : strictFails env (repairedText env data) (.slice elemT) v0 = true)
    (hraw : env.UnmarshalRaw (repairedText env data) = .ok (.arr items))
    (hok : Unmarshal env (fuel + 1) data (ptrAt (.slice elemT) v0) = (.ok, out)) :
    ∃ vs, out = ptrAt (.slice elemT) (.slice vs) ∧ vs.length = items.length ∧
      ∀ (i : Nat) (item : Raw), items[i]? = some item →
        ∃ text,
          ((∃ s, item = .str s ∧ isJSONString env s = true ∧ text = s) ∨
            ((∀ s, item = .str s → isJSONString env s = false) ∧
              env.Marshal item.toAny = .ok text)) ∧
          (unmarshal env fuel text (newPtr elemT)).1 = .ok ∧
          vs[i]? = some (unmarshal env fuel text (newPtr elemT)).2.elem := by
  rw [Unmarshal, unmarshal_slow env fuel _ _ _ _ hfast hraw, unmarshalSwitch_slice_arr] at hok
  split at hok
  · rename_i hloop
    obtain ⟨vs, hvs, hall⟩ := sliceLoop_ok env (unmarshal env fuel) elemT items []
      (sliceLoop env (unmarshal env fuel) elemT items []).2 (Prod.ext hloop rfl)
    simp only [List.nil_append] at hvs
    rw [hvs] at hok
    refine ⟨vs, (congrArg Prod.snd hok).symm, hall.length_eq.symm, ?_⟩
    intro i item hi
    obtain ⟨v, hv, hdec⟩ := forall₂_getElem? hall i item hi
    obtain ⟨text, htext, hres, hval⟩ := decodeItem_ok env _ elemT item v hdec
    exact ⟨text, chooseText_ok env item text htext, hres, by rw [hv, hval]⟩
  · rename_i hloop
    exact absurd (congrArg Prod.fst hok) hloop

/-- Witness of `sequence_elementwise` on scenario 7 of the specification: the array of two
string-encoded objects decodes into two items with `a = 1` and `a = 2`. -/
theorem sequence_elementwise_witness :
    Unmarshal goEnv 3 exItemsText (newPtr (.slice exNested))
        = (.ok, ptrAt (.slice exNested) (.slice [.struct [.int 1], .struct [.int 2]]))
      ∧ ∃ vs, ptrAt (.slice exNested) (.slice [.struct [.int 1], .struct [.int 2]])
          = ptrAt (.slice exNested) (.slice vs) ∧ vs.length = 2 ∧
        ∀ (i : Nat) (item : Raw),
          [Raw.str "\x7b\"a\":1\x7d", Raw.str "\x7b\"a\":2\x7d"][i]? = some item →
          ∃ text,
            ((∃ s, item = .str s ∧ isJSONString goEnv s = true ∧ text = s) ∨
              ((∀ s, item = .str s → isJSONString goEnv s = false) ∧
                goEnv.Marshal item.toAny = .ok text)) ∧
            (unmarshal goEnv 2 text (newPtr exNested)).1 = .ok ∧
            vs[i]? = some (unmarshal goEnv 2 text (newPtr exNested)).2.elem :=
  ⟨rfl,
    sequence_elementwise goEnv 2 exItemsText exNested .nilSlice
      [.str "\x7b\"a\":1\x7d", .str "\x7b\"a\":2\x7d"]
      (ptrAt (.slice exNested) (.slice [.struct [.int 1], .struct [.int 2]])) rfl rfl rfl⟩

/-! ## The fast path -/

/-- C4: fast-path equivalence. For every text and every pointer target, if the Strict
Decoder succeeds on the text handed on by the repairer, `Unmarshal` returns no error and
the target holds exactly what the Strict Decoder alone produced. -/
theorem fast_path_equivalence (env : Env) (fuel : Nat) (data : String) (t : GoType) (p : Value)
    (h : (jsonUnmarshal env (repairedText env data) t p).1 = none) :
    Unmarshal env (fuel + 1) data (some (.ptr t, p)) =
      (.ok, some (.ptr t, (jsonUnmarshal env (repairedText env data) t p).2)) := by
  rw [Unmarshal, unmarshal]
  split
  · rename_i p1 hp
    rw [hp]
  · rename_i e v1 hp
    rw [hp] at h
    cases h
  · rename_i e p1 _ hp
    rw [hp] at h
    cases h

/-- Witness of `fast_path_equivalence`: a well-typed text takes the fast path. -/
theorem fast_path_equivalence_witness :
    (jsonUnmarshal goEnv (repairedText goEnv "\x7b\"a\": 1\x7d") exNested
        (.ptrTo (.struct [.int 0]))).1 = none
      ∧ Unmarshal goEnv 1 "\x7b\"a\": 1\x7d" (some (.ptr exNested, .ptrTo (.struct [.int 0])))
        = (.ok, some (.ptr exNested, .ptrTo (.struct [.int 1])))
      ∧ Unmarshal goEnv 1 "\x7b\"a\": 1\x7d" (some (.ptr exNested, .ptrTo (.struct [.int 0])))
        = (.ok, some (.ptr exNested,
            (jsonUnmarshal goEnv (repairedText goEnv "\x7b\"a\": 1\x7d") exNested
              (.ptrTo (.struct [.int 0]))).2)) :=
  ⟨rfl, rfl,
    fast_path_equivalence goEnv 0 "\x7b\"a\": 1\x7d" exNested (.ptrTo (.struct [.int 0])) rfl⟩

/-! ## Primitive targets -/

/-- C6 (what the code does): for a target of kind uint, float or bool, when the fast path
fails and the text parses, `unmarshal` stores the converted value and then falls out of
the `switch` to the last line, so `Unmarshal` returns the error `unsupported schema type`;
only string and signed integer targets return nil. -/
theorem primitive_target_outcome (env : Env) (fuel : Nat) (data : String) (t : GoType)
    (v0 : Value) (raw : Raw)
    (hfast : strictFails env (repairedText env data) t v0 = true)
    (hraw : env.UnmarshalRaw (repairedText env data) = .ok raw)
    (hprim : t.isPrimitive = true) :
    (Unmarshal env (fuel + 1) data (ptrAt t v0)).1 =
      (match t with
        | .string => Result.ok
        | .int _ => Result.ok
        | _ => Result.error ("unsupported schema type: " ++ t.kindName))
      ∧ (Unmarshal env (fuel + 1) data (ptrAt t v0)).2 =
        ptrAt t (match t with
          | .string => .str (env.ToString raw.toAny)
          | .int width => .int (wrapInt width (env.ToInt .w64 raw.toAny))
          | .uint width => .uint (wrapUint width (env.ToUint .w64 raw.toAny))
          | .float32 => .float (env.Float32 (env.ToFloat64 raw.toAny))
          | .float64 => .float (env.ToFloat64 raw.toAny)
          | .bool => .bool (env.ToBool raw.toAny)
          | _ => afterStrict env (repairedText env data) t v0) := by
  rw [Unmarshal, unmarshal_slow env fuel _ _ _ _ hfast hraw]
  cases t <;> simp [GoType.isPrimitive] at hprim <;> simp [unmarshalSwitch]

/-- Witness of `primitive_target_outcome`, the failing input of C6: the text `"true"`
decoded into a bool stores `true` and returns an error. -/
theorem primitive_target_outcome_witness :
    Unmarshal goEnv 1 "\"true\"" (ptrAt .bool (.bool false))
        = (.error "unsupported schema type: bool", ptrAt .bool (.bool true))
      ∧ (Unmarshal goEnv 1 "\"true\"" (ptrAt .bool (.bool false))).1
        = .error ("unsupported schema type: " ++ GoType.bool.kindName)
      ∧ (Unmarshal goEnv 1 "\"true\"" (ptrAt .bool (.bool false))).2
        = ptrAt .bool (.bool (goEnv.ToBool (Raw.toAny (.str "true")))) :=
  ⟨rfl, primitive_target_outcome goEnv 0 "\"true\"" .bool (.bool false) (.str "true") rfl rfl rfl⟩

/-! ## Record targets and a generic value that is not a mapping -/

/-- C10 (what the code does): for a record target, when the fast path fails and the text
parses to a generic value that is neither a mapping nor a detected string, the unchecked
type assertion of line 123 panics; no error is returned. -/
theorem record_shape_mismatch_panics (env : Env) (fuel : Nat) (data : String)
    (fields : List (Field GoType)) (v0 : Value) (raw : Raw)
    (hfast : strictFails env (repairedText env data) (.struct fields) v0 = true)
    (hraw : env.UnmarshalRaw (repairedText env data) = .ok raw)
    (hmap : ∀ kvs, raw ≠ .obj kvs)
    (hstr : embedded env raw = none) :
    Unmarshal env (fuel + 1) data (ptrAt (.struct fields) v0) =
      (.panic ("interface conversion: interface {} is " ++ raw.typeName
          ++ ", not map[string]interface {}"),
        ptrAt (.struct fields) (afterStrict env (repairedText env data) (.struct fields) v0)) := by
  rw [Unmarshal, unmarshal_slow env fuel _ _ _ _ hfast hraw]
  cases raw with
  | obj kvs => exact absurd rfl (hmap kvs)
  | _ => simp only [unmarshalSwitch, hstr]

/-- Witness of `record_shape_mismatch_panics`, the failing input of C10: the text `5`
decoded into a record. -/
theorem record_shape_mismatch_panics_witness :
    goEnv.UnmarshalRaw (repairedText goEnv "5") = .ok (.num ⟨5, 0⟩)
      ∧ Unmarshal goEnv 1 "5" (ptrAt (.struct [⟨"A", "a", true, .int .native⟩]) (.struct [.int 0]))
        = (.panic "interface conversion: interface {} is float64, not map[string]interface {}",
            ptrAt (.struct [⟨"A", "a", true, .int .native⟩])
              (afterStrict goEnv (repairedText goEnv "5")
                (.struct [⟨"A", "a", true, .int .native⟩]) (.struct [.int 0]))) :=
  ⟨rfl,
    record_shape_mismatch_panics goEnv 0 "5" [⟨"A", "a", true, .int .native⟩] (.struct [.int 0])
      (.num ⟨5, 0⟩) rfl rfl (by intro kvs h; cases h) rfl⟩

/-! ## Unknown keys and missing keys -/

theorem structStep_unresolved (env : Env) (pv : Any → GoType → Result × Any)
    (fields : List (Field GoType)) (key : String) (value : Raw) (fs : List Value)
    (h : findFieldByJSONTag fields key = none) :
    structStep env pv fields key value fs = (.ok, fs) := by
  simp [structStep, h]

theorem structLoop_filter (env : Env) (pv : Any → GoType → Result × Any)
    (fields : List (Field GoType)) (kvs : List (String × Raw)) (fs : List Value) :
    structLoop env pv fields
        (kvs.filter (fun kv => (findFieldByJSONTag fields kv.1).isSome)) fs
      = structLoop env pv fields kvs fs := by
  induction kvs generalizing fs with
  | nil => rfl
  | cons kv rest ih =>
    obtain ⟨key, value⟩ := kv
    cases hres : findFieldByJSONTag fields key with
    | none =>
      rw [List.filter_cons_of_neg (by simp [hres]), structLoop_cons,
        structStep_unresolved env pv fields key value fs hres]
      simpa using ih fs
    | some r =>
      rw [List.filter_cons_of_pos (by simp [hres]), structLoop_cons, structLoop_cons]
      split
      · exact ih _
      · rfl

theorem unmarshalSwitch_struct_filter (env : Env) (dec : String → Any → Result × Any)
    (pv : Any → GoType → Result × Any) (data data1 : String) (fields : List (Field GoType))
    (kvs : List (String × Raw)) (v2 : Value) :
    unmarshalSwitch env dec pv data (.struct fields) (.obj kvs) v2 =
      unmarshalSwitch env dec pv data1 (.struct fields)
        (.obj (kvs.filter (fun kv => (findFieldByJSONTag fields kv.1).isSome))) v2 := by
  simp only [unmarshalSwitch, embedded, structLoop_filter]

/-- C7 (amended): unknown-key tolerance of the record reconciliation. For every record
target and every generic mapping, a key that `findFieldByJSONTag` does not resolve raises
no error and modifies no field, and the reconciliation of the mapping has the outcome (the
same result, the same value of every field) of the reconciliation of the mapping without
those keys. So when the fast path has failed on a text that parses to the mapping, the
outcome of `Unmarshal` is that of reconciling the mapping without its unresolved keys with
the storage the strict decoder left. -/
theorem unknown_key_tolerance (env : Env) (dec : String → Any → Result × Any)
    (pv : Any → GoType → Result × Any) (data data1 : String) (fields : List (Field GoType))
    (kvs : List (String × Raw)) (fs : List Value) :
    (∀ key value fs1, findFieldByJSONTag fields key = none →
        structStep env pv fields key value fs1 = (.ok, fs1))
      ∧ unmarshalSwitch env dec pv data (.struct fields) (.obj kvs) (.struct fs)
        = unmarshalSwitch env dec pv data1 (.struct fields)
            (.obj (kvs.filter (fun kv => (findFieldByJSONTag fields kv.1).isSome))) (.struct fs)
      ∧ ∀ fuel v0, strictFails env (repairedText env data) (.struct fields) v0 = true →
          env.UnmarshalRaw (repairedText env data) = .ok (.obj kvs) →
          Unmarshal env (fuel + 1) data (ptrAt (.struct fields) v0)
            = unmarshalSwitch env (unmarshal env fuel) (processValue env fuel) data1
                (.struct fields)
                (.obj (kvs.filter (fun kv => (findFieldByJSONTag fields kv.1).isSome)))
                (afterStrict env (repairedText env data) (.struct fields) v0) := by
  refine ⟨fun key value fs1 h => structStep_unresolved env pv fields key value fs1 h,
    unmarshalSwitch_struct_filter env dec pv data data1 fields kvs _, ?_⟩
  intro fuel v0 hfast hraw
  rw [Unmarshal, unmarshal_slow env fuel _ _ _ _ hfast hraw]
  exact unmarshalSwitch_struct_filter env _ _ _ data1 fields kvs _

/-- Witness of `unknown_key_tolerance`: the keys `extra` and `NAME` resolve to no field of
`{name: string, count: int}`; the reconciliation skips them, and with or without them it
gives `x` and `7`. -/
theorem unknown_key_tolerance_witness :
    Unmarshal goEnv 2 exExtraText (newPtr exRecord)
        = (.ok, ptrAt exRecord (.struct [.str "x", .int 7]))
      ∧ goEnv.UnmarshalRaw (repairedText goEnv exExtraText)
        = .ok (.obj [("extra", .arr [.num ⟨1, 0⟩]), ("name", .str "x"), ("NAME", .str "y"),
            ("count", .str "7")])
      ∧ structStep goEnv (processValue goEnv 1)
          [⟨"Name", "name", true, .string⟩, ⟨"Count", "count", true, .int .native⟩] "NAME"
          (.str "y") [.str "x", .int 0] = (.ok, [.str "x", .int 0])
      ∧ unmarshalSwitch goEnv (unmarshal goEnv 1) (processValue goEnv 1) exExtraText
          (.struct [⟨"Name", "name", true, .string⟩, ⟨"Count", "count", true, .int .native⟩])
          (.obj [("extra", .arr [.num ⟨1, 0⟩]), ("name", .str "x"), ("NAME", .str "y"),
            ("count", .str "7")]) (.struct [.str "", .int 0])
        = unmarshalSwitch goEnv (unmarshal goEnv 1) (processValue goEnv 1) exRecordText
            (.struct [⟨"Name", "name", true, .string⟩, ⟨"Count", "count", true, .int .native⟩])
            (.obj [("name", .str "x"), ("count", .str "7")]) (.struct [.str "", .int 0])
      ∧ Unmarshal goEnv 2 exExtraText (ptrAt exRecord (.struct [.str "", .int 0]))
        = unmarshalSwitch goEnv (unmarshal goEnv 1) (processValue goEnv 1) exRecordText
            (.struct [⟨"Name", "name", true, .string⟩, ⟨"Count", "count", true, .int .native⟩])
            (.obj [("name", .str "x"), ("count", .str "7")])
            (afterStrict goEnv (repairedText goEnv exExtraText) exRecord
              (.struct [.str "", .int 0])) :=
  ⟨rfl, rfl,
    (unknown_key_tolerance goEnv (unmarshal goEnv 1) (processValue goEnv 1) exExtraText
      exRecordText [⟨"Name", "name", true, .string⟩, ⟨"Count", "count", true, .int .native⟩]
      [("extra", .arr [.num ⟨1, 0⟩]), ("name", .str "x"), ("NAME", .str "y"), ("count", .str "7")]
      [.str "", .int 0]).1 "NAME" (.str "y") [.str "x", .int 0] rfl,
    (unknown_key_tolerance goEnv (unmarshal goEnv 1) (processValue goEnv 1) exExtraText
      exRecordText [⟨"Name", "name", true, .string⟩, ⟨"Count", "count", true, .int .native⟩]
      [("extra", .arr [.num ⟨1, 0⟩]), ("name", .str "x"), ("NAME", .str "y"), ("count", .str "7")]
      [.str "", .int 0]).2.1,
    (unknown_key_tolerance goEnv (unmarshal goEnv 1) (processValue goEnv 1) exExtraText
      exRecordText [⟨"Name", "name", true, .string⟩, ⟨"Count", "count", true, .int .native⟩]
      [("extra", .arr [.num ⟨1, 0⟩]), ("name", .str "x"), ("NAME", .str "y"), ("count", .str "7")]
      [.str "", .int 0]).2.2 1 (.struct [.str "", .int 0]) rfl rfl⟩

/-- Counterexample to C7 as stated: the key `NAME` resolves to no field of
`{name: string, count: int}`, yet it modifies the field `name`, and the outcome is not the
one for the mapping without it. The strict decoder, which runs before the reconciliation,
matches keys without regard to case and writes as it reads: with a well-typed count the
fast path succeeds with `name = y`, and with the count given as a string the value `y` is
written before the strict decode fails and the reconciliation leaves it there. -/
theorem unknown_key_counterexample :
    findFieldByJSONTag
        [⟨"Name", "name", true, .string⟩, ⟨"Count", "count", true, .int .native⟩] "NAME" = none
      ∧ Unmarshal goEnv 2 "\x7b\"NAME\":\"y\",\"count\":7\x7d" (newPtr exRecord)
        = (.ok, ptrAt exRecord (.struct [.str "y", .int 7]))
      ∧ Unmarshal goEnv 2 "\x7b\"count\":7\x7d" (newPtr exRecord)
        = (.ok, ptrAt exRecord (.struct [.str "", .int 7]))
      ∧ strictFails goEnv (repairedText goEnv "\x7b\"NAME\":\"y\",\"count\":\"7\"\x7d") exRecord
          (zero exRecord) = true
      ∧ Unmarshal goEnv 2 "\x7b\"NAME\":\"y\",\"count\":\"7\"\x7d" (newPtr exRecord)
        = (.ok, ptrAt exRecord (.struct [.str "y", .int 7]))
      ∧ Unmarshal goEnv 2 "\x7b\"count\":\"7\"\x7d" (newPtr exRecord)
        = (.ok, ptrAt exRecord (.struct [.str "", .int 7]))
      ∧ Value.struct [.str "y", .int 7] ≠ Value.struct [.str "", .int 7] :=
  ⟨rfl, rfl, rfl, rfl, rfl, rfl, by simp⟩

theorem structStep_not_ok (env : Env) (pv : Any → GoType → Result × Any)
    (fields : List (Field GoType)) (key : String) (value : Raw) (fs : List Value)
    (h : (structStep env pv fields key value fs).1 ≠ .ok) :
    ∃ j field, findFieldByJSONTag fields key = some (j, field) ∧ field.exported = true ∧
      ((pv value.toAny field.type).1 = (structStep env pv fields key value fs).1 ∨
        ((pv value.toAny field.type).1 = .ok ∧
          convert env (pv value.toAny field.type).2 field.type = none)) := by
  cases hres : findFieldByJSONTag fields key with
  | none => exact absurd (by simp [structStep, hres]) h
  | some r =>
    obtain ⟨j, field⟩ := r
    refine ⟨j, field, rfl, ?_⟩
    by_cases hexp : field.exported = true
    · refine ⟨hexp, ?_⟩
      cases hpv : pv value.toAny field.type with
      | mk r x =>
        by_cases hr : r = .ok
        · subst hr
          right
          refine ⟨rfl, ?_⟩
          cases hc : convert env x field.type with
          | none => rfl
          | some y => exact absurd (by simp [structStep, hres, hexp, hpv, hc]) h
        · left
          cases r <;> first | exact absurd rfl hr | simp [structStep, hres, hexp, hpv]
    · exact absurd (by simp [structStep, hres, hexp]) h

theorem structLoop_not_ok (env : Env) (pv : Any → GoType → Result × Any)
    (fields : List (Field GoType)) (kvs : List (String × Raw)) (fs : List Value)
    (h : (structLoop env pv fields kvs fs).1 ≠ .ok) :
    ∃ key value fs1, (key, value) ∈ kvs ∧
      (structStep env pv fields key value fs1).1 = (structLoop env pv fields kvs fs).1 := by
  induction kvs generalizing fs with
  | nil => exact absurd rfl h
  | cons kv rest ih =>
    obtain ⟨key, value⟩ := kv
    rw [structLoop_cons] at h ⊢
    split
    · rename_i hstep
      simp only [hstep, if_true] at h
      obtain ⟨k, v, fs1, hmem, hr⟩ := ih _ h
      exact ⟨k, v, fs1, List.mem_cons_of_mem _ hmem, hr⟩
    · exact ⟨key, value, fs, List.mem_cons_self _ _, rfl⟩

/-- C8: missing-key default. For every record target and every generic mapping in which no
key resolves to the field of index `i`, the reconciliation leaves the storage of that
field unchanged, whatever happens to the other fields; and when the reconciliation does
not return nil, the failure is that of coercing the value of a key that resolves to
another, settable field (its `processValue` fails, or its `Convert` panics): the missing
field causes no error. -/
theorem missing_key_default (env : Env) (dec : String → Any → Result × Any)
    (pv : Any → GoType → Result × Any) (data : String) (fields : List (Field GoType))
    (kvs : List (String × Raw)) (fs : List Value) (i : Nat)
    (hmiss : ∀ kv ∈ kvs, ∀ f, findFieldByJSONTag fields kv.1 ≠ some (i, f)) :
    (∃ fs1, (unmarshalSwitch env dec pv data (.struct fields) (.obj kvs) (.struct fs)).2
        = ptrAt (.struct fields) (.struct fs1) ∧ fs1[i]? = fs[i]?)
      ∧ ((unmarshalSwitch env dec pv data (.struct fields) (.obj kvs) (.struct fs)).1 = .ok ∨
        ∃ key value j field, (key, value) ∈ kvs ∧ j ≠ i ∧
          findFieldByJSONTag fields key = some (j, field) ∧ field.exported = true ∧
          ((pv value.toAny field.type).1 =
              (unmarshalSwitch env dec pv data (.struct fields) (.obj kvs) (.struct fs)).1 ∨
            ((pv value.toAny field.type).1 = .ok ∧
              convert env (pv value.toAny field.type).2 field.type = none))) := by
  rw [unmarshalSwitch_struct_obj]
  refine ⟨⟨_, rfl, structLoop_frame env pv fields i kvs fs hmiss⟩, ?_⟩
  by_cases hok : (structLoop env pv fields kvs fs).1 = .ok
  · left; exact hok
  · right
    obtain ⟨key, value, fs1, hmem, hr⟩ := structLoop_not_ok env pv fields kvs fs hok
    have hstep : (structStep env pv fields key value fs1).1 ≠ .ok := by rw [hr]; exact hok
    obtain ⟨j, field, hres, hexp, hcause⟩ := structStep_not_ok env pv fields key value fs1 hstep
    refine ⟨key, value, j, field, hmem, ?_, hres, hexp, ?_⟩
    · intro hji
      exact hmiss (key, value) hmem field (by rw [hres, hji])
    · rw [hr] at hcause
      exact hcause

/-- Witness of `missing_key_default`: the text `{"name":5}` decoded into the record
`{name: string, count: int}` leaves `count` at its zero value and returns nil. -/
theorem missing_key_default_witness :
    Unmarshal goEnv 2 "\x7b\"name\":5\x7d" (newPtr exRecord)
        = (.ok, ptrAt exRecord (.struct [.str "5", .int 0]))
      ∧ (∃ fs1, (unmarshalSwitch goEnv (unmarshal goEnv 1) (processValue goEnv 1)
            "\x7b\"name\":5\x7d"
            (.struct [⟨"Name", "name", true, .string⟩, ⟨"Count", "count", true, .int .native⟩])
            (.obj [("name", .num ⟨5, 0⟩)]) (.struct [.str "", .int 0])).2
          = ptrAt (.struct [⟨"Name", "name", true, .string⟩,
              ⟨"Count", "count", true, .int .native⟩]) (.struct fs1)
        ∧ fs1[1]? = [Value.str "", Value.int 0][1]?) :=
  ⟨rfl,
    (missing_key_default goEnv (unmarshal goEnv 1) (processValue goEnv 1) "\x7b\"name\":5\x7d"
      [⟨"Name", "name", true, .string⟩, ⟨"Count", "count", true, .int .native⟩]
      [("name", .num ⟨5, 0⟩)] [.str "", .int 0] 1
      (by
        intro kv hkv f hf
        simp only [List.mem_singleton] at hkv
        subst hkv
        have h0 : findFieldByJSONTag
            [⟨"Name", "name", true, .string⟩, ⟨"Count", "count", true, .int .native⟩] "name"
            = some (0, ⟨"Name", "name", true, .string⟩) := rfl
        rw [h0] at hf
        cases hf)).1⟩

/-! ## Embedded JSON -/

theorem embedded_str (env : Env) (s : String) (h : isJSONString env s = true) :
    embedded env (.str s) = some s := by
  simp [embedded, h]

/-- C3: one level of unwrap at the top of a structural target. For a slice, map or struct
target and a string `s` that the detector accepts, decoding the text `lit` that is the JSON
string literal of `s` (the strict decoder refuses it and leaves the target as it was, the
repairer leaves both texts as they are) gives the outcome of decoding `s` itself: the same
error or the same stored value. The left side has one more unit of fuel, for the extra
call of `unmarshal`. -/
theorem unwrap_one_level (env : Env) (fuel : Nat) (t : GoType) (s lit : String) (v0 : Value)
    (hshape : (∃ e, t = .slice e) ∨ (∃ e, t = .map e) ∨ (∃ fields, t = .struct fields))
    (hdet : isJSONString env s = true)
    (hlit : env.UnmarshalRaw lit = .ok (.str s))
    (hfast : strictFails env lit t v0 = true)
    (hkeep : afterStrict env lit t v0 = v0)
    (hrl : repairedText env lit = lit)
    (hrs : repairedText env s = s) :
    Unmarshal env (fuel + 1) lit (ptrAt t v0) = Unmarshal env fuel s (ptrAt t v0) := by
  rw [Unmarshal, Unmarshal, hrl, hrs, unmarshal_slow env fuel lit t v0 (.str s) hfast hlit, hkeep]
  rcases hshape with ⟨e, rfl⟩ | ⟨e, rfl⟩ | ⟨fields, rfl⟩ <;>
    simp only [unmarshalSwitch, embedded_str env s hdet]

/-- Witness of `unwrap_one_level` on scenario 8 of the specification: the literal string
`"{\"k\":\"v\"}"` decoded into a map of string to string yields the entry `k -> v`, for a
nil map and for an empty map (as `TestUnmarshal` makes it); the strict decoder leaves the
empty map as it was. -/
theorem unwrap_one_level_witness :
    Unmarshal goEnv 2 exMapLiteral (ptrAt (.map .string) .nilMap)
        = (.ok, ptrAt (.map .string) (.map [("k", .str "v")]))
      ∧ Unmarshal goEnv 2 exMapLiteral (ptrAt (.map .string) (.map []))
        = (.ok, ptrAt (.map .string) (.map [("k", .str "v")]))
      ∧ goEnv.UnmarshalRaw exMapLiteral = .ok (.str exMapContent)
      ∧ Unmarshal goEnv 2 exMapLiteral (ptrAt (.map .string) (.map []))
        = Unmarshal goEnv 1 exMapContent (ptrAt (.map .string) (.map [])) :=
  ⟨rfl, rfl, rfl,
    unwrap_one_level goEnv 1 (.map .string) exMapContent exMapLiteral (.map [])
      (Or.inr (Or.inl ⟨_, rfl⟩)) rfl rfl rfl rfl rfl rfl⟩

theorem isJSONString_head (env : Env) (s : String)
    (h : s.data.head? ≠ some '\x7b' ∧ s.data.head? ≠ some '[') :
    isJSONString env s = false := by
  simp [isJSONString, h]

mutual
theorem GoType.beq_refl : ∀ t : GoType, GoType.beq t t = true
  | .slice a => by rw [GoType.beq]; exact GoType.beq_refl a
  | .map a => by rw [GoType.beq]; exact GoType.beq_refl a
  | .struct fs => by rw [GoType.beq]; exact beqFields_refl fs
  | .ptr a => by rw [GoType.beq]; exact GoType.beq_refl a
  | .iface => by simp [GoType.beq]
  | .string => by simp [GoType.beq]
  | .int a => by simp [GoType.beq]
  | .uint a => by simp [GoType.beq]
  | .float32 => by simp [GoType.beq]
  | .float64 => by simp [GoType.beq]
  | .bool => by simp [GoType.beq]
  | .other a => by simp [GoType.beq]
theorem beqFields_refl : ∀ fs : List (Field GoType), beqFields fs fs = true
  | [] => by simp [beqFields]
  | f :: fs => by
    rw [beqFields]
    simp [GoType.beq_refl f.type, beqFields_refl fs]
end

theorem convert_same (env : Env) (t : GoType) (v : Value) (ht : t ≠ .iface) :
    convert env (some (t, v)) t = some v := by
  cases t <;> first | exact absurd rfl ht | simp [convert, GoType.beq_refl]

/-- The step of the record loop for a key that resolves to a field of record type, given
the text `chooseText` picks for the value: when the field is exported the text is decoded
into a fresh record, the post-pass runs, and the field is set; when it is not, the key is
skipped. -/
theorem structStep_record (env : Env) (fuel : Nat) (fields nested : List (Field GoType))
    (key : String) (i : Nat) (field : Field GoType) (value : Raw) (text : String)
    (fs : List Value)
    (hres : findFieldByJSONTag fields key = some (i, field))
    (hnested : field.type = .struct nested)
    (htext : chooseText env value.toAny = .ok text) :
    structStep env (processValue env (fuel + 1)) fields key value fs =
      if field.exported = true then
        match unmarshal env fuel text (newPtr (.struct nested)) with
        | (.ok, newValue) =>
          match processSchema env fuel newValue with
          | (.ok, newValue1) => (.ok, fs.set i newValue1.elem)
          | (r, _) => (r, fs)
        | (r, _) => (r, fs)
      else (.ok, fs) := by
  by_cases hexp : field.exported = true
  · simp only [structStep, hres, hexp, if_true, processValue, hnested, GoType.isStructural,
      htext]
    cases hu : unmarshal env fuel text (newPtr (.struct nested)) with
    | mk r nv =>
      cases r with
      | ok =>
        simp only
        cases hp : processSchema env fuel nv with
        | mk r1 nv1 =>
          cases r1 with
          | ok =>
            simp only [Value.Interface]
            rw [convert_same env _ _ (by intro h; cases h)]
          | _ => rfl
      | _ => rfl
  · simp [structStep, hres, hexp]

/-- C5 (amended): exactly one level of string encoding is unwrapped. For a record field
declared as a nested record and a value that is a string `s` the detector accepts, the
field is decoded from the content `s` itself, as a document of its own: `unmarshal` of `s`
into a fresh nested record, the post-pass, then the assignment (nothing at all when the
field is not settable); so it gets what the object `x` gives whenever the content and the
re-serialization of `x` decode alike. There is no second unwrap: a string `s2` whose
content starts with a quote, as the content of any text wrapped in two or more levels
does, is refused by the detector, the text decoded for it is its re-serialization `lit`, a
JSON string literal, and (the strict decoder refusing a string literal for a record, and
`lit` parsing back to `s2`) the decode of the field panics on the type assertion of
line 123: it does not succeed. -/
theorem embedded_unwrap_once (env : Env) (fuel : Nat) (fields nested : List (Field GoType))
    (key : String) (i : Nat) (field : Field GoType) (fs : List Value)
    (hres : findFieldByJSONTag fields key = some (i, field))
    (hnested : field.type = .struct nested) :
    (∀ s : String, isJSONString env s = true →
        structStep env (processValue env (fuel + 1)) fields key (.str s) fs =
          (if field.exported = true then
            match unmarshal env fuel s (newPtr (.struct nested)) with
            | (.ok, newValue) =>
              match processSchema env fuel newValue with
              | (.ok, newValue1) => (.ok, fs.set i newValue1.elem)
              | (r, _) => (r, fs)
            | (r, _) => (r, fs)
          else (.ok, fs))
        ∧ ∀ (x : Raw) (m : String), (∀ s1, x ≠ .str s1) → env.Marshal x.toAny = .ok m →
            unmarshal env fuel s (newPtr (.struct nested))
              = unmarshal env fuel m (newPtr (.struct nested)) →
            structStep env (processValue env (fuel + 1)) fields key (.str s) fs
              = structStep env (processValue env (fuel + 1)) fields key x fs)
      ∧ ∀ s2 lit : String, s2.data.head? = some '"' →
          env.Marshal (Raw.str s2).toAny = .ok lit →
          env.UnmarshalRaw lit = .ok (.str s2) →
          strictFails env lit (.struct nested) (zero (.struct nested)) = true →
          isJSONString env s2 = false
            ∧ chooseText env (Raw.str s2).toAny = .ok lit
            ∧ structStep env (processValue env (fuel + 2)) fields key (.str s2) fs
              = if field.exported = true then
                  (.panic
                    "interface conversion: interface {} is string, not map[string]interface {}",
                    fs)
                else (.ok, fs) := by
  constructor
  · intro s hd
    have h1 : (Raw.str s).toAny.asString = some s := (asString_toAny _ _).2 rfl
    have hc : chooseText env (Raw.str s).toAny = .ok s := by
      simp only [chooseText, h1, hd, if_true]
    refine ⟨structStep_record env fuel fields nested key i field _ s fs hres hnested hc, ?_⟩
    intro x m hx hm hsame
    have hcx : chooseText env x.toAny = .ok m := by
      simp only [chooseText, asString_toAny_none x hx, hm]
    rw [structStep_record env fuel fields nested key i field _ s fs hres hnested hc,
      structStep_record env fuel fields nested key i field _ m fs hres hnested hcx, hsame]
  · intro s2 lit h2 hm hraw hfail
    have hj : isJSONString env s2 = false :=
      isJSONString_head env s2 (by rw [h2]; constructor <;> decide)
    have h1 : (Raw.str s2).toAny.asString = some s2 := (asString_toAny _ _).2 rfl
    have hc : chooseText env (Raw.str s2).toAny = .ok lit := by
      simp [chooseText, h1, hj, hm]
    refine ⟨hj, hc, ?_⟩
    rw [structStep_record env (fuel + 1) fields nested key i field _ lit fs hres hnested hc]
    have hrun : unmarshal env (fuel + 1) lit (newPtr (.struct nested))
        = (.panic "interface conversion: interface {} is string, not map[string]interface {}",
            ptrAt (.struct nested) (afterStrict env lit (.struct nested) (zero (.struct nested)))) := by
      have := unmarshal_slow env fuel lit (.struct nested) (zero (.struct nested)) (.str s2)
        hfail hraw
      rw [newPtr, ← ptrAt, this]
      simp [unmarshalSwitch, embedded, hj, Raw.typeName]
    rw [hrun]

/-- Witness of `embedded_unwrap_once`, on the nested record of `TestUnmarshal`: given as
the string `{"a": "123"}` it is decoded from that content and gets `a = 123`, as the
object does, whose re-serialization `{"a":"123"}` is another text; given as the string of
a string it panics. -/
theorem embedded_unwrap_once_witness :
    Unmarshal goEnv 6 exWrap1 (newPtr exOuter) = (.ok, ptrAt exOuter (.struct [.struct [.int 1]]))
      ∧ Unmarshal goEnv 6 exWrap0 (newPtr exOuter)
        = (.ok, ptrAt exOuter (.struct [.struct [.int 1]]))
      ∧ goEnv.Marshal (Raw.obj [("a", .str "123")]).toAny = .ok "\x7b\"a\":\"123\"\x7d"
      ∧ structStep goEnv (processValue goEnv 5) [⟨"Nested", "nested", true, exNested⟩] "nested"
          (.str "\x7b\"a\": \"123\"\x7d") [.struct [.int 0]] = (.ok, [.struct [.int 123]])
      ∧ structStep goEnv (processValue goEnv 5) [⟨"Nested", "nested", true, exNested⟩] "nested"
          (.str "\x7b\"a\": \"123\"\x7d") [.struct [.int 0]]
        = structStep goEnv (processValue goEnv 5) [⟨"Nested", "nested", true, exNested⟩]
            "nested" (.obj [("a", .str "123")]) [.struct [.int 0]]
      ∧ (isJSONString goEnv "\"\x7b\\\"a\\\":1\x7d\"" = false
        ∧ chooseText goEnv (Raw.str "\"\x7b\\\"a\\\":1\x7d\"").toAny
          = .ok "\"\\\"\x7b\\\\\\\"a\\\\\\\":1\x7d\\\"\""
        ∧ structStep goEnv (processValue goEnv 6) [⟨"Nested", "nested", true, exNested⟩]
            "nested" (.str "\"\x7b\\\"a\\\":1\x7d\"") [.struct [.int 0]]
          = (.panic "interface conversion: interface {} is string, not map[string]interface {}",
              [.struct [.int 0]])) :=
  ⟨rfl, rfl, rfl, rfl,
    ((embedded_unwrap_once goEnv 4 [⟨"Nested", "nested", true, exNested⟩]
      [⟨"A", "a", true, .int .native⟩] "nested" 0 ⟨"Nested", "nested", true, exNested⟩
      [.struct [.int 0]] rfl rfl).1 "\x7b\"a\": \"123\"\x7d" rfl).2
      (.obj [("a", .str "123")]) "\x7b\"a\":\"123\"\x7d" (fun s1 h => by cases h) rfl rfl,
    (embedded_unwrap_once goEnv 4 [⟨"Nested", "nested", true, exNested⟩]
      [⟨"A", "a", true, .int .native⟩] "nested" 0 ⟨"Nested", "nested", true, exNested⟩
      [.struct [.int 0]] rfl rfl).2 "\"\x7b\\\"a\\\":1\x7d\""
      "\"\\\"\x7b\\\\\\\"a\\\\\\\":1\x7d\\\"\"" rfl rfl rfl rfl⟩

/-- Counterexample to C5 as stated: with two levels of string encoding (`exWrap2`, whose
field value is a string whose content is the JSON string literal of `{"a":1}`) the decode
does not succeed, while one level and no level both give `a = 1`. -/
theorem embedded_unwrap_counterexample :
    goEnv.UnmarshalRaw exWrap2 = .ok (.obj [("nested", .str "\"\x7b\\\"a\\\":1\x7d\"")])
      ∧ goEnv.UnmarshalRaw "\"\x7b\\\"a\\\":1\x7d\"" = .ok (.str "\x7b\"a\":1\x7d")
      ∧ goEnv.UnmarshalRaw "\x7b\"a\":1\x7d" = .ok (.obj [("a", .num ⟨1, 0⟩)])
      ∧ Unmarshal goEnv 6 exWrap1 (newPtr exOuter)
        = (.ok, ptrAt exOuter (.struct [.struct [.int 1]]))
      ∧ (Unmarshal goEnv 6 exWrap2 (newPtr exOuter)).1
        = .panic "interface conversion: interface {} is string, not map[string]interface {}"
      ∧ (Unmarshal goEnv 6 exWrap2 (newPtr exOuter)).1 ≠ .ok :=
  ⟨rfl, rfl, rfl, rfl, rfl, by decide⟩

/-! ## What a failed decode leaves in the target -/

theorem unmarshal_succ (env : Env) (fuel : Nat) (data : String) (t : GoType) (v0 : Value) :
    unmarshal env (fuel + 1) data (ptrAt t v0) =
      if (env.Unmarshal data t v0).1 = none then (.ok, ptrAt t (env.Unmarshal data t v0).2)
      else if (env.Unmarshal data t (env.Unmarshal data t v0).2).1 = none then
        (.ok, ptrAt t (afterStrict env data t v0))
      else
        match env.UnmarshalRaw data with
        | .error e => (.error ("error unmarshalling JSON: " ++ e), ptrAt t (afterStrict env data t v0))
        | .ok raw =>
          unmarshalSwitch env (unmarshal env fuel) (processValue env fuel) data t raw
            (afterStrict env data t v0) := by
  by_cases h1 : (env.Unmarshal data t v0).1 = none
  · simp only [h1, if_true]
    exact unmarshal_fast env fuel data t v0 h1
  · by_cases h2 : (env.Unmarshal data t (env.Unmarshal data t v0).2).1 = none
    · simp only [h1, h2, if_true, if_false]
      obtain ⟨e1, he1⟩ := Option.ne_none_iff_exists'.1 h1
      have h2' : env.Unmarshal data t (env.Unmarshal data t v0).2
          = (none, afterStrict env data t v0) := by
        rw [← h2]; rfl
      rw [ptrAt, unmarshal]
      simp only [jsonUnmarshal, he1]
      rw [h2']
    · simp only [h1, h2, if_false]
      have hs : strictFails env data t v0 = true := by
        simp only [strictFails, Bool.and_eq_true, Option.isSome_iff_ne_none]
        exact ⟨h1, h2⟩
      cases hraw : env.UnmarshalRaw data with
      | ok raw => exact unmarshal_slow env fuel data t v0 raw hs hraw
      | error e =>
        obtain ⟨e1, he1⟩ := Option.ne_none_iff_exists'.1 h1
        obtain ⟨e2, he2⟩ := Option.ne_none_iff_exists'.1 h2
        have h2' : env.Unmarshal data t (env.Unmarshal data t v0).2
            = (some e2, afterStrict env data t v0) := by
          rw [← he2]; rfl
        rw [ptrAt, unmarshal]
        simp only [jsonUnmarshal, he1]
        rw [h2']
        simp only [hraw]

theorem unmarshalSwitch_map_obj (env : Env) (dec : String → Any → Result × Any)
    (pv : Any → GoType → Result × Any) (data : String) (elemT : GoType)
    (kvs : List (String × Raw)) (v2 : Value) :
    unmarshalSwitch env dec pv data (.map elemT) (.obj kvs) v2 =
      if (mapLoop env dec elemT kvs []).1 = .ok then
        (.ok, ptrAt (.map elemT) (.map (mapLoop env dec elemT kvs []).2))
      else ((mapLoop env dec elemT kvs []).1, ptrAt (.map elemT) v2) := by
  simp only [unmarshalSwitch, embedded]
  split
  · rename_i h; simp [h]
  · rename_i r x hne h
    have : r ≠ .ok := fun hr => hne hr
    simp [h, this]

/-- A failing `unmarshal` on a slice or map target leaves what its strict attempts left. -/
theorem unmarshal_strictLeft (env : Env) (t : GoType)
    (ht : (∃ e, t = .slice e) ∨ (∃ e, t = .map e))
    (fuel : Nat) (data : String) (v0 : Value)
    (h : (unmarshal env fuel data (ptrAt t v0)).1 ≠ .ok) :
    (unmarshal env fuel data (ptrAt t v0)).2 = ptrAt t (strictLeft env t fuel data v0) := by
  induction fuel generalizing data v0 with
  | zero => rfl
  | succ n ih =>
    rw [unmarshal_succ] at h ⊢
    by_cases h1 : (env.Unmarshal data t v0).1 = none
    · simp [h1] at h
    · by_cases h2 : (env.Unmarshal data t (env.Unmarshal data t v0).2).1 = none
      · simp [h1, h2] at h
      · simp only [h1, h2, if_false] at h ⊢
        rw [strictLeft]
        cases hraw : env.UnmarshalRaw data with
        | error e => rfl
        | ok raw =>
          rw [hraw] at h
          simp only at h ⊢
          cases hemb : embedded env raw with
          | some js =>
            have hsw : unmarshalSwitch env (unmarshal env n) (processValue env n) data t raw
                (afterStrict env data t v0)
                = unmarshal env n js (ptrAt t (afterStrict env data t v0)) := by
              rcases ht with ⟨e, rfl⟩ | ⟨e, rfl⟩ <;> simp only [unmarshalSwitch, hemb]
            rw [hsw] at h ⊢
            exact ih js _ h
          | none =>
            simp only
            rcases ht with ⟨e, rfl⟩ | ⟨e, rfl⟩
            · cases raw with
              | arr items =>
                rw [unmarshalSwitch_slice_arr] at h ⊢
                split
                · rename_i hok
                  simp [hok] at h
                · rfl
              | _ => simp only [unmarshalSwitch, hemb]
            · cases raw with
              | obj kvs =>
                rw [unmarshalSwitch_map_obj] at h ⊢
                split
                · rename_i hok
                  simp [hok] at h
                · rfl
              | _ => simp only [unmarshalSwitch, hemb]

/-- A call of `unmarshal` on a pointer returns the pointer, set to some storage. -/
theorem unmarshal_shape (env : Env) (fuel : Nat) (data : String) (t : GoType) (v0 : Value) :
    ∃ v, (unmarshal env fuel data (ptrAt t v0)).2 = ptrAt t v := by
  induction fuel generalizing data t v0 with
  | zero => exact ⟨v0, rfl⟩
  | succ n ih =>
    rw [unmarshal_succ]
    by_cases h1 : (env.Unmarshal data t v0).1 = none
    · simp only [h1, if_true]
      exact ⟨_, rfl⟩
    · by_cases h2 : (env.Unmarshal data t (env.Unmarshal data t v0).2).1 = none
      · simp only [h1, h2, if_true, if_false]
        exact ⟨_, rfl⟩
      · simp only [h1, h2, if_false]
        cases hraw : env.UnmarshalRaw data with
        | error e => exact ⟨_, rfl⟩
        | ok raw =>
          simp only
          cases hemb : embedded env raw with
          | some js =>
            cases t <;> simp only [unmarshalSwitch, hemb] <;>
              first
                | exact ih js _ _
                | exact ⟨_, rfl⟩
                | (split <;> exact ⟨_, rfl⟩)
                | (cases raw <;> simp only <;> first | exact ⟨_, rfl⟩ | (split <;> exact ⟨_, rfl⟩))
          | none =>
            cases t <;> simp only [unmarshalSwitch, hemb] <;>
              first
                | exact ⟨_, rfl⟩
                | (split <;> exact ⟨_, rfl⟩)
                | (cases raw <;> simp only <;>
                    first
                      | exact ⟨_, rfl⟩
                      | (split <;> exact ⟨_, rfl⟩))

/-- The Ptr case of the switch leaves the pointer it was given allocated. -/
theorem unmarshalSwitch_ptr (env : Env) (n : Nat) (data : String) (e : GoType) (raw : Raw)
    (v2 : Value) :
    ∃ x, (unmarshalSwitch env (unmarshal env n) (processValue env n) data (.ptr e) raw v2).2
      = ptrAt (.ptr e) (.ptrTo x) := by
  have hcall : ∀ y, ∃ x,
      (match unmarshal env n data (some (.ptr e, .ptrTo y)) with
        | (r, some (_, p1)) => (r, ptrAt (.ptr e) p1)
        | (r, none) => (r, ptrAt (.ptr e) (.ptrTo y))).2 = ptrAt (.ptr e) (.ptrTo x) := by
    intro y
    obtain ⟨y1, hy1⟩ := unmarshal_shape env n data e y
    rw [ptrAt] at hy1
    split
    · rename_i r t1 p1 heq
      rw [heq] at hy1
      simp only [ptrAt, Option.some.injEq, Prod.mk.injEq] at hy1
      obtain ⟨_, rfl⟩ := hy1
      exact ⟨y1, rfl⟩
    · exact ⟨y, rfl⟩
  cases v2 <;> simp only [unmarshalSwitch] <;> exact hcall _

/-- C9 (amended): on failure the engine itself has assigned nothing to a collection. For a
target that is a sequence or a mapping, a call of `Unmarshal` that does not return nil
leaves in the target exactly what the failed attempts of the strict decoder left there
(`strictLeft`): the collection the engine builds is assigned only after all its items
decoded. For a target that is a string, a signed integer or of a kind the switch has no
case for, a call that goes down to the switch and does not return nil leaves what the two
strict attempts left. Nothing says that this is the value before the call: the strict
decoder writes as it reads. A record target whose reconciliation fails keeps the fields
set by the keys visited before the failing one, and a target that is a pointer is left
allocated. -/
theorem failed_decode_keeps_target (env : Env) (fuel : Nat) (data : String) (t : GoType)
    (v0 : Value)
    (hfail : (Unmarshal env fuel data (ptrAt t v0)).1 ≠ .ok) :
    (((∃ e, t = .slice e) ∨ (∃ e, t = .map e)) →
        (Unmarshal env fuel data (ptrAt t v0)).2
          = ptrAt t (strictLeft env t fuel (repairedText env data) v0))
      ∧ ((t = .string ∨ (∃ width, t = .int width) ∨ (∃ kind, t = .other kind)) → 0 < fuel →
        (Unmarshal env fuel data (ptrAt t v0)).2
          = ptrAt t (afterStrict env (repairedText env data) t v0))
      ∧ (∀ n fields kvs fs, fuel = n + 1 → t = .struct fields →
        env.UnmarshalRaw (repairedText env data) = .ok (.obj kvs) →
        afterStrict env (repairedText env data) t v0 = .struct fs →
        ∃ pre key value post, kvs = pre ++ (key, value) :: post ∧
          (structLoop env (processValue env n) fields pre fs).1 = .ok ∧
          (Unmarshal env fuel data (ptrAt t v0)).2
            = ptrAt t (.struct (structLoop env (processValue env n) fields pre fs).2))
      ∧ (∀ e raw, t = .ptr e → 0 < fuel →
        env.UnmarshalRaw (repairedText env data) = .ok raw →
        ∃ x, (Unmarshal env fuel data (ptrAt t v0)).2 = ptrAt t (.ptrTo x)) := by
  have hstrict : ∀ n, fuel = n + 1 →
      strictFails env (repairedText env data) t v0 = true := by
    intro n hn
    subst hn
    rw [Unmarshal, unmarshal_succ] at hfail
    by_cases h1 : (env.Unmarshal (repairedText env data) t v0).1 = none
    · simp [h1] at hfail
    · by_cases h2 : (env.Unmarshal (repairedText env data) t
          (env.Unmarshal (repairedText env data) t v0).2).1 = none
      · simp [h1, h2] at hfail
      · simp only [strictFails, Bool.and_eq_true, Option.isSome_iff_ne_none]
        exact ⟨h1, h2⟩
  refine ⟨?_, ?_, ?_, ?_⟩
  · intro ht
    exact unmarshal_strictLeft env t ht fuel _ v0 hfail
  · intro ht hpos
    obtain ⟨n, rfl⟩ : ∃ n, fuel = n + 1 := ⟨fuel - 1, by omega⟩
    have hs := hstrict n rfl
    cases hraw : env.UnmarshalRaw (repairedText env data) with
    | error e =>
      have h1 : (env.Unmarshal (repairedText env data) t v0).1 ≠ none := by
        intro h
        simp [strictFails, h] at hs
      have h2 : (env.Unmarshal (repairedText env data) t
          (env.Unmarshal (repairedText env data) t v0).2).1 ≠ none := by
        intro h
        simp [strictFails, h] at hs
      rw [Unmarshal, unmarshal_succ]
      simp only [h1, h2, if_false, hraw]
    | ok raw =>
      rw [Unmarshal, unmarshal_slow env n _ _ _ _ hs hraw] at hfail ⊢
      rcases ht with rfl | ⟨width, rfl⟩ | ⟨kind, rfl⟩
      · simp [unmarshalSwitch] at hfail
      · simp [unmarshalSwitch] at hfail
      · simp only [unmarshalSwitch]
  · intro n fields kvs fs hn ht hraw hshape
    subst hn ht
    have hs := hstrict n rfl
    rw [Unmarshal, unmarshal_slow env n _ _ _ _ hs hraw, hshape,
      unmarshalSwitch_struct_obj] at hfail ⊢
    obtain ⟨pre, key, value, post, hl, hpreok, _, hrun⟩ :=
      structLoop_failed env (processValue env n) fields kvs fs hfail
    exact ⟨pre, key, value, post, hl, hpreok, by rw [hrun]⟩
  · intro e raw ht hpos hraw
    subst ht
    obtain ⟨n, rfl⟩ : ∃ n, fuel = n + 1 := ⟨fuel - 1, by omega⟩
    have hs := hstrict n rfl
    rw [Unmarshal, unmarshal_slow env n _ _ _ _ hs hraw]
    exact unmarshalSwitch_ptr env n _ e raw _

/-- Witness of `failed_decode_keeps_target`: an array whose second item is not an array
fails for a slice of slices. The engine assigns nothing, and the target, which held
`[[9]]`, holds what the strict decoder wrote before it met the second item: `[[1], nil]`.
The record `exPair` keeps what the keys before the failing one set, and a nil pointer to a
slice is left allocated. -/
theorem failed_decode_keeps_target_witness :
    Unmarshal goEnv 3 "[[1], 5]" (ptrAt (.slice (.slice (.int .native))) (.slice [.slice [.int 9]]))
        = (.error "expected an array in the input data",
            ptrAt (.slice (.slice (.int .native))) (.slice [.slice [.int 1], .nilSlice]))
      ∧ strictLeft goEnv (.slice (.slice (.int .native))) 3 (repairedText goEnv "[[1], 5]")
          (.slice [.slice [.int 9]]) = .slice [.slice [.int 1], .nilSlice]
      ∧ (Unmarshal goEnv 3 "[[1], 5]"
          (ptrAt (.slice (.slice (.int .native))) (.slice [.slice [.int 9]]))).2
        = ptrAt (.slice (.slice (.int .native)))
            (strictLeft goEnv (.slice (.slice (.int .native))) 3 (repairedText goEnv "[[1], 5]")
              (.slice [.slice [.int 9]]))
      ∧ (∃ pre key value post,
          [("a", Raw.str "1"), ("b", Raw.num ⟨5, 0⟩)] = pre ++ (key, value) :: post ∧
          (structLoop goEnv (processValue goEnv 3)
            [⟨"A", "a", true, .int .native⟩, ⟨"B", "b", true, .slice (.int .native)⟩] pre
            [.int 0, .nilSlice]).1 = .ok ∧
          (Unmarshal goEnv 4 exPairText (ptrAt exPair (.struct [.int 0, .nilSlice]))).2
            = ptrAt exPair (.struct (structLoop goEnv (processValue goEnv 3)
                [⟨"A", "a", true, .int .native⟩, ⟨"B", "b", true, .slice (.int .native)⟩] pre
                [.int 0, .nilSlice]).2))
      ∧ (∃ x, (Unmarshal goEnv 3 "5" (ptrAt (.ptr (.slice (.int .native))) .nilPtr)).2
          = ptrAt (.ptr (.slice (.int .native))) (.ptrTo x)) :=
  ⟨rfl, rfl,
    (failed_decode_keeps_target goEnv 3 "[[1], 5]" (.slice (.slice (.int .native)))
      (.slice [.slice [.int 9]]) (by decide)).1 (Or.inl ⟨_, rfl⟩),
    (failed_decode_keeps_target goEnv 4 exPairText exPair (.struct [.int 0, .nilSlice])
      (by decide)).2.2.1 3
      [⟨"A", "a", true, .int .native⟩, ⟨"B", "b", true, .slice (.int .native)⟩]
      [("a", .str "1"), ("b", .num ⟨5, 0⟩)] [.int 0, .nilSlice] rfl rfl rfl rfl,
    (failed_decode_keeps_target goEnv 3 "5" (.ptr (.slice (.int .native))) .nilPtr
      (by decide)).2.2.2 (.slice (.int .native)) (.num ⟨5, 0⟩) rfl (by decide) rfl⟩

/-- Counterexample to C9 as stated: `Unmarshal` returns an error and the target has
changed. Decoding the text `5` into a nil pointer to a slice returns the error of the
slice case and leaves the pointer allocated; decoding `exPairText` into `exPair` returns
the error of the field `b` after the field `a` has been set to `1`; decoding `[[1], 5]`
into a slice of slices that holds `[[9]]` returns an error and leaves `[[1], nil]`, which
the strict decoder wrote before it failed. -/
theorem failed_decode_counterexample :
    Unmarshal goEnv 3 "5" (ptrAt (.ptr (.slice (.int .native))) .nilPtr)
        = (.error "expected an array in the input data",
            ptrAt (.ptr (.slice (.int .native))) (.ptrTo .nilSlice))
      ∧ ptrAt (.ptr (.slice (.int .native))) (.ptrTo .nilSlice)
        ≠ ptrAt (.ptr (.slice (.int .native))) .nilPtr
      ∧ Unmarshal goEnv 4 exPairText (ptrAt exPair (.struct [.int 0, .nilSlice]))
        = (.error "expected an array in the input data",
            ptrAt exPair (.struct [.int 1, .nilSlice]))
      ∧ ptrAt exPair (.struct [.int 1, .nilSlice]) ≠ ptrAt exPair (.struct [.int 0, .nilSlice])
      ∧ Unmarshal goEnv 3 "[[1], 5]"
          (ptrAt (.slice (.slice (.int .native))) (.slice [.slice [.int 9]]))
        = (.error "expected an array in the input data",
            ptrAt (.slice (.slice (.int .native))) (.slice [.slice [.int 1], .nilSlice]))
      ∧ ptrAt (.slice (.slice (.int .native))) (.slice [.slice [.int 1], .nilSlice])
        ≠ ptrAt (.slice (.slice (.int .native))) (.slice [.slice [.int 9]]) :=
  ⟨rfl, by simp [ptrAt], rfl, by simp [ptrAt], rfl, by simp [ptrAt]⟩

/-! ## Collection targets and a generic value of another shape -/

/-- C11: collection shape mismatch. When the fast path fails and the text parses to a
generic value that is not a string the detector accepts, a slice target with a value that
is not an array returns the error `expected an array in the input data`, and a map target
with a value that is not an object returns the error `expected an map in the input data`;
in both cases the engine assigns nothing. -/
theorem collection_shape_mismatch (env : Env) (fuel : Nat) (data : String) (elemT : GoType)
    (v0 : Value) (raw : Raw)
    (hraw : env.UnmarshalRaw (repairedText env data) = .ok raw)
    (hstr : embedded env raw = none) :
    (strictFails env (repairedText env data) (.slice elemT) v0 = true →
        (∀ xs, raw ≠ .arr xs) →
        Unmarshal env (fuel + 1) data (ptrAt (.slice elemT) v0) =
          (.error "expected an array in the input data",
            ptrAt (.slice elemT) (afterStrict env (repairedText env data) (.slice elemT) v0)))
      ∧ (strictFails env (repairedText env data) (.map elemT) v0 = true →
        (∀ kvs, raw ≠ .obj kvs) →
        Unmarshal env (fuel + 1) data (ptrAt (.map elemT) v0) =
          (.error "expected an map in the input data",
            ptrAt (.map elemT) (afterStrict env (repairedText env data) (.map elemT) v0))) := by
  constructor
  · intro hfast hshape
    rw [Unmarshal, unmarshal_slow env fuel _ _ _ _ hfast hraw]
    cases raw with
    | arr xs => exact absurd rfl (hshape xs)
    | _ => simp only [unmarshalSwitch, hstr]
  · intro hfast hshape
    rw [Unmarshal, unmarshal_slow env fuel _ _ _ _ hfast hraw]
    cases raw with
    | obj kvs => exact absurd rfl (hshape kvs)
    | _ => simp only [unmarshalSwitch, hstr]

/-- Witness of `collection_shape_mismatch`: the number `5` for a slice of ints and for a
map of strings (the nil map is left allocated and empty by the strict decoder). -/
theorem collection_shape_mismatch_witness :
    Unmarshal goEnv 1 "5" (ptrAt (.slice (.int .native)) .nilSlice)
        = (.error "expected an array in the input data", ptrAt (.slice (.int .native)) .nilSlice)
      ∧ Unmarshal goEnv 1 "5" (ptrAt (.map .string) .nilMap)
        = (.error "expected an map in the input data", ptrAt (.map .string) (.map []))
      ∧ Unmarshal goEnv 1 "5" (ptrAt (.slice (.int .native)) .nilSlice)
        = (.error "expected an array in the input data",
            ptrAt (.slice (.int .native))
              (afterStrict goEnv (repairedText goEnv "5") (.slice (.int .native)) .nilSlice)) :=
  ⟨rfl, rfl,
    (collection_shape_mismatch goEnv 0 "5" (.int .native) .nilSlice (.num ⟨5, 0⟩) rfl rfl).1 rfl
      (by intro xs h; cases h)⟩

/-! ## Propagation of a failure -/

theorem mapLoop_cons (env : Env) (dec : String → Any → Result × Any) (elemT : GoType)
    (key : String) (item : Raw) (rest : List (String × Raw)) (acc : List (String × Value)) :
    mapLoop env dec elemT ((key, item) :: rest) acc =
      if (decodeItem env dec elemT item).1 = .ok then
        mapLoop env dec elemT rest (setMapIndex acc key (decodeItem env dec elemT item).2)
      else ((decodeItem env dec elemT item).1, acc) := by
  rw [mapLoop]
  split
  · rename_i h; simp [h]
  · rename_i r x hne h
    have : r ≠ .ok := fun hr => hne hr
    simp [h, this]

theorem sliceLoop_first_failure (env : Env) (dec : String → Any → Result × Any) (elemT : GoType)
    (pre : List Raw) (item : Raw) (post : List Raw) (acc : List Value)
    (hpre : ∀ x ∈ pre, (decodeItem env dec elemT x).1 = .ok)
    (hitem : (decodeItem env dec elemT item).1 ≠ .ok) :
    (sliceLoop env dec elemT (pre ++ item :: post) acc).1 = (decodeItem env dec elemT item).1 := by
  induction pre generalizing acc with
  | nil => simp [sliceLoop_cons, hitem]
  | cons x rest ih =>
    rw [List.cons_append, sliceLoop_cons]
    simp only [hpre x (List.mem_cons_self _ _), if_true]
    exact ih _ (fun y hy => hpre y (List.mem_cons_of_mem _ hy))

theorem mapLoop_first_failure (env : Env) (dec : String → Any → Result × Any) (elemT : GoType)
    (pre : List (String × Raw)) (key : String) (item : Raw) (post : List (String × Raw))
    (acc : List (String × Value))
    (hpre : ∀ kv ∈ pre, (decodeItem env dec elemT kv.2).1 = .ok)
    (hitem : (decodeItem env dec elemT item).1 ≠ .ok) :
    (mapLoop env dec elemT (pre ++ (key, item) :: post) acc).1
      = (decodeItem env dec elemT item).1 := by
  induction pre generalizing acc with
  | nil => simp [mapLoop_cons, hitem]
  | cons kv rest ih =>
    obtain ⟨k, x⟩ := kv
    rw [List.cons_append, mapLoop_cons]
    simp only [hpre (k, x) (List.mem_cons_self _ _), if_true]
    exact ih _ (fun y hy => hpre y (List.mem_cons_of_mem _ hy))

theorem sliceLoop_all_ok (env : Env) (dec : String → Any → Result × Any) (elemT : GoType)
    (items : List Raw) (acc : List Value)
    (h : (sliceLoop env dec elemT items acc).1 = .ok) :
    ∀ item ∈ items, (decodeItem env dec elemT item).1 = .ok := by
  induction items generalizing acc with
  | nil => intro item hitem; cases hitem
  | cons x rest ih =>
    rw [sliceLoop_cons] at h
    by_cases hx : (decodeItem env dec elemT x).1 = .ok
    · simp only [hx, if_true] at h
      intro item hitem
      rcases List.mem_cons.1 hitem with rfl | hmem
      · exact hx
      · exact ih _ h item hmem
    · simp only [hx, if_false] at h

theorem mapLoop_all_ok (env : Env) (dec : String → Any → Result × Any) (elemT : GoType)
    (kvs : List (String × Raw)) (acc : List (String × Value))
    (h : (mapLoop env dec elemT kvs acc).1 = .ok) :
    ∀ kv ∈ kvs, (decodeItem env dec elemT kv.2).1 = .ok := by
  induction kvs generalizing acc with
  | nil => intro kv hkv; cases hkv
  | cons x rest ih =>
    obtain ⟨k, item⟩ := x
    rw [mapLoop_cons] at h
    by_cases hx : (decodeItem env dec elemT item).1 = .ok
    · simp only [hx, if_true] at h
      intro kv hkv
      rcases List.mem_cons.1 hkv with rfl | hmem
      · exact hx
      · exact ih _ h kv hmem
    · simp only [hx, if_false] at h

theorem structStep_error (env : Env) (pv : Any → GoType → Result × Any)
    (fields : List (Field GoType)) (key : String) (value : Raw) (fs : List Value) (i : Nat)
    (field : Field GoType) (m : String)
    (hres : findFieldByJSONTag fields key = some (i, field)) (hexp : field.exported = true)
    (hpv : (pv value.toAny field.type).1 = .error m) :
    structStep env pv fields key value fs = (.error m, fs) := by
  cases hp : pv value.toAny field.type with
  | mk r x =>
    rw [hp] at hpv
    simp only at hpv
    subst hpv
    simp [structStep, hres, hexp, hp]

theorem structStep_pv_failed (env : Env) (pv : Any → GoType → Result × Any)
    (fields : List (Field GoType)) (key : String) (value : Raw) (fs : List Value) (i : Nat)
    (field : Field GoType)
    (hres : findFieldByJSONTag fields key = some (i, field)) (hexp : field.exported = true)
    (hpv : (pv value.toAny field.type).1 ≠ .ok) :
    (structStep env pv fields key value fs).1 = (pv value.toAny field.type).1 := by
  cases hp : pv value.toAny field.type with
  | mk r x =>
    rw [hp] at hpv
    cases r with
    | ok => exact absurd rfl hpv
    | _ => simp [structStep, hres, hexp, hp]

/-- C12 (amended): a failure is propagated, never skipped; what is returned is the first
failure in visiting order. In the reconciliation of a slice or map target, when the
sub-decode of an item returns an error (the items visited before it having decoded), the
enclosing decode returns that error and the target keeps its storage; and whenever the
sub-decode of any item does not return nil, the enclosing decode does not return nil and
the collection built so far is not assigned. In the reconciliation of a record, when the
coercion of the value of a key that resolves to a settable field returns an error (the
keys visited before it having been processed), the record decode returns that error; and
whenever the coercion for any such key does not return nil, the record decode does not
return nil: the keys split into those visited before the first failure, which have been
processed and whose fields keep their new values, and the first key that fails, whose
failure is the one returned. A key that resolves to a field that is not settable is not
coerced and raises nothing. -/
theorem failure_propagation (env : Env) (dec : String → Any → Result × Any)
    (pv : Any → GoType → Result × Any) (data : String) (elemT : GoType) (v2 : Value)
    (m : String) :
    (∀ pre item post, (∀ x ∈ pre, (decodeItem env dec elemT x).1 = .ok) →
        (decodeItem env dec elemT item).1 = .error m →
        unmarshalSwitch env dec pv data (.slice elemT) (.arr (pre ++ item :: post)) v2
          = (.error m, ptrAt (.slice elemT) v2))
      ∧ (∀ items, (∃ item ∈ items, (decodeItem env dec elemT item).1 ≠ .ok) →
        (unmarshalSwitch env dec pv data (.slice elemT) (.arr items) v2).1 ≠ .ok ∧
        (unmarshalSwitch env dec pv data (.slice elemT) (.arr items) v2).2
          = ptrAt (.slice elemT) v2)
      ∧ (∀ pre key item post, (∀ kv ∈ pre, (decodeItem env dec elemT kv.2).1 = .ok) →
        (decodeItem env dec elemT item).1 = .error m →
        unmarshalSwitch env dec pv data (.map elemT) (.obj (pre ++ (key, item) :: post)) v2
          = (.error m, ptrAt (.map elemT) v2))
      ∧ (∀ kvs, (∃ kv ∈ kvs, (decodeItem env dec elemT kv.2).1 ≠ .ok) →
        (unmarshalSwitch env dec pv data (.map elemT) (.obj kvs) v2).1 ≠ .ok ∧
        (unmarshalSwitch env dec pv data (.map elemT) (.obj kvs) v2).2 = ptrAt (.map elemT) v2)
      ∧ (∀ fields fs pre key value post i field,
        (structLoop env pv fields pre fs).1 = .ok →
        findFieldByJSONTag fields key = some (i, field) → field.exported = true →
        (pv value.toAny field.type).1 = .error m →
        (unmarshalSwitch env dec pv data (.struct fields) (.obj (pre ++ (key, value) :: post))
          (.struct fs)).1 = .error m)
      ∧ (∀ fields fs kvs,
        (∃ kv ∈ kvs, ∃ i field, findFieldByJSONTag fields kv.1 = some (i, field) ∧
          field.exported = true ∧ (pv kv.2.toAny field.type).1 ≠ .ok) →
        (unmarshalSwitch env dec pv data (.struct fields) (.obj kvs) (.struct fs)).1 ≠ .ok ∧
        ∃ pre key value post, kvs = pre ++ (key, value) :: post ∧
          (structLoop env pv fields pre fs).1 = .ok ∧
          (structStep env pv fields key value (structLoop env pv fields pre fs).2).1 ≠ .ok ∧
          unmarshalSwitch env dec pv data (.struct fields) (.obj kvs) (.struct fs)
            = ((structStep env pv fields key value (structLoop env pv fields pre fs).2).1,
                ptrAt (.struct fields) (.struct (structLoop env pv fields pre fs).2)))
      ∧ (∀ fields key value fs i field, findFieldByJSONTag fields key = some (i, field) →
        field.exported = false → structStep env pv fields key value fs = (.ok, fs)) := by
  refine ⟨?_, ?_, ?_, ?_, ?_, ?_, ?_⟩
  · intro pre item post hpre hitem
    have hne : (decodeItem env dec elemT item).1 ≠ .ok := by rw [hitem]; intro h; cases h
    have hr := sliceLoop_first_failure env dec elemT pre item post [] hpre hne
    rw [unmarshalSwitch_slice_arr, hr, hitem]
    simp
  · intro items hex
    obtain ⟨item, hmem, hitem⟩ := hex
    have hne : (sliceLoop env dec elemT items []).1 ≠ .ok :=
      fun h => hitem (sliceLoop_all_ok env dec elemT items [] h item hmem)
    rw [unmarshalSwitch_slice_arr]
    simp only [hne, if_false]
    exact ⟨hne, trivial⟩
  · intro pre key item post hpre hitem
    have hne : (decodeItem env dec elemT item).1 ≠ .ok := by rw [hitem]; intro h; cases h
    have hr := mapLoop_first_failure env dec elemT pre key item post [] hpre hne
    rw [unmarshalSwitch_map_obj, hr, hitem]
    simp
  · intro kvs hex
    obtain ⟨kv, hmem, hitem⟩ := hex
    have hne : (mapLoop env dec elemT kvs []).1 ≠ .ok :=
      fun h => hitem (mapLoop_all_ok env dec elemT kvs [] h kv hmem)
    rw [unmarshalSwitch_map_obj]
    simp only [hne, if_false]
    exact ⟨hne, trivial⟩
  · intro fields fs pre key value post i field hpre hres hexp hpv
    rw [unmarshalSwitch_struct_obj, structLoop_append]
    simp only [hpre, if_true]
    rw [structLoop_cons, structStep_error env pv fields key value _ i field m hres hexp hpv]
    simp
  · intro fields fs kvs hex
    obtain ⟨kv, hmem, i, field, hres, hexp, hpv⟩ := hex
    have hne : (structLoop env pv fields kvs fs).1 ≠ .ok := by
      intro hok
      have hstep := (structLoop_ok_iff env pv fields kvs fs).1 hok kv hmem
      rw [structStep_pv_failed env pv fields kv.1 kv.2 [] i field hres hexp hpv] at hstep
      exact hpv hstep
    obtain ⟨pre, key, value, post, hl, hpreok, hstep, hrun⟩ :=
      structLoop_failed env pv fields kvs fs hne
    rw [unmarshalSwitch_struct_obj, hrun]
    exact ⟨hstep, pre, key, value, post, hl, hpreok, hstep, rfl⟩
  · intro fields key value fs i field hres hexp
    simp [structStep, hres, hexp]

/-- Witness of `failure_propagation`: in `[[1], 5]` decoded into a slice of slices the
second item fails, the decode returns its error and the engine assigns nothing (the target
holds what the strict decoder wrote); in the reconciliation of `[[1], 5, [2]]` the third
item is not reached; in `{"b":5,"c":5}` decoded into `exTwo` both values fail, and the
decode does not return nil. -/
theorem failure_propagation_witness :
    Unmarshal goEnv 3 "[[1], 5]"
        (ptrAt (.slice (.slice (.int .native))) (.slice [.slice [.int 9]]))
        = (.error "expected an array in the input data",
            ptrAt (.slice (.slice (.int .native))) (.slice [.slice [.int 1], .nilSlice]))
      ∧ unmarshalSwitch goEnv (unmarshal goEnv 2) (processValue goEnv 2) "[[1], 5, [2]]"
          (.slice (.slice (.int .native)))
          (.arr ([.arr [.num ⟨1, 0⟩]] ++ .num ⟨5, 0⟩ :: [.arr [.num ⟨2, 0⟩]]))
          (.slice [.slice [.int 9]])
        = (.error "expected an array in the input data",
            ptrAt (.slice (.slice (.int .native))) (.slice [.slice [.int 9]]))
      ∧ (unmarshalSwitch goEnv (unmarshal goEnv 3) (processValue goEnv 3)
          "\x7b\"b\":5,\"c\":5\x7d"
          (.struct [⟨"B", "b", true, .slice (.int .native)⟩, ⟨"C", "c", true, .map .string⟩])
          (.obj [("b", .num ⟨5, 0⟩), ("c", .num ⟨5, 0⟩)]) (.struct [.nilSlice, .nilMap])).1
        ≠ .ok :=
  ⟨rfl,
    (failure_propagation goEnv (unmarshal goEnv 2) (processValue goEnv 2) "[[1], 5, [2]]"
      (.slice (.int .native)) (.slice [.slice [.int 9]])
      "expected an array in the input data").1
      [.arr [.num ⟨1, 0⟩]] (.num ⟨5, 0⟩) [.arr [.num ⟨2, 0⟩]]
      (by
        intro x hx
        simp only [List.mem_singleton] at hx
        subst hx
        rfl)
      rfl,
    ((failure_propagation goEnv (unmarshal goEnv 3) (processValue goEnv 3)
      "\x7b\"b\":5,\"c\":5\x7d" (.int .native) .nilSlice "").2.2.2.2.2.1
      [⟨"B", "b", true, .slice (.int .native)⟩, ⟨"C", "c", true, .map .string⟩]
      [.nilSlice, .nilMap] [("b", .num ⟨5, 0⟩), ("c", .num ⟨5, 0⟩)]
      ⟨("c", .num ⟨5, 0⟩), by simp, 1, ⟨"C", "c", true, .map .string⟩, rfl, rfl,
        by decide⟩).1⟩

/-- Counterexample to C12 as stated: in `{"b":5,"c":5}` decoded into `exTwo` the key `c`
resolves to the field `C`, a map, and coercing its value `5` returns the error `expected
an map in the input data`; the record decode does not return that error but the one of
the key `b`, visited first. And in `{"name":1,"b":5}` decoded into `exHiddenSlice` the key
`b` resolves to a field that is not settable: coercing its value `5` into a slice returns
an error, but the field is skipped, no coercion is run, and the record decode returns
nil. -/
theorem failure_propagation_counterexample :
    findFieldByJSONTag
        [⟨"B", "b", true, .slice (.int .native)⟩, ⟨"C", "c", true, .map .string⟩] "c"
        = some (1, ⟨"C", "c", true, .map .string⟩)
      ∧ processValue goEnv 3 (Raw.num ⟨5, 0⟩).toAny (.map .string)
        = (.error "expected an map in the input data", none)
      ∧ processValue goEnv 3 (Raw.num ⟨5, 0⟩).toAny (.slice (.int .native))
        = (.error "expected an array in the input data", none)
      ∧ goEnv.UnmarshalRaw "\x7b\"b\":5,\"c\":5\x7d"
        = .ok (.obj [("b", .num ⟨5, 0⟩), ("c", .num ⟨5, 0⟩)])
      ∧ (Unmarshal goEnv 4 "\x7b\"b\":5,\"c\":5\x7d" (newPtr exTwo)).1
        = .error "expected an array in the input data"
      ∧ Result.error "expected an array in the input data"
        ≠ Result.error "expected an map in the input data"
      ∧ findFieldByJSONTag
          [⟨"Name", "name", true, .string⟩, ⟨"b", "b", false, .slice (.int .native)⟩] "b"
        = some (1, ⟨"b", "b", false, .slice (.int .native)⟩)
      ∧ goEnv.UnmarshalRaw "\x7b\"name\":1,\"b\":5\x7d"
        = .ok (.obj [("name", .num ⟨1, 0⟩), ("b", .num ⟨5, 0⟩)])
      ∧ strictFails goEnv (repairedText goEnv "\x7b\"name\":1,\"b\":5\x7d") exHiddenSlice
          (zero exHiddenSlice) = true
      ∧ Unmarshal goEnv 4 "\x7b\"name\":1,\"b\":5\x7d" (newPtr exHiddenSlice)
        = (.ok, ptrAt exHiddenSlice (.struct [.str "1", .nilSlice])) :=
  ⟨rfl, rfl, rfl, rfl, rfl, by decide, rfl, rfl, rfl, rfl⟩

/-! ## The map loop -/

theorem setMapIndex_fresh (m : List (String × Value)) (k : String) (v : Value)
    (h : k ∉ m.map Prod.fst) : setMapIndex m k v = m ++ [(k, v)] := by
  induction m with
  | nil => rfl
  | cons kv rest ih =>
    obtain ⟨k1, v1⟩ := kv
    simp only [List.map_cons, List.mem_cons, not_or] at h
    have hne : ¬ k1 = k := fun e => h.1 e.symm
    simp [setMapIndex, hne, ih h.2]

theorem mapLoop_ok (env : Env) (dec : String → Any → Result × Any) (elemT : GoType)
    (kvs : List (String × Raw)) (acc out : List (String × Value))
    (hkeys : (acc.map Prod.fst ++ kvs.map Prod.fst).Nodup)
    (h : mapLoop env dec elemT kvs acc = (.ok, out)) :
    ∃ vs, out = acc ++ vs ∧
      List.Forall₂ (fun kv e => e.1 = kv.1 ∧ decodeItem env dec elemT kv.2 = (.ok, e.2)) kvs vs := by
  induction kvs generalizing acc with
  | nil =>
    simp only [mapLoop, Prod.mk.injEq, true_and] at h
    exact ⟨[], by simp [h], List.Forall₂.nil⟩
  | cons kv rest ih =>
    obtain ⟨key, item⟩ := kv
    rw [mapLoop_cons] at h
    split at h
    · rename_i hitem
      have hfresh : key ∉ acc.map Prod.fst := by
        intro hmem
        have := List.nodup_append.1 hkeys
        exact this.2.2 hmem (by simp)
      rw [setMapIndex_fresh acc key _ hfresh] at h
      have hkeys1 : ((acc ++ [(key, (decodeItem env dec elemT item).2)]).map Prod.fst
          ++ rest.map Prod.fst).Nodup := by
        simpa using hkeys
      obtain ⟨vs, hout, hall⟩ := ih _ hkeys1 h
      refine ⟨(key, (decodeItem env dec elemT item).2) :: vs, by simp [hout], ?_⟩
      exact List.Forall₂.cons ⟨rfl, Prod.ext hitem rfl⟩ hall
    · rename_i hitem
      exact absurd (congrArg Prod.fst h) hitem

theorem forall₂_map_fst {R : (String × Raw) → (String × Value) → Prop}
    {l1 : List (String × Raw)} {l2 : List (String × Value)}
    (h : List.Forall₂ R l1 l2) (hR : ∀ a b, R a b → b.1 = a.1) :
    l2.map Prod.fst = l1.map Prod.fst := by
  induction h with
  | nil => rfl
  | cons hab _ ih => simp [hR _ _ hab, ih]

/-- C13: decoding into a mapping is key-preserving and element-wise. For a map target and a
text on which the fast path fails and that parses to a generic object (its keys distinct),
a successful decode stores a map with exactly the keys of the object, and the value under
each key is what `unmarshal` of the text of the item into a fresh element leaves there,
the text being the content of the item when the item is a string that the detector
accepts, and the `json.Marshal` of the item otherwise. -/
theorem mapping_elementwise (env : Env) (fuel : Nat) (data : String) (elemT : GoType)
    (v0 : Value) (kvs : List (String × Raw)) (out : Any)
    (hfast : strictFails env (repairedText env data) (.map elemT) v0 = true)
    (hraw : env.UnmarshalRaw (repairedText env data) = .ok (.obj kvs))
    (hkeys : (kvs.map Prod.fst).Nodup)
    (hok : Unmarshal env (fuel + 1) data (ptrAt (.map elemT) v0) = (.ok, out)) :
    ∃ m, out = ptrAt (.map elemT) (.map m) ∧ m.map Prod.fst = kvs.map Prod.fst ∧
      ∀ (i : Nat) (key : String) (item : Raw), kvs[i]? = some (key, item) →
        ∃ text,
          ((∃ s, item = .str s ∧ isJSONString env s = true ∧ text = s) ∨
            ((∀ s, item = .str s → isJSONString env s = false) ∧
              env.Marshal item.toAny = .ok text)) ∧
          (unmarshal env fuel text (newPtr elemT)).1 = .ok ∧
          m[i]? = some (key, (unmarshal env fuel text (newPtr elemT)).2.elem) := by
  rw [Unmarshal, unmarshal_slow env fuel _ _ _ _ hfast hraw, unmarshalSwitch_map_obj] at hok
  split at hok
  · rename_i hloop
    obtain ⟨m, hm, hall⟩ := mapLoop_ok env (unmarshal env fuel) elemT kvs []
      (mapLoop env (unmarshal env fuel) elemT kvs []).2 (by simpa using hkeys)
      (Prod.ext hloop rfl)
    simp only [List.nil_append] at hm
    rw [hm] at hok
    refine ⟨m, (congrArg Prod.snd hok).symm, forall₂_map_fst hall (fun a b h => h.1), ?_⟩
    intro i key item hi
    obtain ⟨e, he, hkey, hdec⟩ := forall₂_getElem? hall i (key, item) hi
    obtain ⟨text, htext, hres, hval⟩ := decodeItem_ok env _ elemT item e.2 hdec
    refine ⟨text, chooseText_ok env item text htext, hres, ?_⟩
    rw [he, ← hval]
    exact congrArg some (Prod.ext hkey rfl)
  · rename_i hloop
    exact absurd (congrArg Prod.fst hok) hloop

/-- Witness of `mapping_elementwise` on the map of `TestUnmarshal`: the object
`{"sub1": "xxx", "sub2": 123}` decoded into a map of string to string gives `xxx` and the
string `123`; and the literal string `mapStr` of the test decodes to the same map. -/
theorem mapping_elementwise_witness :
    Unmarshal goEnv 2 exSubText (ptrAt (.map .string) .nilMap)
        = (.ok, ptrAt (.map .string) (.map [("sub1", .str "xxx"), ("sub2", .str "123")]))
      ∧ Unmarshal goEnv 3 exMapStr (ptrAt (.map .string) .nilMap)
        = (.ok, ptrAt (.map .string) (.map [("sub1", .str "xxx"), ("sub2", .str "123")]))
      ∧ castTo goEnv .string (Raw.toAny (.num ⟨123, 0⟩)) = .str "123"
      ∧ ∃ m, ptrAt (.map .string) (.map [("sub1", .str "xxx"), ("sub2", .str "123")])
          = ptrAt (.map .string) (.map m)
        ∧ m.map Prod.fst = [("sub1", Raw.str "xxx"), ("sub2", Raw.num ⟨123, 0⟩)].map Prod.fst
        ∧ ∀ (i : Nat) (key : String) (item : Raw),
          [("sub1", Raw.str "xxx"), ("sub2", Raw.num ⟨123, 0⟩)][i]? = some (key, item) →
          ∃ text,
            ((∃ s, item = .str s ∧ isJSONString goEnv s = true ∧ text = s) ∨
              ((∀ s, item = .str s → isJSONString goEnv s = false) ∧
                goEnv.Marshal item.toAny = .ok text)) ∧
            (unmarshal goEnv 1 text (newPtr .string)).1 = .ok ∧
            m[i]? = some (key, (unmarshal goEnv 1 text (newPtr .string)).2.elem) :=
  ⟨rfl, rfl, rfl,
    mapping_elementwise goEnv 1 exSubText .string .nilMap
      [("sub1", .str "xxx"), ("sub2", .num ⟨123, 0⟩)]
      (ptrAt (.map .string) (.map [("sub1", .str "xxx"), ("sub2", .str "123")]))
      rfl rfl (by decide) rfl⟩

/-! ## The detector and the field resolver -/

theorem Lib.parseMembers_obj (n : Nat) (cs : List Char) (acc : List (String × Raw)) (v : Raw)
    (r : List Char) (h : Lib.parseMembers n cs acc = some (v, r)) : ∃ kvs, v = .obj kvs := by
  induction n generalizing cs acc with
  | zero => simp [Lib.parseMembers] at h
  | succ k ih =>
    unfold Lib.parseMembers at h
    split at h
    · split at h
      · split at h
        · split at h
          · split at h
            · exact ih _ _ h
            · simp only [Option.some.injEq, Prod.mk.injEq] at h
              exact ⟨_, h.1.symm⟩
            · cases h
          · cases h
        · cases h
      · cases h
    · cases h

theorem Lib.parseElems_arr (n : Nat) (cs : List Char) (acc : List Raw) (v : Raw)
    (r : List Char) (h : Lib.parseElems n cs acc = some (v, r)) : ∃ xs, v = .arr xs := by
  induction n generalizing cs acc with
  | zero => simp [Lib.parseElems] at h
  | succ k ih =>
    unfold Lib.parseElems at h
    split at h
    · split at h
      · exact ih _ _ h
      · simp only [Option.some.injEq, Prod.mk.injEq] at h
        exact ⟨_, h.1.symm⟩
      · cases h
    · cases h

theorem Lib.parseValue_brace (n : Nat) (cs : List Char) (v : Raw) (r : List Char)
    (h : Lib.parseValue n ('\x7b' :: cs) = some (v, r)) : ∃ kvs, v = .obj kvs := by
  cases n with
  | zero => simp [Lib.parseValue] at h
  | succ k =>
    have hws : Lib.skipWs ('\x7b' :: cs) = '\x7b' :: cs := by
      simp [Lib.skipWs, Lib.isWs]
    rw [Lib.parseValue, hws] at h
    simp only at h
    split at h
    · simp only [Option.some.injEq, Prod.mk.injEq] at h
      exact ⟨_, h.1.symm⟩
    · exact Lib.parseMembers_obj _ _ _ _ _ h

theorem Lib.parseValue_bracket (n : Nat) (cs : List Char) (v : Raw) (r : List Char)
    (h : Lib.parseValue n ('[' :: cs) = some (v, r)) : ∃ xs, v = .arr xs := by
  cases n with
  | zero => simp [Lib.parseValue] at h
  | succ k =>
    have hws : Lib.skipWs ('[' :: cs) = '[' :: cs := by
      simp [Lib.skipWs, Lib.isWs]
    rw [Lib.parseValue, hws] at h
    simp only at h
    split at h
    · simp only [Option.some.injEq, Prod.mk.injEq] at h
      exact ⟨_, h.1.symm⟩
    · exact Lib.parseElems_arr _ _ _ _ _ h

theorem Lib.parse_structural (s : String) (raw : Raw)
    (hhead : s.data.head? = some '\x7b' ∨ s.data.head? = some '[')
    (h : Lib.parse s = some raw) : (∃ kvs, raw = .obj kvs) ∨ (∃ xs, raw = .arr xs) := by
  unfold Lib.parse at h
  split at h
  · rename_i v r hv
    split at h
    · simp only [Option.some.injEq] at h
      subst h
      cases hd : s.data with
      | nil => rw [hd] at hhead; simp at hhead
      | cons c cs =>
        rw [hd] at hhead hv
        simp only [List.head?_cons, Option.some.injEq] at hhead
        rcases hhead with rfl | rfl
        · left; exact Lib.parseValue_brace _ _ _ _ hv
        · right; exact Lib.parseValue_bracket _ _ _ _ hv
    · cases h
  · cases h

theorem isJSONString_iff (env : Env) (s : String) :
    isJSONString env s = true ↔
      2 ≤ s.utf8ByteSize ∧ (s.data.head? = some '\x7b' ∨ s.data.head? = some '[') ∧
        ∃ raw, env.UnmarshalRaw s = .ok raw := by
  unfold isJSONString
  constructor
  · intro h
    split at h
    · cases h
    · rename_i hc
      simp only [not_or, not_and_or, not_lt, not_not] at hc
      cases hraw : env.UnmarshalRaw s with
      | ok raw => exact ⟨hc.1, hc.2, raw, rfl⟩
      | error e => rw [hraw] at h; cases h
  · rintro ⟨hlen, hhead, raw, hraw⟩
    have hc : ¬ (s.utf8ByteSize < 2 ∨
        (s.data.head? ≠ some '\x7b' ∧ s.data.head? ≠ some '[')) := by
      simp only [not_or, not_and_or, not_lt, not_not]
      exact ⟨hlen, hhead⟩
    simp only [hc, if_false, hraw]

/-- C14: the detector. For every string, `isJSONString` is true exactly when the string
has at least two bytes, its first byte is an opening brace or bracket, and the strict
decoder parses it into a generic value. So a string of fewer than two bytes, or one that
starts with white space, a quote or any other character, is refused even when it parses;
and with the reference strict decoder every accepted string parses to an object or an
array. -/
theorem detector_characterisation (env : Env) (s : String) :
    (isJSONString env s = true ↔
        2 ≤ s.utf8ByteSize ∧ (s.data.head? = some '\x7b' ∨ s.data.head? = some '[') ∧
          ∃ raw, env.UnmarshalRaw s = .ok raw)
      ∧ (isJSONString goEnv s = true →
        ∃ raw, goEnv.UnmarshalRaw s = .ok raw ∧ ((∃ kvs, raw = .obj kvs) ∨ (∃ xs, raw = .arr xs)))
      ∧ (isJSONString goEnv " \x7b\x7d" = false ∧ goEnv.UnmarshalRaw " \x7b\x7d" = .ok (.obj [])
        ∧ isJSONString goEnv "5" = false ∧ goEnv.UnmarshalRaw "5" = .ok (.num ⟨5, 0⟩)
        ∧ isJSONString goEnv "\"[1]\"" = false ∧ goEnv.UnmarshalRaw "\"[1]\"" = .ok (.str "[1]")
        ∧ isJSONString goEnv "true" = false ∧ goEnv.UnmarshalRaw "true" = .ok (.bool true)
        ∧ isJSONString goEnv "[1]" = true ∧ isJSONString goEnv "[1" = false) := by
  refine ⟨isJSONString_iff env s, ?_, ⟨rfl, rfl, rfl, rfl, rfl, rfl, rfl, rfl, rfl, rfl⟩⟩
  intro h
  obtain ⟨_, hhead, raw, hraw⟩ := (isJSONString_iff goEnv s).1 h
  refine ⟨raw, hraw, ?_⟩
  have hp : Lib.parse s = some raw := by
    have : Lib.UnmarshalRaw s = .ok raw := hraw
    unfold Lib.UnmarshalRaw at this
    split at this
    · rename_i r hr
      cases this
      exact hr
    · cases this
  exact Lib.parse_structural s raw hhead hp

theorem findFieldByJSONTag_cons (h : Field GoType) (rest : List (Field GoType)) (key : String) :
    findFieldByJSONTag (h :: rest) key =
      if h.tag = key ∨ h.tag = key ++ ",omitempty" then some (0, h)
      else (findFieldByJSONTag rest key).map (fun p => (p.1 + 1, p.2)) := by
  rw [findFieldByJSONTag]
  split
  · rfl
  · cases findFieldByJSONTag rest key with
    | none => rfl
    | some p => rfl

theorem findFieldByJSONTag_some (fields : List (Field GoType)) (key : String) (i : Nat)
    (f : Field GoType) :
    findFieldByJSONTag fields key = some (i, f) ↔
      fields[i]? = some f ∧ (f.tag = key ∨ f.tag = key ++ ",omitempty") ∧
        ∀ (j : Nat) (g : Field GoType), j < i → fields[j]? = some g →
          ¬ (g.tag = key ∨ g.tag = key ++ ",omitempty") := by
  induction fields generalizing i with
  | nil => simp [findFieldByJSONTag]
  | cons h rest ih =>
    rw [findFieldByJSONTag_cons]
    by_cases hm : h.tag = key ∨ h.tag = key ++ ",omitempty"
    · rw [if_pos hm]
      constructor
      · intro heq
        simp only [Option.some.injEq, Prod.mk.injEq] at heq
        obtain ⟨hi, hf⟩ := heq
        subst hi
        subst hf
        exact ⟨by simp, hm, fun j g hj => absurd hj (Nat.not_lt_zero j)⟩
      · rintro ⟨hget, _, hfirst⟩
        cases i with
        | zero =>
          simp only [List.getElem?_cons_zero, Option.some.injEq] at hget
          rw [hget]
        | succ k => exact absurd hm (hfirst 0 h (Nat.succ_pos k) (by simp))
    · rw [if_neg hm]
      cases i with
      | zero =>
        constructor
        · intro heq
          cases hrest : findFieldByJSONTag rest key with
          | none => rw [hrest] at heq; cases heq
          | some p =>
            rw [hrest] at heq
            simp only [Option.map_some', Option.some.injEq, Prod.mk.injEq] at heq
            omega
        · rintro ⟨hget, hmatch, _⟩
          simp only [List.getElem?_cons_zero, Option.some.injEq] at hget
          subst hget
          exact absurd hmatch hm
      | succ k =>
        have hshift : (findFieldByJSONTag rest key).map (fun p => (p.1 + 1, p.2)) = some (k + 1, f)
            ↔ findFieldByJSONTag rest key = some (k, f) := by
          cases hrest : findFieldByJSONTag rest key with
          | none => simp
          | some p =>
            obtain ⟨a, g⟩ := p
            simp
        rw [hshift, ih k]
        constructor
        · rintro ⟨hget, hmatch, hfirst⟩
          refine ⟨by simpa using hget, hmatch, ?_⟩
          intro j g hj hg
          cases j with
          | zero =>
            simp only [List.getElem?_cons_zero, Option.some.injEq] at hg
            subst hg
            exact hm
          | succ j1 => exact hfirst j1 g (Nat.lt_of_succ_lt_succ hj) (by simpa using hg)
        · rintro ⟨hget, hmatch, hfirst⟩
          exact ⟨by simpa using hget, hmatch,
            fun j g hj hg => hfirst (j + 1) g (Nat.succ_lt_succ hj) (by simpa using hg)⟩

theorem findFieldByJSONTag_none (fields : List (Field GoType)) (key : String) :
    findFieldByJSONTag fields key = none ↔
      ∀ f ∈ fields, ¬ (f.tag = key ∨ f.tag = key ++ ",omitempty") := by
  induction fields with
  | nil => simp [findFieldByJSONTag]
  | cons h rest ih =>
    rw [findFieldByJSONTag_cons]
    by_cases hm : h.tag = key ∨ h.tag = key ++ ",omitempty"
    · rw [if_pos hm]
      constructor
      · intro h1; cases h1
      · intro h1; exact absurd hm (h1 h (List.mem_cons_self _ _))
    · rw [if_neg hm, Option.map_eq_none', ih]
      constructor
      · intro h1 f hf
        rcases List.mem_cons.1 hf with rfl | hmem
        · exact hm
        · exact h1 f hmem
      · intro h1 f hf
        exact h1 f (List.mem_cons_of_mem _ hf)

theorem Lib.lower_length (a b : String) (h : Lib.lower a = Lib.lower b) : a.length = b.length := by
  have hd : a.data.map Char.toLower = b.data.map Char.toLower := by
    unfold Lib.lower at h
    exact congrArg String.data h
  have hl := congrArg List.length hd
  rw [List.length_map, List.length_map] at hl
  exact hl

/-- C15: the field resolver. For every record and every key, `findFieldByJSONTag` returns
the field of index `i` exactly when that field is the first, in declaration order, whose
json tag is equal to the key or to the key followed by `,omitempty`; it returns the
invalid value exactly when no declared field has such a tag. The comparison is exact: a
field whose tag differs from the key only in letter case is never the one returned, and a
record all of whose tags differ from the key in that way leaves the key unresolved. -/
theorem field_resolver_characterisation (fields : List (Field GoType)) (key : String) :
    (∀ (i : Nat) (f : Field GoType), findFieldByJSONTag fields key = some (i, f) ↔
        fields[i]? = some f ∧ (f.tag = key ∨ f.tag = key ++ ",omitempty") ∧
          ∀ (j : Nat) (g : Field GoType), j < i → fields[j]? = some g →
            ¬ (g.tag = key ∨ g.tag = key ++ ",omitempty"))
      ∧ (findFieldByJSONTag fields key = none ↔
        ∀ f ∈ fields, ¬ (f.tag = key ∨ f.tag = key ++ ",omitempty"))
      ∧ (∀ (i : Nat) (f : Field GoType), f.tag ≠ key → Lib.lower f.tag = Lib.lower key →
        findFieldByJSONTag fields key ≠ some (i, f))
      ∧ ((∀ f ∈ fields, f.tag ≠ key ∧ Lib.lower f.tag = Lib.lower key) →
        findFieldByJSONTag fields key = none)
      ∧ (findFieldByJSONTag [⟨"Name", "name", true, GoType.string⟩] "Name" = none
        ∧ findFieldByJSONTag [⟨"Name", "name", true, GoType.string⟩] "NAME" = none
        ∧ findFieldByJSONTag [⟨"Name", "name", true, GoType.string⟩] "name"
          = some (0, ⟨"Name", "name", true, GoType.string⟩)
        ∧ findFieldByJSONTag
            [⟨"A", "a,omitempty", true, GoType.string⟩, ⟨"B", "a", true, GoType.string⟩] "a"
          = some (0, ⟨"A", "a,omitempty", true, GoType.string⟩)) := by
  have hcase : ∀ f : Field GoType, f.tag ≠ key → Lib.lower f.tag = Lib.lower key →
      ¬ (f.tag = key ∨ f.tag = key ++ ",omitempty") := by
    intro f hne hlow hm
    rcases hm with h | h
    · exact hne h
    · have hl := Lib.lower_length _ _ hlow
      rw [h, String.length_append] at hl
      have : (",omitempty" : String).length = 10 := by rfl
      omega
  refine ⟨fun i f => findFieldByJSONTag_some fields key i f, findFieldByJSONTag_none fields key,
    ?_, ?_, ⟨rfl, rfl, rfl, rfl⟩⟩
  · intro i f hne hlow hres
    exact hcase f hne hlow ((findFieldByJSONTag_some fields key i f).1 hres).2.1
  · intro hall
    exact (findFieldByJSONTag_none fields key).2 (fun f hf => hcase f (hall f hf).1 (hall f hf).2)

/-! ## Syntax errors and usage errors -/

/-- C16 (what the code does): when the strict decoder fails on the target and the text
does not parse into a generic value, a call with a pointer to storage returns the error
`error unmarshalling JSON: ` followed by the cause, and the engine assigns nothing; but a
call with a nil pointer does not reach the generic parse: the strict decoder refuses the
nil pointer and line 37 panics on `Set`. -/
theorem syntax_error_outcome (env : Env) (fuel : Nat) (data : String) (t : GoType) (v0 : Value)
    (e : String)
    (hfast : strictFails env (repairedText env data) t v0 = true)
    (hraw : env.UnmarshalRaw (repairedText env data) = .error e) :
    Unmarshal env (fuel + 1) data (ptrAt t v0)
        = (.error ("error unmarshalling JSON: " ++ e),
            ptrAt t (afterStrict env (repairedText env data) t v0))
      ∧ (jsonUnmarshal env (repairedText env data) t .nilPtr).1.isSome = true
      ∧ Unmarshal env (fuel + 1) data (some (.ptr t, .nilPtr))
        = (.panic "reflect: reflect.Value.Set using unaddressable value",
            some (.ptr t, .nilPtr)) := by
  refine ⟨?_, rfl, ?_⟩
  · have h1 : (env.Unmarshal (repairedText env data) t v0).1 ≠ none := by
      intro h
      simp [strictFails, h] at hfast
    have h2 : (env.Unmarshal (repairedText env data) t
        (env.Unmarshal (repairedText env data) t v0).2).1 ≠ none := by
      intro h
      simp [strictFails, h] at hfast
    rw [Unmarshal, unmarshal_succ]
    simp only [h1, h2, if_false, hraw]
  · simp [Unmarshal, unmarshal, jsonUnmarshal]

/-- Witness of `syntax_error_outcome`, with the failing input of C16: the empty text
decoded into a record returns the wrapped error, and into a nil pointer it panics. -/
theorem syntax_error_outcome_witness :
    Unmarshal goEnv 1 "" (ptrAt exNested (.struct [.int 0]))
        = (.error "error unmarshalling JSON: invalid JSON", ptrAt exNested (.struct [.int 0]))
      ∧ Unmarshal goEnv 1 "" (some (.ptr exNested, .nilPtr))
        = (.panic "reflect: reflect.Value.Set using unaddressable value",
            some (.ptr exNested, .nilPtr))
      ∧ (Unmarshal goEnv 1 "" (ptrAt exNested (.struct [.int 0]))
          = (.error ("error unmarshalling JSON: " ++ "invalid JSON"),
              ptrAt exNested (afterStrict goEnv (repairedText goEnv "") exNested (.struct [.int 0])))
        ∧ (jsonUnmarshal goEnv (repairedText goEnv "") exNested .nilPtr).1.isSome = true
        ∧ Unmarshal goEnv 1 "" (some (.ptr exNested, .nilPtr))
          = (.panic "reflect: reflect.Value.Set using unaddressable value",
              some (.ptr exNested, .nilPtr))) :=
  ⟨rfl, rfl, syntax_error_outcome goEnv 0 "" exNested (.struct [.int 0]) "invalid JSON" rfl rfl⟩

/-- C17 (what the code does): a destination that is not of pointer kind gets the error
`schema must be a pointer`, whatever the text and the collaborators, and is left as it
was; but the absent destination, a nil interface, panics at line 25, where `Type` is called
on the zero `reflect.Value` before the kind is tested. -/
theorem usage_error_outcome (env : Env) (fuel : Nat) (data : String) (t : GoType) (v : Value)
    (hkind : ∀ e, t ≠ .ptr e) :
    Unmarshal env (fuel + 1) data (some (t, v)) = (.error "schema must be a pointer", some (t, v))
      ∧ Unmarshal env (fuel + 1) data none
        = (.panic "reflect: call of reflect.Value.Type on zero Value", none) := by
  constructor
  · cases t with
    | ptr e => exact absurd rfl (hkind e)
    | _ => simp [Unmarshal, unmarshal]
  · simp [Unmarshal, unmarshal]

/-- Witness of `usage_error_outcome`, with the failing input of C17: a record passed by
value gets the usage error, the nil destination panics. -/
theorem usage_error_outcome_witness :
    Unmarshal goEnv 1 exRecordText (some (exRecord, .struct [.str "", .int 0]))
        = (.error "schema must be a pointer", some (exRecord, .struct [.str "", .int 0]))
      ∧ Unmarshal goEnv 1 exRecordText none
        = (.panic "reflect: call of reflect.Value.Type on zero Value", none) :=
  usage_error_outcome goEnv 0 exRecordText exRecord (.struct [.str "", .int 0])
    (by intro e h; cases h)

/-! ## The repairer runs once, at the entry point -/

theorem isJSONString_withRepair (env : Env) (r : String → Option String) (s : String) :
    isJSONString (env.withRepair r) s = isJSONString env s := rfl

theorem chooseText_withRepair (env : Env) (r : String → Option String) (x : Any) :
    chooseText (env.withRepair r) x = chooseText env x := rfl

theorem embedded_withRepair (env : Env) (r : String → Option String) (raw : Raw) :
    embedded (env.withRepair r) raw = embedded env raw := by
  cases raw <;> rfl

theorem convert_withRepair (env : Env) (r : String → Option String) (x : Any) (t : GoType) :
    convert (env.withRepair r) x t = convert env x t := rfl

theorem decodeItem_withRepair (env : Env) (r : String → Option String)
    (dec : String → Any → Result × Any) (elemT : GoType) (item : Raw) :
    decodeItem (env.withRepair r) dec elemT item = decodeItem env dec elemT item := rfl

theorem structStep_withRepair (env : Env) (r : String → Option String)
    (pv : Any → GoType → Result × Any) (fields : List (Field GoType)) (key : String)
    (value : Raw) (fs : List Value) :
    structStep (env.withRepair r) pv fields key value fs = structStep env pv fields key value fs :=
  rfl

theorem schemaStep_withRepair (env : Env) (r : String → Option String)
    (pv : Any → GoType → Result × Any) (t : GoType) (val : Value) :
    schemaStep (env.withRepair r) pv t val = schemaStep env pv t val := rfl

theorem sliceLoop_withRepair (env : Env) (r : String → Option String)
    (dec : String → Any → Result × Any) (elemT : GoType) (items : List Raw) (acc : List Value) :
    sliceLoop (env.withRepair r) dec elemT items acc = sliceLoop env dec elemT items acc := by
  induction items generalizing acc with
  | nil => rfl
  | cons item rest ih => rw [sliceLoop_cons, sliceLoop_cons, decodeItem_withRepair, ih]

theorem mapLoop_withRepair (env : Env) (r : String → Option String)
    (dec : String → Any → Result × Any) (elemT : GoType) (kvs : List (String × Raw))
    (acc : List (String × Value)) :
    mapLoop (env.withRepair r) dec elemT kvs acc = mapLoop env dec elemT kvs acc := by
  induction kvs generalizing acc with
  | nil => rfl
  | cons kv rest ih =>
    obtain ⟨k, item⟩ := kv
    rw [mapLoop_cons, mapLoop_cons, decodeItem_withRepair, ih]

theorem structLoop_withRepair (env : Env) (r : String → Option String)
    (pv : Any → GoType → Result × Any) (fields : List (Field GoType))
    (kvs : List (String × Raw)) (fs : List Value) :
    structLoop (env.withRepair r) pv fields kvs fs = structLoop env pv fields kvs fs := by
  induction kvs generalizing fs with
  | nil => rfl
  | cons kv rest ih =>
    obtain ⟨k, value⟩ := kv
    rw [structLoop_cons, structLoop_cons, structStep_withRepair, ih]

theorem schemaEntries_withRepair (env : Env) (r : String → Option String)
    (pv : Any → GoType → Result × Any) (elemT : GoType) (kvs done : List (String × Value)) :
    schemaEntries (env.withRepair r) pv elemT kvs done = schemaEntries env pv elemT kvs done := by
  induction kvs generalizing done with
  | nil => rfl
  | cons kv rest ih =>
    obtain ⟨k, val⟩ := kv
    simp only [schemaEntries, schemaStep_withRepair, ih]

theorem schemaElems_withRepair (env : Env) (r : String → Option String)
    (pv : Any → GoType → Result × Any) (elemT : GoType) (xs done : List Value) :
    schemaElems (env.withRepair r) pv elemT xs done = schemaElems env pv elemT xs done := by
  induction xs generalizing done with
  | nil => rfl
  | cons x rest ih => simp only [schemaElems, schemaStep_withRepair, ih]

theorem schemaFields_withRepair (env : Env) (r : String → Option String)
    (pv : Any → GoType → Result × Any) (fields : List (Field GoType)) (fs done : List Value) :
    schemaFields (env.withRepair r) pv fields fs done = schemaFields env pv fields fs done := by
  induction fields generalizing fs done with
  | nil => simp [schemaFields]
  | cons f rest ih =>
    cases fs with
    | nil => simp [schemaFields]
    | cons v vs => simp only [schemaFields, schemaStep_withRepair, ih]

theorem unmarshalSwitch_withRepair (env : Env) (r : String → Option String)
    (dec : String → Any → Result × Any) (pv : Any → GoType → Result × Any) (data : String)
    (t : GoType) (raw : Raw) (v2 : Value) :
    unmarshalSwitch (env.withRepair r) dec pv data t raw v2
      = unmarshalSwitch env dec pv data t raw v2 := by
  cases t <;>
    simp only [unmarshalSwitch, embedded_withRepair, sliceLoop_withRepair, mapLoop_withRepair,
      structLoop_withRepair] <;> rfl

theorem decode_withRepair (env : Env) (r : String → Option String) (fuel : Nat) :
    (∀ data schema, unmarshal (env.withRepair r) fuel data schema = unmarshal env fuel data schema)
      ∧ (∀ x t, processValue (env.withRepair r) fuel x t = processValue env fuel x t)
      ∧ (∀ v, processSchema (env.withRepair r) fuel v = processSchema env fuel v) := by
  induction fuel with
  | zero => exact ⟨fun _ _ => rfl, fun _ _ => rfl, fun _ => rfl⟩
  | succ n ih =>
    obtain ⟨ihU, ihP, ihS⟩ := ih
    have hU : (fun d s => unmarshal (env.withRepair r) n d s) = fun d s => unmarshal env n d s := by
      funext d s; exact ihU d s
    have hP : (fun x t => processValue (env.withRepair r) n x t)
        = fun x t => processValue env n x t := by
      funext x t; exact ihP x t
    refine ⟨?_, ?_, ?_⟩
    · intro data schema
      simp only [unmarshal, hU, hP, unmarshalSwitch_withRepair]
      rfl
    · intro x t
      simp only [processValue, chooseText_withRepair, ihU, ihS]
      rfl
    · intro v
      simp only [processSchema, hP, schemaEntries_withRepair, schemaElems_withRepair,
        schemaFields_withRepair]

/-- C18 (amended): every recursive sub-decode is a call of `unmarshal`, the pipeline after
the repairer (fast path, generic parse, reconciliation), not of `Unmarshal`. So the outcome
of `unmarshal` on any text and target is the same whatever the Syntax Repairer is; it is
the outcome of `Unmarshal` on that text whenever the repairer leaves the text unchanged;
and a nested string that does not parse is not seen as embedded JSON: the text decoded for
it is its `json.Marshal`, in which no repair applies to its content. -/
theorem repair_only_at_entry (env : Env) (fuel : Nat) (s e : String)
    (hbad : env.UnmarshalRaw s = .error e) :
    (∀ (r : String → Option String) (text : String) (target : Any),
        unmarshal (env.withRepair r) fuel text target = unmarshal env fuel text target)
      ∧ (∀ (text : String) (target : Any), repairedText env text = text →
        Unmarshal env fuel text target = unmarshal env fuel text target)
      ∧ isJSONString env s = false
      ∧ (∀ (r : String → Option String),
        chooseText (env.withRepair r) (Raw.str s).toAny = env.Marshal (Raw.str s).toAny) := by
  have hj : isJSONString env s = false := by
    unfold isJSONString
    split
    · rfl
    · simp only [hbad]
  refine ⟨fun r text target => (decode_withRepair env r fuel).1 text target, ?_, hj, ?_⟩
  · intro text target hrep
    rw [Unmarshal, hrep]
  · intro r
    have h1 : (Raw.str s).toAny.asString = some s := (asString_toAny _ _).2 rfl
    rw [chooseText_withRepair]
    simp [chooseText, h1, hj]

/-- Witness of `repair_only_at_entry`: the nested string `[1,]` does not parse, and the
reference repairer would turn it into `[1]`. -/
theorem repair_only_at_entry_witness :
    goEnv.UnmarshalRaw "[1,]" = .error "invalid JSON"
      ∧ goEnv.JSONRepair "[1,]" = some "[1]"
      ∧ ((∀ (r : String → Option String) (text : String) (target : Any),
          unmarshal (goEnv.withRepair r) 3 text target = unmarshal goEnv 3 text target)
        ∧ (∀ (text : String) (target : Any), repairedText goEnv text = text →
          Unmarshal goEnv 3 text target = unmarshal goEnv 3 text target)
        ∧ isJSONString goEnv "[1,]" = false
        ∧ (∀ (r : String → Option String),
          chooseText (goEnv.withRepair r) (Raw.str "[1,]").toAny
            = goEnv.Marshal (Raw.str "[1,]").toAny)) :=
  ⟨rfl, rfl, repair_only_at_entry goEnv 3 "[1,]" "invalid JSON" rfl⟩

/-- Counterexample to C18 as stated: the text `["[1,]"]` decoded into a slice of slices of
ints. The nested value `[1,]` is malformed but repairable, and `Unmarshal` of it alone
gives `[1]`; nested, it is not repaired: its sub-decode returns an error and so does the
whole decode. -/
theorem repair_at_depth_counterexample :
    goEnv.UnmarshalRaw (repairedText goEnv exNestedBroken) = .ok (.arr [.str "[1,]"])
      ∧ Unmarshal goEnv 3 "[1,]" (newPtr (.slice (.int .native)))
        = (.ok, ptrAt (.slice (.int .native)) (.slice [.int 1]))
      ∧ decodeItem goEnv (unmarshal goEnv 2) (.slice (.int .native)) (.str "[1,]")
        = (.error "expected an array in the input data", .nilSlice)
      ∧ Unmarshal goEnv 3 exNestedBroken (newPtr (.slice (.slice (.int .native))))
        = (.error "expected an array in the input data",
            ptrAt (.slice (.slice (.int .native))) (.slice [.nilSlice])) :=
  ⟨rfl, rfl, rfl, rfl⟩
/-! ## The post-pass of `processValue` -/

theorem Interface_primitive (t : GoType) (v : Value) (ht : t.isPrimitive = true) :
    Value.Interface t v = some (t, v) := by
  cases t <;> simp [GoType.isPrimitive] at ht <;> rfl

theorem schemaStep_stable (env : Env) (n : Nat) (t : GoType) (v : Value)
    (h : slotStable env t v) :
    schemaStep env (processValue env (n + 1)) t v = (.ok, v) := by
  obtain ⟨ht, hv⟩ := h
  simp only [schemaStep, Interface_primitive t v ht, processValue_primitive env n _ t ht,
    convert_primitive env t _ ht, hv]

theorem schemaElems_cons (env : Env) (pv : Any → GoType → Result × Any) (elemT : GoType)
    (elem : Value) (rest done : List Value) :
    schemaElems env pv elemT (elem :: rest) done =
      if (schemaStep env pv elemT elem).1 = .ok then
        schemaElems env pv elemT rest (done ++ [(schemaStep env pv elemT elem).2])
      else ((schemaStep env pv elemT elem).1, done ++ elem :: rest) := by
  rw [schemaElems]
  split
  · rename_i h; simp [h]
  · rename_i r x hne h
    have : r ≠ .ok := fun hr => hne hr
    simp [h, this]

theorem schemaEntries_cons (env : Env) (pv : Any → GoType → Result × Any) (elemT : GoType)
    (key : String) (val : Value) (rest done : List (String × Value)) :
    schemaEntries env pv elemT ((key, val) :: rest) done =
      if (schemaStep env pv elemT val).1 = .ok then
        schemaEntries env pv elemT rest (done ++ [(key, (schemaStep env pv elemT val).2)])
      else ((schemaStep env pv elemT val).1, done ++ (key, val) :: rest) := by
  rw [schemaEntries]
  split
  · rename_i h; simp [h]
  · rename_i r x hne h
    have : r ≠ .ok := fun hr => hne hr
    simp [h, this]

theorem schemaFields_cons (env : Env) (pv : Any → GoType → Result × Any) (field : Field GoType)
    (fields : List (Field GoType)) (val : Value) (rest done : List Value) :
    schemaFields env pv (field :: fields) (val :: rest) done =
      if field.exported = true then
        if (schemaStep env pv field.type val).1 = .ok then
          schemaFields env pv fields rest (done ++ [(schemaStep env pv field.type val).2])
        else ((schemaStep env pv field.type val).1, done ++ val :: rest)
      else schemaFields env pv fields rest (done ++ [val]) := by
  rw [schemaFields]
  by_cases hexp : field.exported = true
  · simp only [hexp, if_true]
    split
    · rename_i h; simp [h]
    · rename_i r x hne h
      have : r ≠ .ok := fun hr => hne hr
      simp [h, this]
  · simp [hexp]

/-- The loop over the elements of a slice: every element is replaced by what `schemaStep`
makes of it, or the loop ends with the failure of an element. -/
theorem schemaElems_spec (env : Env) (pv : Any → GoType → Result × Any) (elemT : GoType)
    (xs done : List Value) :
    ((∀ v ∈ xs, (schemaStep env pv elemT v).1 = .ok) →
        schemaElems env pv elemT xs done
          = (.ok, done ++ xs.map (fun v => (schemaStep env pv elemT v).2)))
      ∧ ((∃ v ∈ xs, (schemaStep env pv elemT v).1 ≠ .ok) →
        (schemaElems env pv elemT xs done).1 ≠ .ok ∧
        ∃ v ∈ xs, (schemaStep env pv elemT v).1 = (schemaElems env pv elemT xs done).1) := by
  induction xs generalizing done with
  | nil =>
    refine ⟨fun _ => by simp [schemaElems], ?_⟩
    rintro ⟨v, hv, _⟩
    cases hv
  | cons x rest ih =>
    rw [schemaElems_cons]
    by_cases hx : (schemaStep env pv elemT x).1 = .ok
    · simp only [hx, if_true]
      constructor
      · intro h
        rw [(ih _).1 (fun v hv => h v (List.mem_cons_of_mem _ hv))]
        simp
      · rintro ⟨v, hv, hbad⟩
        rcases List.mem_cons.1 hv with rfl | hmem
        · exact absurd hx hbad
        · obtain ⟨hne, w, hw, hres⟩ := (ih (done ++ [(schemaStep env pv elemT x).2])).2
            ⟨v, hmem, hbad⟩
          exact ⟨hne, w, List.mem_cons_of_mem _ hw, hres⟩
    · simp only [hx, if_false]
      constructor
      · intro h
        exact absurd (h x (List.mem_cons_self _ _)) hx
      · intro _
        exact ⟨hx, x, List.mem_cons_self _ _, rfl⟩

/-- The loop over the entries of a map: the value of every entry is replaced by what
`schemaStep` makes of it, or the loop ends with the failure of an entry. -/
theorem schemaEntries_spec (env : Env) (pv : Any → GoType → Result × Any) (elemT : GoType)
    (kvs done : List (String × Value)) :
    ((∀ kv ∈ kvs, (schemaStep env pv elemT kv.2).1 = .ok) →
        schemaEntries env pv elemT kvs done
          = (.ok, done ++ kvs.map (fun kv => (kv.1, (schemaStep env pv elemT kv.2).2))))
      ∧ ((∃ kv ∈ kvs, (schemaStep env pv elemT kv.2).1 ≠ .ok) →
        (schemaEntries env pv elemT kvs done).1 ≠ .ok ∧
        ∃ kv ∈ kvs, (schemaStep env pv elemT kv.2).1 = (schemaEntries env pv elemT kvs done).1) := by
  induction kvs generalizing done with
  | nil =>
    refine ⟨fun _ => by simp [schemaEntries], ?_⟩
    rintro ⟨v, hv, _⟩
    cases hv
  | cons x rest ih =>
    obtain ⟨k, x⟩ := x
    rw [schemaEntries_cons]
    by_cases hx : (schemaStep env pv elemT x).1 = .ok
    · simp only [hx, if_true]
      constructor
      · intro h
        rw [(ih _).1 (fun v hv => h v (List.mem_cons_of_mem _ hv))]
        simp
      · rintro ⟨v, hv, hbad⟩
        rcases List.mem_cons.1 hv with rfl | hmem
        · exact absurd hx hbad
        · obtain ⟨hne, w, hw, hres⟩ :=
            (ih (done ++ [(k, (schemaStep env pv elemT x).2)])).2 ⟨v, hmem, hbad⟩
          exact ⟨hne, w, List.mem_cons_of_mem _ hw, hres⟩
    · simp only [hx, if_false]
      constructor
      · intro h
        exact absurd (h (k, x) (List.mem_cons_self _ _)) hx
      · intro _
        exact ⟨hx, (k, x), List.mem_cons_self _ _, rfl⟩

/-- The loop over the fields of a record: every exported field is replaced by what
`schemaStep` makes of it and the other fields are kept, or the loop ends with the failure
of an exported field. -/
theorem schemaFields_spec (env : Env) (pv : Any → GoType → Result × Any)
    (fields : List (Field GoType)) (fs done : List Value) :
    ((∀ p ∈ fields.zip fs, p.1.exported = true → (schemaStep env pv p.1.type p.2).1 = .ok) →
        schemaFields env pv fields fs done
          = (.ok, done ++ (List.zipWith
              (fun f v => if f.exported = true then (schemaStep env pv f.type v).2 else v)
              fields fs ++ fs.drop fields.length)))
      ∧ ((∃ p ∈ fields.zip fs, p.1.exported = true ∧ (schemaStep env pv p.1.type p.2).1 ≠ .ok) →
        (schemaFields env pv fields fs done).1 ≠ .ok ∧
        ∃ p ∈ fields.zip fs, p.1.exported = true ∧
          (schemaStep env pv p.1.type p.2).1 = (schemaFields env pv fields fs done).1) := by
  induction fields generalizing fs done with
  | nil =>
    refine ⟨fun _ => by simp [schemaFields], ?_⟩
    rintro ⟨p, hp, _⟩
    simp at hp
  | cons f rest ih =>
    cases fs with
    | nil =>
      refine ⟨fun _ => by simp [schemaFields], ?_⟩
      rintro ⟨p, hp, _⟩
      simp at hp
    | cons v vs =>
      rw [schemaFields_cons]
      by_cases hexp : f.exported = true
      · simp only [hexp, if_true]
        by_cases hx : (schemaStep env pv f.type v).1 = .ok
        · simp only [hx, if_true]
          constructor
          · intro h
            rw [(ih _ _).1 (fun p hp he => h p (by
              rw [List.zip_cons_cons]; exact List.mem_cons_of_mem _ hp) he)]
            simp [hexp]
          · rintro ⟨p, hp, he, hbad⟩
            rw [List.zip_cons_cons] at hp
            rcases List.mem_cons.1 hp with rfl | hmem
            · exact absurd hx hbad
            · obtain ⟨hne, w, hw, hwe, hres⟩ :=
                (ih vs (done ++ [(schemaStep env pv f.type v).2])).2 ⟨p, hmem, he, hbad⟩
              exact ⟨hne, w, by rw [List.zip_cons_cons]; exact List.mem_cons_of_mem _ hw,
                hwe, hres⟩
        · simp only [hx, if_false]
          constructor
          · intro h
            exact absurd (h (f, v) (by rw [List.zip_cons_cons]; exact List.mem_cons_self _ _)
              hexp) hx
          · intro _
            exact ⟨hx, (f, v), by rw [List.zip_cons_cons]; exact List.mem_cons_self _ _,
              hexp, rfl⟩
      · simp only [hexp]
        constructor
        · intro h
          have hrest := (ih vs (done ++ [v])).1 (fun p hp he => h p (by
            rw [List.zip_cons_cons]; exact List.mem_cons_of_mem _ hp) he)
          simp only [Bool.false_eq_true, if_false] at hrest ⊢
          rw [hrest]
          simp [hexp]
        · rintro ⟨p, hp, he, hbad⟩
          rw [List.zip_cons_cons] at hp
          rcases List.mem_cons.1 hp with rfl | hmem
          · exact absurd he hexp
          · obtain ⟨hne, w, hw, hwe, hres⟩ := (ih vs (done ++ [v])).2 ⟨p, hmem, he, hbad⟩
            exact ⟨hne, w, by rw [List.zip_cons_cons]; exact List.mem_cons_of_mem _ hw,
              hwe, hres⟩

theorem schemaElems_stable (env : Env) (n : Nat) (elemT : GoType) (xs done : List Value)
    (h : ∀ v ∈ xs, slotStable env elemT v) :
    schemaElems env (processValue env (n + 1)) elemT xs done = (.ok, done ++ xs) := by
  induction xs generalizing done with
  | nil => simp [schemaElems]
  | cons x rest ih =>
    simp only [schemaElems, schemaStep_stable env n elemT x (h x (List.mem_cons_self _ _))]
    rw [ih _ (fun v hv => h v (List.mem_cons_of_mem _ hv))]
    simp

theorem schemaEntries_stable (env : Env) (n : Nat) (elemT : GoType)
    (kvs done : List (String × Value)) (h : ∀ kv ∈ kvs, slotStable env elemT kv.2) :
    schemaEntries env (processValue env (n + 1)) elemT kvs done = (.ok, done ++ kvs) := by
  induction kvs generalizing done with
  | nil => simp [schemaEntries]
  | cons kv rest ih =>
    obtain ⟨k, v⟩ := kv
    simp only [schemaEntries, schemaStep_stable env n elemT v (h (k, v) (List.mem_cons_self _ _))]
    rw [ih _ (fun x hx => h x (List.mem_cons_of_mem _ hx))]
    simp

theorem schemaFields_stable (env : Env) (n : Nat) (fields : List (Field GoType))
    (fs done : List Value) (h : fieldsStable env fields fs) :
    schemaFields env (processValue env (n + 1)) fields fs done = (.ok, done ++ fs) := by
  induction fields generalizing fs done with
  | nil => simp [schemaFields]
  | cons f rest ih =>
    cases fs with
    | nil => simp [schemaFields]
    | cons v vs =>
      obtain ⟨hslot, hrest⟩ := h
      by_cases hexp : f.exported = true
      · have hs : slotStable env f.type v := by
          rcases hslot with hf | hs
          · rw [hf] at hexp; cases hexp
          · exact hs
        simp only [schemaFields, hexp, if_true, schemaStep_stable env n f.type v hs]
        rw [ih _ _ hrest]
        simp
      · simp only [schemaFields, hexp]
        rw [ih _ _ hrest]
        simp

theorem processSchema_stable (env : Env) (n : Nat) (t : GoType) (x : Value)
    (h : postPassStable env t x) :
    processSchema env (n + 2) (ptrAt t x) = (.ok, ptrAt t x) := by
  cases t <;> cases x <;> first
    | rfl
    | (simp only [ptrAt, processSchema, schemaEntries_stable env n _ _ [] h, List.nil_append])
    | (simp only [ptrAt, processSchema, schemaElems_stable env n _ _ [] h, List.nil_append])
    | (simp only [ptrAt, processSchema, schemaFields_stable env n _ _ [] h, List.nil_append])

theorem processSchema_slice (env : Env) (k : Nat) (e : GoType) (xs : List Value) :
    processSchema env (k + 1) (ptrAt (.slice e) (.slice xs))
      = ((schemaElems env (processValue env k) e xs []).1,
          ptrAt (.slice e) (.slice (schemaElems env (processValue env k) e xs []).2)) := by
  simp only [ptrAt, processSchema]

theorem processSchema_map (env : Env) (k : Nat) (e : GoType) (kvs : List (String × Value)) :
    processSchema env (k + 1) (ptrAt (.map e) (.map kvs))
      = ((schemaEntries env (processValue env k) e kvs []).1,
          ptrAt (.map e) (.map (schemaEntries env (processValue env k) e kvs []).2)) := by
  simp only [ptrAt, processSchema]

theorem processSchema_struct (env : Env) (k : Nat) (fields : List (Field GoType))
    (fs : List Value) :
    processSchema env (k + 1) (ptrAt (.struct fields) (.struct fs))
      = ((schemaFields env (processValue env k) fields fs []).1,
          ptrAt (.struct fields)
            (.struct (schemaFields env (processValue env k) fields fs []).2)) := by
  simp only [ptrAt, processSchema]

/-- What `processValue` returns for a structural destination, given the text it chose and
the value `unmarshal` decoded from it, in terms of the post-pass. -/
theorem processValue_post (env : Env) (k : Nat) (value : Any) (t : GoType) (bs : String)
    (x : Value) (ht : t.isStructural = true) (htext : chooseText env value = .ok bs)
    (hdec : unmarshal env k bs (newPtr t) = (.ok, ptrAt t x)) :
    processValue env (k + 1) value t =
      if (processSchema env k (ptrAt t x)).1 = .ok then
        (.ok, Value.Interface t (processSchema env k (ptrAt t x)).2.elem)
      else ((processSchema env k (ptrAt t x)).1, none) := by
  simp only [processValue, ht, if_true, htext, hdec]
  generalize processSchema env k (ptrAt t x) = res
  obtain ⟨r, y⟩ := res
  cases r <;> simp

/-- C19 (amended): the post-pass decodes every slot again. For a structural destination,
once `unmarshal` of the chosen text into fresh storage has produced the value `x`,
`processSchema` replaces every element of a slice, the value of every entry of a map and
every exported field of a record by what `schemaStep` makes of it (`processValue` of its
current value, then `Convert`), and `processValue` returns the result; when a slot fails,
`processValue` does not return nil but the failure of a slot. Nothing changes when the
destination is an Optional or a Sum or `x` is a nil slice or a nil map, nor when every
slot visited is of primitive kind with a value the caster returns unchanged. A slot of
interface type that holds a string the detector accepts is replaced by the value decoded
from the content of the string, and a slot of interface type that holds nil makes
`Convert` panic. -/
theorem post_pass_effect (env : Env) (n : Nat) (value : Any) (t : GoType) (bs : String)
    (x : Value)
    (ht : t.isStructural = true)
    (htext : chooseText env value = .ok bs)
    (hdec : unmarshal env (n + 3) bs (newPtr t) = (.ok, ptrAt t x)) :
    (∀ e xs, t = .slice e → x = .slice xs →
        ((∀ v ∈ xs, (schemaStep env (processValue env (n + 2)) e v).1 = .ok) →
          processValue env (n + 4) value t
            = (.ok, some (t, .slice
                (xs.map (fun v => (schemaStep env (processValue env (n + 2)) e v).2)))))
        ∧ ((∃ v ∈ xs, (schemaStep env (processValue env (n + 2)) e v).1 ≠ .ok) →
          (processValue env (n + 4) value t).1 ≠ .ok ∧
          ∃ v ∈ xs, (schemaStep env (processValue env (n + 2)) e v).1
            = (processValue env (n + 4) value t).1))
      ∧ (∀ e kvs, t = .map e → x = .map kvs →
        ((∀ kv ∈ kvs, (schemaStep env (processValue env (n + 2)) e kv.2).1 = .ok) →
          processValue env (n + 4) value t
            = (.ok, some (t, .map
                (kvs.map (fun kv => (kv.1, (schemaStep env (processValue env (n + 2)) e kv.2).2))))))
        ∧ ((∃ kv ∈ kvs, (schemaStep env (processValue env (n + 2)) e kv.2).1 ≠ .ok) →
          (processValue env (n + 4) value t).1 ≠ .ok ∧
          ∃ kv ∈ kvs, (schemaStep env (processValue env (n + 2)) e kv.2).1
            = (processValue env (n + 4) value t).1))
      ∧ (∀ fields fs, t = .struct fields → x = .struct fs →
        ((∀ p ∈ fields.zip fs, p.1.exported = true →
            (schemaStep env (processValue env (n + 2)) p.1.type p.2).1 = .ok) →
          processValue env (n + 4) value t
            = (.ok, some (t, .struct (List.zipWith
                (fun f v => if f.exported = true then
                  (schemaStep env (processValue env (n + 2)) f.type v).2 else v)
                fields fs ++ fs.drop fields.length))))
        ∧ ((∃ p ∈ fields.zip fs, p.1.exported = true ∧
            (schemaStep env (processValue env (n + 2)) p.1.type p.2).1 ≠ .ok) →
          (processValue env (n + 4) value t).1 ≠ .ok ∧
          ∃ p ∈ fields.zip fs, p.1.exported = true ∧
            (schemaStep env (processValue env (n + 2)) p.1.type p.2).1
              = (processValue env (n + 4) value t).1))
      ∧ (((∃ e, t = .ptr e) ∨ t = .iface ∨ x = .nilSlice ∨ x = .nilMap) →
        processValue env (n + 4) value t = (.ok, Value.Interface t x))
      ∧ (postPassStable env t x →
        processValue env (n + 4) value t = (.ok, Value.Interface t x))
      ∧ (∀ s t1 x1, isJSONString env s = true →
        env.Unmarshal s .iface .nilIface = (none, .iface t1 x1) →
        schemaStep env (processValue env (n + 2)) .iface (.iface .string (.str s))
          = (.ok, .iface t1 x1))
      ∧ (∀ m, env.Marshal none = .ok m → env.Unmarshal m .iface .nilIface = (none, .nilIface) →
        schemaStep env (processValue env (n + 2)) .iface .nilIface
          = (.panic "runtime error: invalid memory address or nil pointer dereference",
              .nilIface)) := by
  have hpv := processValue_post env (n + 3) value t bs x ht htext hdec
  refine ⟨?_, ?_, ?_, ?_, ?_, ?_, ?_⟩
  · intro e xs hte hx
    subst hte hx
    rw [hpv, processSchema_slice]
    constructor
    · intro hall
      rw [(schemaElems_spec env _ e xs []).1 hall]
      rfl
    · intro hbad
      obtain ⟨hne, v, hv, hres⟩ := (schemaElems_spec env _ e xs []).2 hbad
      simp only [hne, if_false]
      exact ⟨hne, v, hv, hres⟩
  · intro e kvs hte hx
    subst hte hx
    rw [hpv, processSchema_map]
    constructor
    · intro hall
      rw [(schemaEntries_spec env _ e kvs []).1 hall]
      rfl
    · intro hbad
      obtain ⟨hne, v, hv, hres⟩ := (schemaEntries_spec env _ e kvs []).2 hbad
      simp only [hne, if_false]
      exact ⟨hne, v, hv, hres⟩
  · intro fields fs hte hx
    subst hte hx
    rw [hpv, processSchema_struct]
    constructor
    · intro hall
      rw [(schemaFields_spec env _ fields fs []).1 hall]
      rfl
    · intro hbad
      obtain ⟨hne, v, hv, he, hres⟩ := (schemaFields_spec env _ fields fs []).2 hbad
      simp only [hne, if_false]
      exact ⟨hne, v, hv, he, hres⟩
  · intro hk
    rw [hpv]
    rcases hk with ⟨e, rfl⟩ | rfl | rfl | rfl
    · rfl
    · rfl
    · cases t <;> rfl
    · cases t <;> rfl
  · intro hstable
    rw [hpv, processSchema_stable env (n + 1) t x hstable]
    rfl
  · intro s t1 x1 hd hu
    have hc : chooseText env (some (.string, .str s)) = .ok s := by
      simp [chooseText, Any.asString, hd]
    have hun : unmarshal env (n + 1) s (newPtr .iface) = (.ok, ptrAt .iface (.iface t1 x1)) := by
      rw [newPtr, ← ptrAt]
      exact unmarshal_fast env n s .iface (zero .iface) (by rw [zero, hu])
        |>.trans (by rw [zero, hu])
    simp only [schemaStep, Value.Interface, processValue, GoType.isStructural, if_true, hc, hun]
    rfl
  · intro m hm hu
    have hc : chooseText env none = .ok m := by
      simp [chooseText, Any.asString, hm]
    have hun : unmarshal env (n + 1) m (newPtr .iface) = (.ok, ptrAt .iface .nilIface) := by
      rw [newPtr, ← ptrAt]
      exact unmarshal_fast env n m .iface (zero .iface) (by rw [zero, hu])
        |>.trans (by rw [zero, hu])
    simp only [schemaStep, Value.Interface, processValue, GoType.isStructural, if_true, hc, hun]
    rfl

/-- Witness of `post_pass_effect`. The inner record given as the string `{"x":"[1]"}`:
`unmarshal` stores the string `[1]` in the field `x`, of interface type, and the post-pass
replaces it by the array `[1]`. The same happens to an element of a slice of interfaces and
to an entry of a map of interfaces. The nested record of `TestUnmarshal`, whose only field
is an int, is returned as `unmarshal` produced it. -/
theorem post_pass_effect_witness :
    processValue goEnv 6 (Raw.toAny (.str "\x7b\"x\":\"[1]\"\x7d")) exInnerAny
        = (.ok, some (exInnerAny, .struct [.iface (.slice .iface)
            (.slice [.iface .float64 (.float ⟨1, 0⟩)])]))
      ∧ processValue goEnv 6 (Raw.toAny (.arr [.str "[1]", .num ⟨2, 0⟩])) (.slice .iface)
        = (.ok, some (.slice .iface, .slice [.iface (.slice .iface)
            (.slice [.iface .float64 (.float ⟨1, 0⟩)]), .iface .float64 (.float ⟨2, 0⟩)]))
      ∧ processValue goEnv 6 (Raw.toAny (.obj [("k", .str "[1]")])) (.map .iface)
        = (.ok, some (.map .iface, .map [("k", .iface (.slice .iface)
            (.slice [.iface .float64 (.float ⟨1, 0⟩)]))]))
      ∧ processValue goEnv 4 (Raw.toAny (.str "\x7b\"a\": \"123\"\x7d")) exNested
        = (.ok, Value.Interface exNested (.struct [.int 123]))
      ∧ schemaStep goEnv (processValue goEnv 4) .iface (.iface .string (.str "[1]"))
        = (.ok, .iface (.slice .iface) (.slice [.iface .float64 (.float ⟨1, 0⟩)])) :=
  ⟨((post_pass_effect goEnv 2 (Raw.toAny (.str "\x7b\"x\":\"[1]\"\x7d")) exInnerAny
      "\x7b\"x\":\"[1]\"\x7d" (.struct [.iface .string (.str "[1]")]) rfl rfl rfl).2.2.1
      [⟨"X", "x", true, .iface⟩] [.iface .string (.str "[1]")] rfl rfl).1
      (by
        intro p hp _
        simp only [List.zip_cons_cons, List.zip_nil_right, List.mem_singleton] at hp
        subst hp
        rfl),
    ((post_pass_effect goEnv 2 (Raw.toAny (.arr [.str "[1]", .num ⟨2, 0⟩])) (.slice .iface)
      "[\"[1]\",2]" (.slice [.iface .string (.str "[1]"), .iface .float64 (.float ⟨2, 0⟩)])
      rfl rfl rfl).1 .iface [.iface .string (.str "[1]"), .iface .float64 (.float ⟨2, 0⟩)]
      rfl rfl).1
      (by
        intro v hv
        simp only [List.mem_cons, List.mem_singleton, List.not_mem_nil, or_false] at hv
        rcases hv with rfl | rfl <;> rfl),
    ((post_pass_effect goEnv 2 (Raw.toAny (.obj [("k", .str "[1]")])) (.map .iface)
      "\x7b\"k\":\"[1]\"\x7d" (.map [("k", .iface .string (.str "[1]"))])
      rfl rfl rfl).2.1 .iface [("k", .iface .string (.str "[1]"))] rfl rfl).1
      (by
        intro kv hkv
        simp only [List.mem_singleton] at hkv
        subst hkv
        rfl),
    (post_pass_effect goEnv 0 (Raw.toAny (.str "\x7b\"a\": \"123\"\x7d")) exNested
      "\x7b\"a\": \"123\"\x7d" (.struct [.int 123]) rfl rfl rfl).2.2.2.2.1
      ⟨Or.inr ⟨rfl, rfl⟩, trivial⟩,
    (post_pass_effect goEnv 2 (Raw.toAny (.str "\x7b\"x\":\"[1]\"\x7d")) exInnerAny
      "\x7b\"x\":\"[1]\"\x7d" (.struct [.iface .string (.str "[1]")]) rfl rfl rfl).2.2.2.2.2.1
      "[1]" (.slice .iface) (.slice [.iface .float64 (.float ⟨1, 0⟩)]) rfl rfl⟩

/-- Counterexample to C19 as stated. In `exAnyText` the inner record is given as a string;
`unmarshal` of that string into a fresh inner record stores the string `[1]` in the field
`x`, of interface type, and the post-pass decodes that string again: the decode ends with
the array `[1]` in the field. An element of a slice of interfaces and an entry of a map of
interfaces are changed in the same way. In `exAnyEmptyText` the field `x` is left nil by
`unmarshal` (which succeeds), and the post-pass panics in `Convert`. -/
theorem post_pass_counterexample :
    chooseText goEnv (Raw.toAny (.str "\x7b\"x\":\"[1]\"\x7d")) = .ok "\x7b\"x\":\"[1]\"\x7d"
      ∧ unmarshal goEnv 5 "\x7b\"x\":\"[1]\"\x7d" (newPtr exInnerAny)
        = (.ok, ptrAt exInnerAny (.struct [.iface .string (.str "[1]")]))
      ∧ processValue goEnv 6 (Raw.toAny (.str "\x7b\"x\":\"[1]\"\x7d")) exInnerAny
        = (.ok, some (exInnerAny, .struct [.iface (.slice .iface)
            (.slice [.iface .float64 (.float ⟨1, 0⟩)])]))
      ∧ Value.iface .string (.str "[1]")
        ≠ Value.iface (.slice .iface) (.slice [.iface .float64 (.float ⟨1, 0⟩)])
      ∧ Unmarshal goEnv 7 exAnyText (newPtr exOuterAny)
        = (.ok, ptrAt exOuterAny (.struct [.struct [.iface (.slice .iface)
            (.slice [.iface .float64 (.float ⟨1, 0⟩)])]]))
      ∧ unmarshal goEnv 5 "[\"[1]\",2]" (newPtr (.slice .iface))
        = (.ok, ptrAt (.slice .iface)
            (.slice [.iface .string (.str "[1]"), .iface .float64 (.float ⟨2, 0⟩)]))
      ∧ processValue goEnv 6 (Raw.toAny (.arr [.str "[1]", .num ⟨2, 0⟩])) (.slice .iface)
        = (.ok, some (.slice .iface, .slice [.iface (.slice .iface)
            (.slice [.iface .float64 (.float ⟨1, 0⟩)]), .iface .float64 (.float ⟨2, 0⟩)]))
      ∧ unmarshal goEnv 5 "\x7b\"k\":\"[1]\"\x7d" (newPtr (.map .iface))
        = (.ok, ptrAt (.map .iface) (.map [("k", .iface .string (.str "[1]"))]))
      ∧ processValue goEnv 6 (Raw.toAny (.obj [("k", .str "[1]")])) (.map .iface)
        = (.ok, some (.map .iface, .map [("k", .iface (.slice .iface)
            (.slice [.iface .float64 (.float ⟨1, 0⟩)]))]))
      ∧ unmarshal goEnv 5 "\x7b\x7d" (newPtr exInnerAny)
        = (.ok, ptrAt exInnerAny (.struct [.nilIface]))
      ∧ processValue goEnv 6 (Raw.toAny (.str "\x7b\x7d")) exInnerAny
        = (.panic "runtime error: invalid memory address or nil pointer dereference", none)
      ∧ (Unmarshal goEnv 7 exAnyEmptyText (newPtr exOuterAny)).1
        = .panic "runtime error: invalid memory address or nil pointer dereference" :=
  ⟨rfl, rfl, rfl, by simp, rfl, rfl, rfl, rfl, rfl, rfl, rfl, rfl⟩

/-! ## The order in which the keys of a record are visited -/

theorem structStep_comm (env : Env) (pv : Any → GoType → Result × Any)
    (fields : List (Field GoType)) (k1 k2 : String) (v1 v2 : Raw) (fs : List Value)
    (hdiff : ∀ i f j g, findFieldByJSONTag fields k1 = some (i, f) →
      findFieldByJSONTag fields k2 = some (j, g) → i ≠ j) :
    (structStep env pv fields k2 v2 (structStep env pv fields k1 v1 fs).2).2
      = (structStep env pv fields k1 v1 (structStep env pv fields k2 v2 fs).2).2 := by
  rcases structStep_shape env pv fields k1 v1 with ⟨r1, h1⟩ | ⟨i, f, x, hi, h1⟩ <;>
    rcases structStep_shape env pv fields k2 v2 with ⟨r2, h2⟩ | ⟨j, g, y, hj, h2⟩
  · simp only [h1, h2]
  · simp only [h1, h2]
  · simp only [h1, h2]
  · simp only [h1, h2]
    exact List.set_comm x y fs (hdiff i f j g hi hj)

theorem resolvedIndices_cons (fields : List (Field GoType)) (key : String) (value : Raw)
    (rest : List (String × Raw)) :
    resolvedIndices fields ((key, value) :: rest) =
      match findFieldByJSONTag fields key with
      | some (i, _) => i :: resolvedIndices fields rest
      | none => resolvedIndices fields rest := by
  cases h : findFieldByJSONTag fields key with
  | none => simp [resolvedIndices, List.filterMap_cons, h]
  | some r => simp [resolvedIndices, List.filterMap_cons, h]

theorem resolvedIndices_tail (fields : List (Field GoType)) (kv : String × Raw)
    (rest : List (String × Raw)) (h : (resolvedIndices fields (kv :: rest)).Nodup) :
    (resolvedIndices fields rest).Nodup := by
  obtain ⟨key, value⟩ := kv
  rw [resolvedIndices_cons] at h
  split at h
  · exact (List.nodup_cons.1 h).2
  · exact h

theorem structLoop_perm (env : Env) (pv : Any → GoType → Result × Any)
    (fields : List (Field GoType)) (l1 l2 : List (String × Raw)) (hperm : l1.Perm l2)
    (hinj : (resolvedIndices fields l1).Nodup)
    (hok : ∀ kv ∈ l1, (structStep env pv fields kv.1 kv.2 []).1 = .ok) (fs : List Value) :
    structLoop env pv fields l1 fs = structLoop env pv fields l2 fs := by
  induction hperm generalizing fs with
  | nil => rfl
  | cons kv _ ih =>
    obtain ⟨key, value⟩ := kv
    rw [structLoop_cons, structLoop_cons]
    split
    · exact ih (resolvedIndices_tail fields _ _ hinj)
        (fun x hx => hok x (List.mem_cons_of_mem _ hx)) _
    · rfl
  | swap a b l =>
    obtain ⟨ka, va⟩ := a
    obtain ⟨kb, vb⟩ := b
    have hoka : ∀ fs, (structStep env pv fields ka va fs).1 = .ok := fun fs => by
      rw [structStep_result]
      exact hok (ka, va) (by simp)
    have hokb : ∀ fs, (structStep env pv fields kb vb fs).1 = .ok := fun fs => by
      rw [structStep_result]
      exact hok (kb, vb) (by simp)
    have hdiff : ∀ i f j g, findFieldByJSONTag fields kb = some (i, f) →
        findFieldByJSONTag fields ka = some (j, g) → i ≠ j := by
      intro i f j g hi hj hij
      rw [resolvedIndices_cons, hi] at hinj
      simp only at hinj
      rw [resolvedIndices_cons, hj] at hinj
      simp only at hinj
      have := (List.nodup_cons.1 hinj).1
      exact this (by rw [hij]; exact List.mem_cons_self _ _)
    rw [structLoop_cons, structLoop_cons, structLoop_cons, structLoop_cons]
    simp only [hoka, hokb, if_true]
    rw [structStep_comm env pv fields kb ka vb va fs hdiff]
  | trans h12 h23 ih1 ih2 =>
    have hinj2 : (resolvedIndices fields _).Nodup :=
      ((h12.filterMap _).nodup_iff).1 hinj
    rw [ih1 hinj hok fs, ih2 hinj2 (fun kv hkv => hok kv ((h12.mem_iff).2 hkv)) fs]

/-- C20 (amended): order independence of the reconciliation of a record, where it holds.
For two orders of the same generic mapping, no two keys of which resolve to the same
field: the reconciliation returns nil in one order exactly when it does in the other, and
when it does, both orders give the same outcome, that is the same value of every field. -/
theorem record_order_independence (env : Env) (dec : String → Any → Result × Any)
    (pv : Any → GoType → Result × Any) (data : String) (fields : List (Field GoType))
    (kvs1 kvs2 : List (String × Raw)) (fs : List Value)
    (hperm : kvs1.Perm kvs2)
    (hinj : (resolvedIndices fields kvs1).Nodup) :
    ((unmarshalSwitch env dec pv data (.struct fields) (.obj kvs1) (.struct fs)).1 = .ok ↔
        (unmarshalSwitch env dec pv data (.struct fields) (.obj kvs2) (.struct fs)).1 = .ok)
      ∧ ((unmarshalSwitch env dec pv data (.struct fields) (.obj kvs1) (.struct fs)).1 = .ok →
        unmarshalSwitch env dec pv data (.struct fields) (.obj kvs1) (.struct fs)
          = unmarshalSwitch env dec pv data (.struct fields) (.obj kvs2) (.struct fs)) := by
  rw [unmarshalSwitch_struct_obj, unmarshalSwitch_struct_obj]
  constructor
  · simp only [structLoop_ok_iff]
    exact ⟨fun h kv hkv => h kv (hperm.mem_iff.2 hkv), fun h kv hkv => h kv (hperm.mem_iff.1 hkv)⟩
  · intro hok
    simp only at hok
    rw [structLoop_perm env pv fields kvs1 kvs2 hperm hinj ((structLoop_ok_iff ..).1 hok) fs]

/-- Witness of `record_order_independence`: the two keys of scenario 6 in both orders. -/
theorem record_order_independence_witness :
    Unmarshal goEnv 2 "\x7b\"count\":\"7\",\"name\":\"x\"\x7d" (newPtr exRecord)
        = Unmarshal goEnv 2 exRecordText (newPtr exRecord)
      ∧ ((unmarshalSwitch goEnv (unmarshal goEnv 1) (processValue goEnv 1) exRecordText
            (.struct [⟨"Name", "name", true, .string⟩, ⟨"Count", "count", true, .int .native⟩])
            (.obj [("name", .str "x"), ("count", .str "7")]) (.struct [.str "", .int 0])).1 = .ok ↔
          (unmarshalSwitch goEnv (unmarshal goEnv 1) (processValue goEnv 1) exRecordText
            (.struct [⟨"Name", "name", true, .string⟩, ⟨"Count", "count", true, .int .native⟩])
            (.obj [("count", .str "7"), ("name", .str "x")]) (.struct [.str "", .int 0])).1 = .ok) :=
  ⟨rfl,
    (record_order_independence goEnv (unmarshal goEnv 1) (processValue goEnv 1) exRecordText
      [⟨"Name", "name", true, .string⟩, ⟨"Count", "count", true, .int .native⟩]
      [("name", .str "x"), ("count", .str "7")] [("count", .str "7"), ("name", .str "x")]
      [.str "", .int 0] (List.Perm.swap _ _ _) (by decide)).1⟩

/-- Counterexample to C20 as stated. In `exOmit` the keys `a` and `a,omitempty` both
resolve to the field tagged `a,omitempty`, and the key visited last sets it: the two orders
of the same mapping end with `2` and with `1`. In `exTwo` both values fail, and the error
returned is that of the key visited first. -/
theorem record_order_counterexample :
    findFieldByJSONTag [⟨"A", "a,omitempty", true, GoType.int .native⟩] "a"
        = some (0, ⟨"A", "a,omitempty", true, GoType.int .native⟩)
      ∧ findFieldByJSONTag [⟨"A", "a,omitempty", true, GoType.int .native⟩] "a,omitempty"
        = some (0, ⟨"A", "a,omitempty", true, GoType.int .native⟩)
      ∧ goEnv.UnmarshalRaw "\x7b\"a\":\"1\",\"a,omitempty\":\"2\"\x7d"
        = .ok (.obj [("a", .str "1"), ("a,omitempty", .str "2")])
      ∧ Unmarshal goEnv 2 "\x7b\"a\":\"1\",\"a,omitempty\":\"2\"\x7d" (newPtr exOmit)
        = (.ok, ptrAt exOmit (.struct [.int 2]))
      ∧ Unmarshal goEnv 2 "\x7b\"a,omitempty\":\"2\",\"a\":\"1\"\x7d" (newPtr exOmit)
        = (.ok, ptrAt exOmit (.struct [.int 1]))
      ∧ Value.int 2 ≠ Value.int 1
      ∧ (Unmarshal goEnv 3 "\x7b\"b\":5,\"c\":5\x7d" (newPtr exTwo)).1
        = .error "expected an array in the input data"
      ∧ (Unmarshal goEnv 3 "\x7b\"c\":5,\"b\":5\x7d" (newPtr exTwo)).1
        = .error "expected an map in the input data" :=
  ⟨rfl, rfl, rfl, rfl, rfl, by simp, rfl, rfl⟩

end Ljson
